import Mathlib

/-!
# H5P.Question: ordered insertion, button toggling and feedback scheduling

A shallow embedding of `src/scripts/question.js`.

The page is seen through the calls the script makes on it.  A container is a
list of children plus the fact of being rendered in the document; an element is
`:visible` when it is a child of a rendered container.  Style sheets are not
part of the repository, so classes and `max-height` are recorded but do not
change what `:visible` answers.  A call that dereferences `undefined` raises a
`TypeError`; the state the call has reached by then is kept, as it is in the
browser.

What the model takes as given:

* ids are ordinary property names, so `buttons[id]` and `sections[id]` are
  defined exactly for what was stored under `id`, and `for (var i in buttons)`
  runs through the buttons in the order of their creation;
* `attach` is handed one and the same host container each time; the class put
  on the host container is not recorded;
* any pending timer may be the next to fire, which covers every order a browser
  can choose;
* jQuery `.add` keeps elements that are not in the document in the order in which
  they were added;
* the `load` handler of the image and `scaleImage` are left out.
-/

namespace H5PQuestion

/-! ## The page as the Insertion Planner sees it -/

/-- The exception raised when a method is called on `undefined`. -/
inductive JsError where
  | typeError
  deriving DecidableEq, Repr

/-- A parent element: its children in document order, and whether the parent
itself is displayed in the document. -/
structure Container (E : Type) where
  children : List E
  rendered : Bool

section Planner

variable {E : Type} [DecidableEq E]

/-- jQuery `.is(':visible')` for an element handled through this container. -/
def Container.visible (c : Container E) (e : E) : Bool :=
  c.rendered && decide (e ∈ c.children)

/-- Taking an element out of the child list (a node has one place at most). -/
def without (e : E) (l : List E) : List E :=
  l.filter (fun x => decide (x ≠ e))

/-- Puts `e` right behind the first `t` of a child list. -/
def placeAfter (e t : E) : List E → List E
  | [] => []
  | x :: xs => if x = t then x :: e :: xs else x :: placeAfter e t xs

/-- jQuery `e.prependTo($container)`: the node moves to the front. -/
def Container.prependTo (c : Container E) (e : E) : Container E :=
  { c with children := e :: without e c.children }

/-- jQuery `e.insertAfter(t)`: the node moves behind `t`. -/
def Container.insertAfter (c : Container E) (e t : E) : Container E :=
  { c with children := placeAfter e t (without e c.children) }

/-- The loop `while (i > 0 && !elements[order[i - 1]].is(':visible')) i--`. -/
def walkBack (order : List String) (elements : String → Option E) (c : Container E) :
    Nat → Except JsError Nat
  | 0 => .ok 0
  | i + 1 =>
    match order[i]? with
    | none => .error .typeError
    | some k =>
      match elements k with
      | none => .error .typeError
      | some t => if c.visible t then .ok (i + 1) else walkBack order elements c i

/-- The function `insert(order, id, elements, $container)` of question.js. -/
def insert (order : List String) (id : String) (elements : String → Option E)
    (c : Container E) : Except JsError (Container E) :=
  let i := order.indexOf id
  if i < order.length then
    match walkBack order elements c i with
    | .error err => .error err
    | .ok 0 =>
      match elements id with
      | none => .error .typeError
      | some e => .ok (c.prependTo e)
    | .ok (j + 1) =>
      match elements id, order[j]? with
      | some e, some k =>
        match elements k with
        | some t => .ok (c.insertAfter e t)
        | none => .error .typeError
      | _, _ => .error .typeError
  else .ok c

/-- The ids listed before the first occurrence of `id`. -/
def predecessors (order : List String) (id : String) : List String :=
  order.take (order.indexOf id)

/-- Whether the element registered under `k` is visible. -/
def visibleId (elements : String → Option E) (c : Container E) (k : String) : Bool :=
  match elements k with
  | some t => c.visible t
  | none => false

end Planner

/-! ## The state of one Question -/

/-- An inline `max-height` as the script sets it. -/
inductive MaxHeight where
  | unset
  | unconstrained
  | zero
  | natural
  deriving DecidableEq, Repr

/-- What a section element holds. -/
inductive Content where
  | empty
  | html (s : String)
  | image (path alt : String)
  | feedback (text : String)
  deriving DecidableEq, Repr

/-- The attributes of a section element. -/
structure Elem where
  classes : List String
  maxHeight : MaxHeight
  content : Content
  deriving DecidableEq, Repr

/-- The score indicator returned by `JoubelUI.createScoreBar`. -/
structure ScoreBar where
  maxScore : Int
  score : Int
  deriving DecidableEq, Repr

/-- The functions the script hands to `setTimeout`. -/
inductive Callback where
  | toggleButtons
  | hideButtons
  | showFeedbackSection
  | detachFeedback
  deriving DecidableEq, Repr

/-- A pending `setTimeout`. -/
structure Timer where
  handle : Nat
  delay : Nat
  callback : Callback
  deriving DecidableEq, Repr

/-- Calls on the page and on the host, in the order they are made. -/
inductive Event where
  | inserted (id : String)
  | detachCalled (id : String)
  | focusCalled (id : String)
  | focusButtonCalled
  | feedbackInserted
  | feedbackDetached
  | hookCalled
  | triggered
  | emptied
  | laidOut (nodes : List Nat)
  | scoreBarCreated (maxScore : Int)
  deriving DecidableEq, Repr

/-- The variables of the closure `Question(type)` and the part of the page they
reach.  A section element is a number (`nextNode` counts the `$('<div/>')`
made so far), a button element is named by its id. -/
structure Question where
  type : String
  order : List String
  sections : String → Option Nat
  buttons : List String
  buttonOrder : List String
  wrapper : Bool
  scoreBar : Option ScoreBar
  showFeedback : Bool
  buttonsToHide : List String
  buttonsToShow : List String
  toggleButtonsTimer : Option Nat
  nextNode : Nat
  elems : Nat → Elem
  labels : String → Option String
  wrapperChildren : List Nat
  buttonChildren : List String
  hostRendered : Bool
  focus : Option String
  timers : List Timer
  nextTimer : Nat
  log : List Event

/-- How a call ends: normally, or with a `TypeError` that leaves the state
reached so far. -/
inductive Outcome where
  | ok (q : Question)
  | threw (q : Question)

/-- The state a call leaves behind. -/
def Outcome.state : Outcome → Question
  | .ok q => q
  | .threw q => q

/-- Whether the call returned without raising. -/
def Outcome.completed : Outcome → Bool
  | .ok _ => true
  | .threw _ => false

/-- Sequencing: a raised error skips the rest. -/
def Outcome.andThen (o : Outcome) (f : Question → Outcome) : Outcome :=
  match o with
  | .ok q => f q
  | .threw q => .threw q

/-- The closure of `new H5P.Question(type)`. -/
def Question.new (type : String) : Question where
  type := type
  order := ["image", "introduction", "content", "feedback", "buttons"]
  sections := fun _ => none
  buttons := []
  buttonOrder := []
  wrapper := false
  scoreBar := none
  showFeedback := false
  buttonsToHide := []
  buttonsToShow := []
  toggleButtonsTimer := none
  nextNode := 0
  elems := fun _ => ⟨[], .unset, .empty⟩
  labels := fun _ => none
  wrapperChildren := []
  buttonChildren := []
  hostRendered := true
  focus := none
  timers := []
  nextTimer := 1
  log := []

/-! ### Page queries and updates -/

/-- The `$wrapper` with its children. -/
def Question.wrapperContainer (q : Question) : Container Nat :=
  ⟨q.wrapperChildren, q.hostRendered⟩

/-- `.is(':visible')` of a section element. -/
def Question.sectionVisible (q : Question) (n : Nat) : Bool :=
  q.wrapperContainer.visible n

/-- The element `sections.buttons` with the buttons attached to it. -/
def Question.buttonsContainer (q : Question) : Container String :=
  ⟨q.buttonChildren,
    match q.sections "buttons" with
    | some n => q.sectionVisible n
    | none => false⟩

/-- The object `buttons`, read at a key. -/
def Question.buttonElement (q : Question) (id : String) : Option String :=
  if id ∈ q.buttons then some id else none

/-- `buttons[id].is(':visible')`. -/
def Question.buttonVisible (q : Question) (id : String) : Bool :=
  q.buttonsContainer.visible id

/-- Appends to the record of calls. -/
def Question.record (q : Question) (e : Event) : Question :=
  { q with log := q.log ++ [e] }

/-- Changes the attributes of one section element. -/
def Question.setElem (q : Question) (n : Nat) (f : Elem → Elem) : Question :=
  { q with elems := fun m => if m = n then f (q.elems n) else q.elems m }

/-- jQuery `.addClass`. -/
def Question.addClass (q : Question) (n : Nat) (c : String) : Question :=
  q.setElem n (fun e => { e with classes := if c ∈ e.classes then e.classes else e.classes ++ [c] })

/-- jQuery `.removeClass`. -/
def Question.removeClass (q : Question) (n : Nat) (c : String) : Question :=
  q.setElem n (fun e => { e with classes := without c e.classes })

/-- jQuery `.css('max-height', h)`. -/
def Question.setMaxHeight (q : Question) (n : Nat) (h : MaxHeight) : Question :=
  q.setElem n (fun e => { e with maxHeight := h })

/-- jQuery `.hasClass`. -/
def Question.hasClass (q : Question) (n : Nat) (c : String) : Bool :=
  decide (c ∈ (q.elems n).classes)

/-- `buttons[id].detach()`; a detached element cannot keep the focus. -/
def Question.detachButton (q : Question) (id : String) : Question :=
  { q with
    buttonChildren := without id q.buttonChildren
    focus := if q.focus = some id then none else q.focus
    log := q.log ++ [.detachCalled id] }

/-- `buttons[id].focus()`; the browser moves the focus only to an element it
displays. -/
def Question.focusElement (q : Question) (id : String) : Question :=
  { q with
    focus := if q.buttonVisible id then some id else q.focus
    log := q.log ++ [.focusCalled id] }

/-- `setTimeout(callback, delay)`; the handle is a positive number. -/
def Question.setTimeout (q : Question) (cb : Callback) (delay : Nat) : Question :=
  { q with
    timers := q.timers ++ [⟨q.nextTimer, delay, cb⟩]
    nextTimer := q.nextTimer + 1 }

/-- A string or `undefined` handed over as section content; `if (content)` is
false for `undefined` and for the empty string. -/
def Content.ofValue : Option String → Content
  | none => .empty
  | some s => if s = "" then .empty else .html s

/-! ### The private functions of the closure -/

/-- The function `register(section, content)`: always a new `$('<div/>')`. -/
def register (q : Question) (name : String) (content : Content) : Question :=
  { q with
    sections := fun k => if k = name then some q.nextNode else q.sections k
    elems := fun m =>
      if m = q.nextNode then ⟨["h5p-question-" ++ name], .unset, content⟩ else q.elems m
    nextNode := q.nextNode + 1 }

/-- The function `update(section, content)`. -/
def update (q : Question) (name : String) (content : Content) : Outcome :=
  match q.sections name with
  | some n => .ok (q.setElem n (fun e => { e with content := content }))
  | none => .threw q

/-- The call `insert(buttonOrder, id, buttons, sections.buttons)`; while
`sections.buttons` is `undefined` there is no element to insert into. -/
def insertButton (q : Question) (id : String) : Outcome :=
  match insert q.buttonOrder id q.buttonElement q.buttonsContainer with
  | .ok c =>
    match q.sections "buttons" with
    | some _ => .ok { q with buttonChildren := c.children, log := q.log ++ [.inserted id] }
    | none => .ok q
  | .error _ => .threw q

/-- The call `insert(self.order, 'feedback', sections, $wrapper)`. -/
def insertFeedback (q : Question) : Outcome :=
  match insert q.order "feedback" q.sections q.wrapperContainer with
  | .ok c => .ok { q with wrapperChildren := c.children, log := q.log ++ [.feedbackInserted] }
  | .error _ => .threw q

/-- The function `setElementHeight($element)` on a section element. -/
def setElementHeight (q : Question) (n : Nat) : Question :=
  if q.sectionVisible n then q.setMaxHeight n .natural else q.setMaxHeight n .unconstrained

/-- The loop of `hideButtons`. -/
def detachAll : List String → Question → Outcome
  | [], q => .ok q
  | id :: rest, q => if id ∈ q.buttons then detachAll rest (q.detachButton id) else .threw q

/-- The function `hideButtons()`. -/
def hideButtons (q : Question) : Outcome :=
  (detachAll q.buttonsToHide q).andThen fun q1 => .ok { q1 with buttonsToHide := [] }

/-- The method `focusButton(id)`. -/
def focusButton (q : Question) : Option String → Outcome
  | none =>
    match q.buttons.find? (fun i => decide (i ∉ q.buttonsToHide)) with
    | some i => .ok (q.focusElement i)
    | none => .ok q
  | some id =>
    if id ∈ q.buttons then
      if q.buttonVisible id then .ok (q.focusElement id) else .ok q
    else .threw q

/-- The first loop of `toggleButtons`. -/
def showAll : List String → Question → Outcome
  | [], q => .ok q
  | id :: rest, q => (insertButton q id).andThen (showAll rest)

/-- The second loop of `toggleButtons`. -/
def refocus : List String → Question → Outcome
  | [], q => .ok q
  | id :: rest, q =>
    if id ∈ q.buttons then
      if q.focus = some id then
        (focusButton (q.record .focusButtonCalled) none).andThen (refocus rest)
      else refocus rest q
    else .threw q

/-- The function `toggleButtons()`. -/
def toggleButtons (q : Question) : Outcome :=
  (showAll q.buttonsToShow q).andThen fun q1 =>
  (refocus q1.buttonsToHide { q1 with buttonsToShow := [] }).andThen fun q3 =>
  (match q3.sections "buttons" with
    | some n =>
      if q3.buttonsToHide.length = q3.buttonChildren.length then
        Outcome.ok (((q3.removeClass n "h5p-question-visible").setMaxHeight n .zero).setTimeout
          .hideButtons 150)
      else
        (hideButtons q3).andThen fun q4 =>
          .ok (if q4.buttonChildren.isEmpty then q4
            else setElementHeight (q4.addClass n "h5p-question-visible") n)
    | none => (hideButtons q3).andThen fun q4 => .threw q4).andThen fun q5 =>
  .ok { q5 with toggleButtonsTimer := none }

/-- The test `if (!toggleButtonsTimer)` followed by the `setTimeout`. -/
def scheduleToggle (q : Question) : Question :=
  match q.toggleButtonsTimer with
  | some (_ + 1) => q
  | _ => { q.setTimeout .toggleButtons 0 with toggleButtonsTimer := some q.nextTimer }

/-! ### The public methods -/

/-- The method `setImage(path, alt)`. -/
def setImage (q : Question) (path : String) (alt : Option String) : Question :=
  { q with
    sections := fun k => if k = "image" then some q.nextNode else q.sections k
    elems := fun m =>
      if m = q.nextNode then ⟨["h5p-question-image"], .unset, .image path (alt.getD "")⟩
      else q.elems m
    nextNode := q.nextNode + 1 }

/-- The method `setIntroduction(content)`. -/
def setIntroduction (q : Question) (content : Option String) : Question :=
  register q "introduction" (Content.ofValue content)

/-- The method `setContent(content, options)`; `cls` is `options.class`. -/
def setContent (q : Question) (content : Option String) (cls : Option String) : Question :=
  let q1 := register q "content" (Content.ofValue content)
  match cls with
  | some c => if c = "" then q1 else q1.addClass q.nextNode c
  | none => q1

/-- The lines `if (scoreBar === undefined) scoreBar = JoubelUI.createScoreBar(maxScore)`
and `scoreBar.setScore(score)` of `setFeedback`. -/
def refreshScoreBar (q : Question) (score maxScore : Int) : Question :=
  match q.scoreBar with
  | none =>
    { q with scoreBar := some ⟨maxScore, score⟩, log := q.log ++ [.scoreBarCreated maxScore] }
  | some bar => { q with scoreBar := some { bar with score := score } }

/-- The method `setFeedback(content, score, maxScore)`. -/
def setFeedback (q : Question) (content : Option String) (score maxScore : Int) : Outcome :=
  match Content.ofValue content with
  | .html text =>
    let q2 : Question := { refreshScoreBar q score maxScore with showFeedback := true }
    (match q2.sections "feedback" with
      | some _ => update q2 "feedback" (.feedback text)
      | none => .ok (register q2 "feedback" (.feedback text))).andThen fun q3 =>
    if q3.wrapper then
      (match q3.sections "feedback" with
        | some n => if q3.sectionVisible n then Outcome.ok q3 else insertFeedback q3
        | none => .threw q3).andThen fun q4 =>
      .ok (q4.setTimeout .showFeedbackSection 0)
    else .ok q3
  | _ =>
    match q.sections "feedback" with
    | some n =>
      if q.showFeedback then
        .ok ((({ q with showFeedback := false }.removeClass n "h5p-question-visible").setMaxHeight
          n .zero).setTimeout .detachFeedback 150)
      else .ok q
    | none => .ok q

/-- The method `hasButton(id)`. -/
def hasButton (q : Question) (id : String) : Bool :=
  decide (id ∈ q.buttons)

/-- The method `addButton(id, text, clicked, visible)`. -/
def addButton (q : Question) (id text : String) (visible : Option Bool) : Question :=
  if id ∈ q.buttons then q
  else
    let q1 : Question :=
      match q.sections "buttons" with
      | none => register q "buttons" .empty
      | some _ => q
    let q2 : Question :=
      { q1 with
        buttons := q1.buttons ++ [id]
        labels := fun k => if k = id then some text else q1.labels k
        buttonOrder := q1.buttonOrder ++ [id] }
    if visible.getD true then
      match q2.sections "buttons" with
      | some n =>
        ({ q2 with buttonChildren := without id q2.buttonChildren ++ [id] }).addClass n
          "h5p-question-visible"
      | none => q2
    else q2

/-- The method `showButton(id)`. -/
def showButton (q : Question) (id : String) : Question :=
  if id ∉ q.buttons then q
  else if id ∈ q.buttonsToShow then q
  else if id ∈ q.buttonsToHide then { q with buttonsToHide := q.buttonsToHide.erase id }
  else if q.buttonVisible id then q
  else scheduleToggle { q with buttonsToShow := q.buttonsToShow ++ [id] }

/-- The method `hideButton(id)`. -/
def hideButton (q : Question) (id : String) : Question :=
  if id ∉ q.buttons then q
  else if id ∈ q.buttonsToHide then q
  else if id ∈ q.buttonsToShow then { q with buttonsToShow := q.buttonsToShow.erase id }
  else if !q.buttonVisible id then q.detachButton id
  else scheduleToggle { q with buttonsToHide := q.buttonsToHide ++ [id] }

/-- A call of the host on the Question, other than `attach`. -/
inductive Call where
  | setImage (path : String) (alt : Option String)
  | setIntroduction (content : Option String)
  | setContent (content : Option String) (cls : Option String)
  | setFeedback (content : Option String) (score maxScore : Int)
  | addButton (id text : String) (visible : Option Bool)
  | showButton (id : String)
  | hideButton (id : String)
  | focusButton (id : Option String)
  deriving DecidableEq, Repr

/-- Runs one call. -/
def call (q : Question) : Call → Outcome
  | .setImage path alt => .ok (setImage q path alt)
  | .setIntroduction content => .ok (setIntroduction q content)
  | .setContent content cls => .ok (setContent q content cls)
  | .setFeedback content score maxScore => setFeedback q content score maxScore
  | .addButton id text visible => .ok (addButton q id text visible)
  | .showButton id => .ok (showButton q id)
  | .hideButton id => .ok (hideButton q id)
  | .focusButton id => focusButton q id

/-- Runs the calls of a host function one after the other. -/
def runCalls : List Call → Question → Outcome
  | [], q => .ok q
  | c :: rest, q => (call q c).andThen (runCalls rest)

/-- jQuery `.add`: the set keeps one entry per element. -/
def jqAdd (set : List Nat) (n : Nat) : List Nat :=
  if n ∈ set then set else set ++ [n]

/-- The loop of `attach` that collects `$sections`. -/
def collectSections (sections : String → Option Nat) : List String → List Nat → List Nat
  | [], set => set
  | name :: rest, set =>
    match sections name with
    | some n => collectSections sections rest (jqAdd set n)
    | none => collectSections sections rest set

/-- jQuery `$sections.appendTo($container)`: each element moves to the end. -/
def appendAll : List Nat → List Nat → List Nat
  | [], children => children
  | n :: rest, children => appendAll rest (without n children ++ [n])

/-- The method `attach($container)`; `hook` is `self.registerDomElements` when
the question type defines it, as the calls it makes. -/
def attach (q : Question) (hook : Option (List Call)) : Outcome :=
  (if q.wrapper then Outcome.ok q
    else
      (match hook with
        | some calls => runCalls calls (q.record .hookCalled)
        | none => .ok q).andThen fun q1 => .ok (q1.record .triggered)).andThen fun q2 =>
  let q3 : Question :=
    { q2 with wrapper := true, wrapperChildren := [], focus := none, log := q2.log ++ [.emptied] }
  let nodes := collectSections q3.sections q3.order []
  .ok { q3 with
    wrapperChildren := appendAll nodes q3.wrapperChildren
    log := q3.log ++ [.laidOut nodes] }

/-! ### Timers and the surroundings -/

/-- Runs a function that was handed to `setTimeout`. -/
def runCallback (q : Question) : Callback → Outcome
  | .toggleButtons => toggleButtons q
  | .hideButtons => hideButtons q
  | .showFeedbackSection =>
    match q.sections "feedback" with
    | some n => .ok (setElementHeight (q.addClass n "h5p-question-visible") n)
    | none => .threw q
  | .detachFeedback =>
    if q.showFeedback then .ok q
    else
      match q.sections "feedback" with
      | some n =>
        .ok { q with
          wrapperChildren := without n q.wrapperChildren
          log := q.log ++ [.feedbackDetached] }
      | none => .threw q

/-- The pending timer at position `i` fires. -/
def fire (q : Question) (i : Nat) : Outcome :=
  match q.timers[i]? with
  | none => .ok q
  | some t => runCallback { q with timers := q.timers.eraseIdx i } t.callback

/-- What can happen to a Question: a call, `attach`, a timer firing, the host
container being shown or hidden, the user moving the focus. -/
inductive Action where
  | call (c : Call)
  | attach (hook : Option (List Call))
  | fire (i : Nat)
  | render (shown : Bool)
  | userFocus (target : Option String)

/-- One step of the Question. -/
def step (q : Question) : Action → Outcome
  | .call c => call q c
  | .attach hook => attach q hook
  | .fire i => fire q i
  | .render shown => .ok { q with hostRendered := shown }
  | .userFocus none => .ok { q with focus := none }
  | .userFocus (some id) => .ok (if q.buttonVisible id then { q with focus := some id } else q)

/-- Runs a list of steps, going on after a raised error as a page does. -/
def run : List Action → Question → Question
  | [], q => q
  | a :: rest, q => run rest (step q a).state

/-- The states a Question can be in. -/
inductive Reachable : Question → Prop where
  | new (type : String) : Reachable (Question.new type)
  | step (q : Question) (a : Action) : Reachable q → Reachable (step q a).state

/-! ### States and traces used as examples -/

/-- Two buttons registered hidden and shown before the Question is attached. -/
def hiddenGroupTrace : List Action :=
  [.call (.addButton "a" "A" (some false)), .call (.addButton "b" "B" (some false)),
    .call (.showButton "a"), .call (.showButton "b"), .fire 0]

/-- Three buttons on an attached Question; while the host container is not
displayed the middle one is hidden and shown again. -/
def hiddenHostTrace : List Action :=
  [.call (.addButton "a" "A" none), .call (.addButton "b" "B" none),
    .call (.addButton "c" "C" none), .attach none, .render false,
    .call (.hideButton "b"), .call (.showButton "b"), .fire 0, .render true]

/-- An attached Question with one button that was registered hidden. -/
def hiddenButtonState : Question :=
  run [.call (.addButton "a" "A" (some false)), .attach none] (Question.new "question")

/-- A button waits to be hidden when the host container stops being displayed. -/
def pendingHideHiddenState : Question :=
  run [.call (.addButton "a" "A" none), .attach none, .call (.hideButton "a"), .render false]
    (Question.new "question")

/-- An attached Question whose first button is detached and whose second is shown. -/
def twoButtonsState : Question :=
  run [.call (.addButton "a" "A" (some false)), .call (.addButton "b" "B" none), .attach none]
    (Question.new "question")

/-- Only the content section and one button are registered. -/
def contentAndButtonsState : Question :=
  addButton (setContent (Question.new "question") (some "task") none) "check" "Check" none

/-! ### Relations between a state and a later one -/

/-- The pending lists only lose entries, the registry only grows, and a child of
the button group that does not wait to be hidden stays a child. -/
def Calmer (q q' : Question) : Prop :=
  q'.buttonsToHide.Sublist q.buttonsToHide ∧
  q'.buttonsToShow.Sublist q.buttonsToShow ∧
  (∀ x ∈ q.buttons, x ∈ q'.buttons) ∧
  (∀ x ∈ q.buttonChildren, x ∉ q.buttonsToHide → x ∈ q'.buttonChildren)

/-- The pending lists are duplicate-free, disjoint and hold registered ids. -/
def WellFormed (q : Question) : Prop :=
  q.buttonsToHide.Nodup ∧ q.buttonsToShow.Nodup ∧
  (∀ x ∈ q.buttonsToHide, x ∉ q.buttonsToShow) ∧
  (∀ x ∈ q.buttonsToHide, x ∈ q.buttons) ∧
  (∀ x ∈ q.buttonsToShow, x ∈ q.buttons)

/-- The steps that are not calls of the host: timers firing, the host container
being shown or hidden, the user moving the focus. -/
def Action.isQuiet : Action → Bool
  | .fire _ => true
  | .render _ => true
  | .userFocus _ => true
  | _ => false

/-- An attached Question whose only button waits to be hidden. -/
def pendingHideState : Question :=
  run [.call (.addButton "a" "A" none), .attach none, .call (.hideButton "a")]
    (Question.new "question")

/-- An attached Question with one visible button. -/
def oneButtonState : Question :=
  run [.call (.addButton "a" "A" none), .attach none] (Question.new "question")

/-- A later state with the same container children, sections and feedback flag. -/
def SamePanel (q q' : Question) : Prop :=
  q'.wrapperChildren = q.wrapperChildren ∧ q'.sections = q.sections ∧
  q'.showFeedback = q.showFeedback

/-- The feedback section is the element `n` and is a child of the container. -/
def PanelAttached (n : Nat) (q : Question) : Prop :=
  q.sections "feedback" = some n ∧ n ∈ q.wrapperChildren

/-- The steps named by the feedback race: a `setFeedback` call or a timer. -/
def Action.isFeedbackStep : Action → Bool
  | .call (.setFeedback _ _ _) => true
  | .fire _ => true
  | _ => false

/-- An attached Question with a content section. -/
def attachedState : Question :=
  run [.call (.setContent (some "task") none), .attach none] (Question.new "question")

/-- Feedback shown, hidden and shown again before any timer fires. -/
def feedbackRace : List Action :=
  [.call (.setFeedback (some "x") 1 2), .call (.setFeedback none 0 0),
    .call (.setFeedback (some "y") 1 2)]

/-! ### Registering a list of buttons and hiding them all -/

/-- Registers the buttons `ids`, each visible. -/
def registerAll (ids : List String) (q : Question) : Question :=
  ids.foldl (fun s id => addButton s id id none) q

/-- Calls `hideButton` on each of `ids`. -/
def hideAll (ids : List String) (q : Question) : Question :=
  ids.foldl hideButton q

/-- A new Question gets the buttons `ids`, is attached, and every button is
hidden before a timer fires. -/
def allHiddenState (type : String) (ids : List String) : Question :=
  hideAll ids (attach (registerAll ids (Question.new type)) none).state

/-- The facts about a Question that holds the buttons `ids` and nothing else,
of which `done` wait to be hidden. -/
structure ButtonsOnly (ids done : List String) (attached : Bool) (q : Question) : Prop where
  buttons : q.buttons = ids
  children : q.buttonChildren = ids
  group : q.sections "buttons" = some 0
  others : ∀ k, k ≠ "buttons" → q.sections k = none
  visibleClass : q.hasClass 0 "h5p-question-visible" = true
  toHide : q.buttonsToHide = done
  toShow : q.buttonsToShow = []
  handle : q.toggleButtonsTimer = if done = [] then none else some 1
  timers : q.timers = if done = [] then [] else [⟨1, 0, .toggleButtons⟩]
  nextTimer : q.nextTimer = if done = [] then 1 else 2
  order : q.order = ["image", "introduction", "content", "feedback", "buttons"]
  rendered : q.hostRendered = true
  focus : q.focus = none
  wrapper : q.wrapper = attached
  wrapperChildren : q.wrapperChildren = if attached then [0] else []

/-! ### What the steps other than registration leave alone -/

/-- Whether an event is a call of `JoubelUI.createScoreBar`. -/
def Event.isScoreBarCreated : Event → Bool
  | .scoreBarCreated _ => true
  | _ => false

/-- A later state with the same registry, sections, score bar and host
container, in which the hook and the score-bar factory have not been called
again and no section has been added to the container; the record of calls has
only grown. -/
structure Steady (q q' : Question) : Prop where
  buttons : q'.buttons = q.buttons
  buttonOrder : q'.buttonOrder = q.buttonOrder
  sections : q'.sections = q.sections
  nextNode : q'.nextNode = q.nextNode
  wrapper : q'.wrapper = q.wrapper
  scoreBar : q'.scoreBar = q.scoreBar
  order : q'.order = q.order
  hooks : q'.log.count .hookCalled = q.log.count .hookCalled
  bars : q'.log.countP Event.isScoreBarCreated = q.log.countP Event.isScoreBarCreated
  children : ∀ n ∈ q'.wrapperChildren, n ∈ q.wrapperChildren
  log : q.log <+: q'.log

/-- What holds of the registry, the score bar and the section elements in every
state a Question can reach. -/
structure Sound (q : Question) : Prop where
  registry : q.buttons = q.buttonOrder
  nodup : q.buttonOrder.Nodup
  group : q.buttons ≠ [] → (q.sections "buttons").isSome = true
  scoreBars : q.log.countP Event.isScoreBarCreated = if q.scoreBar.isSome then 1 else 0
  freshSections : ∀ name n, q.sections name = some n → n < q.nextNode
  freshChildren : ∀ n ∈ q.wrapperChildren, n < q.nextNode

/-- A later state reached without `attach`: same host container, no further
call of the hook, and the buttons registered before keep their places. -/
structure Keeps (q q' : Question) : Prop where
  wrapper : q'.wrapper = q.wrapper
  hooks : q'.log.count .hookCalled = q.log.count .hookCalled
  buttonOrder : q.buttonOrder <+: q'.buttonOrder
  log : q.log <+: q'.log

/-- A question type whose `registerDomElements` sets the content and one button. -/
def setupHook : List Call :=
  [.setContent (some "task") none, .addButton "check" "Check" none]

/-! ### One firing of the coalescing callback, step by step -/

/-- The state after the second loop of `toggleButtons` has gone through the
buttons `l`: `focusButton()` has run if one of them had the focus. -/
def refocused (l : List String) (q : Question) : Question :=
  match q.focus with
  | some id => if id ∈ l then (focusButton (q.record .focusButtonCalled) none).state else q
  | none => q

/-- The calls the second loop of `toggleButtons` makes. -/
def focusTrace (q : Question) : List Event :=
  match q.focus with
  | some id =>
    if id ∈ q.buttonsToHide then
      .focusButtonCalled ::
        (match q.buttons.find? (fun i => decide (i ∉ q.buttonsToHide)) with
          | some i => [.focusCalled i]
          | none => [])
    else []
  | none => []

/-- Two visible buttons on an attached Question; the first holds the focus and
waits to be hidden. -/
def focusedHideState : Question :=
  run [.call (.addButton "a" "A" none), .call (.addButton "b" "B" none), .attach none,
    .userFocus (some "a"), .call (.hideButton "a")] (Question.new "question")

/-! ### Timers that run the coalescing callback -/

/-- A later state: registered buttons stay registered, and a timer for
`toggleButtons` either was there before or comes with a registered button. -/
structure Backing (q q' : Question) : Prop where
  buttons : ∀ x ∈ q.buttons, x ∈ q'.buttons
  toggles : ∀ t ∈ q'.timers, t.callback = .toggleButtons → t ∈ q.timers ∨ q'.buttons ≠ []

/-- Every timer for `toggleButtons` finds a registered button. -/
def Backed (q : Question) : Prop :=
  ∀ t ∈ q.timers, t.callback = .toggleButtons → q.buttons ≠ []

/-! ### States used for the feedback, the score bar and the sections -/

/-- An attached Question with a content section, in a host container that is
not displayed. -/
def hiddenContentState : Question :=
  run [.render false] attachedState

/-- Feedback has been given once, with the score 1 out of 2. -/
def firstFeedbackState : Question :=
  run [.call (.setFeedback (some "a") 1 2)] (Question.new "question")

/-- An attached Question with an introduction. -/
def introducedState : Question :=
  run [.call (.setIntroduction (some "a")), .attach none] (Question.new "question")

/-- One visible button on a Question that has not been attached. -/
def unattachedButtonState : Question :=
  run [.call (.addButton "a" "A" none)] (Question.new "question")

/-- A later state in which a score bar that exists is still the one created
with the same `maxScore`. -/
def KeepsBar (q q' : Question) : Prop :=
  ∀ bar, q.scoreBar = some bar → ∃ s, q'.scoreBar = some ⟨bar.maxScore, s⟩

/-! ## The Insertion Planner -/

section PlannerFacts

variable {E : Type} [DecidableEq E]

theorem getElem?_at_length {α : Type} (a : List α) (x : α) (b : List α) :
    (a ++ x :: b)[a.length]? = some x := by
  rw [List.getElem?_append_right (Nat.le_refl _)]
  simp

theorem mem_without {e x : E} {l : List E} : x ∈ without e l ↔ x ∈ l ∧ x ≠ e := by
  simp [without]

theorem placeAfter_split (e t : E) (l : List E) (h : t ∈ l) :
    ∃ a b, l = a ++ t :: b ∧ t ∉ a ∧ placeAfter e t l = a ++ t :: e :: b := by
  induction l with
  | nil => simp at h
  | cons x xs ih =>
    by_cases hx : x = t
    · subst hx
      exact ⟨[], xs, by simp, by simp, by simp [placeAfter]⟩
    · have ht : t ∈ xs := by
        rcases List.mem_cons.mp h with h1 | h1
        · exact absurd h1.symm hx
        · exact h1
      obtain ⟨a, b, hab, hna, hp⟩ := ih ht
      refine ⟨x :: a, b, by simp [hab], ?_, ?_⟩
      · simp only [List.mem_cons, not_or]
        exact ⟨fun h2 => hx h2.symm, hna⟩
      · simp [placeAfter, hx, hp]

theorem walkBack_all_hidden (elements : String → Option E) (c : Container E)
    (r rest : List String)
    (hel : ∀ k ∈ r, (elements k).isSome)
    (hr : ∀ k ∈ r, visibleId elements c k = false) :
    walkBack (r ++ rest) elements c r.length = .ok 0 := by
  induction r using List.reverseRecOn generalizing rest with
  | nil => simp [walkBack]
  | append_singleton r x ih =>
    have hx : visibleId elements c x = false := hr x (by simp)
    have hex : (elements x).isSome := hel x (by simp)
    obtain ⟨t, ht⟩ := Option.isSome_iff_exists.mp hex
    have hg : (r ++ [x] ++ rest)[r.length]? = some x := by
      rw [List.append_assoc]; exact getElem?_at_length r x rest
    have hlen : (r ++ [x]).length = r.length + 1 := by simp
    rw [hlen, walkBack, hg]
    simp only [ht]
    simp only [visibleId, ht] at hx
    simp only [hx]
    have := ih (x :: rest) (fun k hk => hel k (by simp [hk])) (fun k hk => hr k (by simp [hk]))
    simpa using this

theorem walkBack_stops (elements : String → Option E) (c : Container E)
    (l : List String) (p : String) (r rest : List String) (t : E)
    (hp : elements p = some t) (hv : c.visible t = true)
    (hel : ∀ k ∈ r, (elements k).isSome)
    (hr : ∀ k ∈ r, visibleId elements c k = false) :
    walkBack (l ++ p :: r ++ rest) elements c (l ++ p :: r).length = .ok (l.length + 1) := by
  induction r using List.reverseRecOn generalizing rest with
  | nil =>
    have hg : (l ++ [p] ++ rest)[l.length]? = some p := by
      rw [List.append_assoc]; exact getElem?_at_length l p rest
    have hlen : (l ++ [p]).length = l.length + 1 := by simp
    rw [hlen, walkBack, hg]
    simp [hp, hv]
  | append_singleton r x ih =>
    have hx : visibleId elements c x = false := hr x (by simp)
    have hex : (elements x).isSome := hel x (by simp)
    obtain ⟨u, hu⟩ := Option.isSome_iff_exists.mp hex
    have heq : l ++ p :: (r ++ [x]) ++ rest = (l ++ p :: r) ++ x :: rest := by simp
    have hg : (l ++ p :: (r ++ [x]) ++ rest)[(l ++ p :: r).length]? = some x := by
      rw [heq]; exact getElem?_at_length _ x rest
    have hlen : (l ++ p :: (r ++ [x])).length = (l ++ p :: r).length + 1 := by
      simp [Nat.add_assoc]
    rw [hlen, walkBack, hg]
    simp only [hu]
    simp only [visibleId, hu] at hx
    simp only [hx]
    have := ih (x :: rest) (fun k hk => hel k (by simp [hk])) (fun k hk => hr k (by simp [hk]))
    simpa using this


theorem indexOf_split (pre post : List String) (id : String) (h : id ∉ pre) :
    List.indexOf id (pre ++ id :: post) = pre.length := by
  rw [List.indexOf_append_of_not_mem h]
  simp

theorem predecessors_split (pre post : List String) (id : String) (h : id ∉ pre) :
    predecessors (pre ++ id :: post) id = pre := by
  unfold predecessors
  rw [indexOf_split pre post id h]
  simp

/-- C1: for an id of the order, with an element for every id of the order and
distinct elements for distinct ids, `insert` puts the element of `id` first in
the container when no id before it has a visible element, and otherwise right
behind the element of the nearest id before it whose element is visible. -/
theorem insert_places_after_nearest_visible
    (order : List String) (id : String) (elements : String → Option E) (c : Container E)
    (hid : id ∈ order)
    (hel : ∀ k ∈ order, (elements k).isSome)
    (hinj : ∀ k ∈ order, ∀ k' ∈ order, elements k = elements k' → k = k') :
    ∃ e, elements id = some e ∧
      ((∀ k ∈ predecessors order id, visibleId elements c k = false) →
        insert order id elements c = .ok ⟨e :: without e c.children, c.rendered⟩) ∧
      (∀ l p r t, predecessors order id = l ++ p :: r → elements p = some t →
        c.visible t = true → (∀ k ∈ r, visibleId elements c k = false) →
        ∃ a b, without e c.children = a ++ t :: b ∧ t ∉ a ∧
          insert order id elements c = .ok ⟨a ++ t :: e :: b, c.rendered⟩) := by
  obtain ⟨pre, post, hord, hpre⟩ := List.eq_append_cons_of_mem hid
  subst hord
  obtain ⟨e, he⟩ := Option.isSome_iff_exists.mp (hel id hid)
  have hidx : List.indexOf id (pre ++ id :: post) = pre.length := indexOf_split pre post id hpre
  have hlt : pre.length < (pre ++ id :: post).length := by simp
  rw [predecessors_split pre post id hpre]
  refine ⟨e, he, ?_, ?_⟩
  · intro hhid
    have hw := walkBack_all_hidden elements c pre (id :: post)
      (fun k hk => hel k (by simp [hk])) hhid
    simp only [insert, hidx, hlt, if_true, hw, he, Container.prependTo]
  · intro l p r t hsplit hp hv hr
    subst hsplit
    have hw := walkBack_stops elements c l p r (id :: post) t hp hv
      (fun k hk => hel k (by simp [hk])) hr
    have hpne : p ≠ id := by
      intro h
      apply hpre
      simp [h]
    have hte : t ≠ e := by
      intro h
      apply hpne
      apply hinj p (by simp) id hid
      rw [hp, he, h]
    have htc : t ∈ c.children := by
      simp only [Container.visible, Bool.and_eq_true, decide_eq_true_eq] at hv
      exact hv.2
    have htw : t ∈ without e c.children := mem_without.mpr ⟨htc, hte⟩
    obtain ⟨a, b, hab, hna, hpl⟩ := placeAfter_split e t _ htw
    refine ⟨a, b, hab, hna, ?_⟩
    have hg : (l ++ p :: r ++ id :: post)[l.length]? = some p := by
      rw [List.append_assoc]; exact getElem?_at_length l p _
    simp only [insert, hidx, hlt, if_true, hw, he, hg, hp, Container.insertAfter, hpl]

/-- C1, at the order `[A, B, C]` with `A` and `C` in the container: inserting
`B` gives the children `[A, B, C]`. -/
theorem insert_places_after_nearest_visible_witness :
    (∃ e, (fun k => some k) "B" = some e ∧
      ((∀ k ∈ predecessors ["A", "B", "C"] "B",
          visibleId (fun k => some k) ⟨["A", "C"], true⟩ k = false) →
        insert ["A", "B", "C"] "B" (fun k => some k) ⟨["A", "C"], true⟩ =
          .ok ⟨e :: without e ["A", "C"], true⟩) ∧
      (∀ l p r t, predecessors ["A", "B", "C"] "B" = l ++ p :: r →
        (fun k => some k) p = some t →
        Container.visible ⟨["A", "C"], true⟩ t = true →
        (∀ k ∈ r, visibleId (fun k => some k) ⟨["A", "C"], true⟩ k = false) →
        ∃ a b, without e ["A", "C"] = a ++ t :: b ∧ t ∉ a ∧
          insert ["A", "B", "C"] "B" (fun k => some k) ⟨["A", "C"], true⟩ =
            .ok ⟨a ++ t :: e :: b, true⟩)) ∧
    insert ["A", "B", "C"] "B" (fun k => some k) ⟨["A", "C"], true⟩ =
      .ok ⟨["A", "B", "C"], true⟩ :=
  ⟨insert_places_after_nearest_visible ["A", "B", "C"] "B" (fun k => some k)
      ⟨["A", "C"], true⟩ (by decide) (fun _ _ => rfl)
      (fun _ _ _ _ h => Option.some.inj h),
    rfl⟩

end PlannerFacts

/-! ## Laying out the sections -/

theorem without_of_not_mem {E : Type} [DecidableEq E] (e : E) (l : List E) (h : e ∉ l) :
    without e l = l := by
  unfold without
  rw [List.filter_eq_self]
  intro x hx
  have : x ≠ e := fun hxe => h (hxe ▸ hx)
  simpa using this

theorem collectSections_eq (sections : String → Option Nat) (order : List String)
    (set : List Nat) (h : (set ++ order.filterMap sections).Nodup) :
    collectSections sections order set = set ++ order.filterMap sections := by
  induction order generalizing set with
  | nil => simp [collectSections]
  | cons name rest ih =>
    cases hs : sections name with
    | none =>
      simp only [collectSections, hs]
      have h' : (set ++ rest.filterMap sections).Nodup := by
        simpa [List.filterMap_cons, hs] using h
      rw [ih set h']
      simp [List.filterMap_cons, hs]
    | some n =>
      simp only [collectSections, hs]
      have h' : (set ++ n :: rest.filterMap sections).Nodup := by
        simpa [List.filterMap_cons, hs] using h
      have hn : n ∉ set := by
        intro hmem
        have := List.nodup_append.mp h'
        exact this.2.2 hmem (by simp)
      have h'' : ((set ++ [n]) ++ rest.filterMap sections).Nodup := by
        simpa using h'
      simp only [jqAdd, hn, if_false]
      rw [ih (set ++ [n]) h'']
      simp [List.filterMap_cons, hs]

theorem appendAll_eq (nodes children : List Nat) (h : (children ++ nodes).Nodup) :
    appendAll nodes children = children ++ nodes := by
  induction nodes generalizing children with
  | nil => simp [appendAll]
  | cons n rest ih =>
    have hn : n ∉ children := by
      intro hmem
      exact (List.nodup_append.mp h).2.2 hmem (by simp)
    have h' : ((children ++ [n]) ++ rest).Nodup := by simpa using h
    simp only [appendAll, without_of_not_mem n children hn]
    rw [ih (children ++ [n]) h']
    simp

theorem nodup_filterMap_sections (sections : String → Option Nat) (order : List String)
    (hnd : order.Nodup)
    (hinj : ∀ a ∈ order, ∀ b ∈ order, ∀ n, sections a = some n → sections b = some n → a = b) :
    (order.filterMap sections).Nodup := by
  induction order with
  | nil => simp
  | cons name rest ih =>
    have hrest : (rest.filterMap sections).Nodup :=
      ih (List.nodup_cons.mp hnd).2
        (fun a ha b hb n h1 h2 => hinj a (by simp [ha]) b (by simp [hb]) n h1 h2)
    cases hs : sections name with
    | none => simpa [List.filterMap_cons, hs] using hrest
    | some n =>
      simp only [List.filterMap_cons, hs]
      refine List.nodup_cons.mpr ⟨?_, hrest⟩
      intro hmem
      obtain ⟨b, hb, hbn⟩ := List.mem_filterMap.mp hmem
      have : name = b := hinj name (by simp) b (by simp [hb]) n hs hbn
      exact (List.nodup_cons.mp hnd).1 (this ▸ hb)

/-- C3: when the order list has no repeated name and the registered sections
are distinct elements, `attach` returns and leaves in the container exactly the
registered sections of the order list, in the order of that list. -/
theorem attach_lays_out_registered_sections (q : Question) (hnd : q.order.Nodup)
    (hinj : ∀ a ∈ q.order, ∀ b ∈ q.order, ∀ n,
      q.sections a = some n → q.sections b = some n → a = b) :
    (attach q none).completed = true ∧
    (attach q none).state.wrapperChildren = q.order.filterMap q.sections := by
  have hN := nodup_filterMap_sections q.sections q.order hnd hinj
  have hc : collectSections q.sections q.order [] = q.order.filterMap q.sections := by
    simpa using collectSections_eq q.sections q.order [] (by simpa using hN)
  have ha : appendAll (q.order.filterMap q.sections) [] = q.order.filterMap q.sections := by
    simpa using appendAll_eq (q.order.filterMap q.sections) [] (by simpa using hN)
  cases hw : q.wrapper <;>
    simp [attach, hw, Outcome.andThen, Outcome.completed, Outcome.state, Question.record, hc, ha]

/-- C3, with only content and buttons registered: the children are the content
section followed by the buttons section. -/
theorem attach_lays_out_registered_sections_witness :
    ((attach contentAndButtonsState none).completed = true ∧
      (attach contentAndButtonsState none).state.wrapperChildren =
        contentAndButtonsState.order.filterMap contentAndButtonsState.sections) ∧
    contentAndButtonsState.sections "content" = some 0 ∧
    contentAndButtonsState.sections "buttons" = some 1 ∧
    (attach contentAndButtonsState none).state.wrapperChildren = [0, 1] :=
  ⟨attach_lays_out_registered_sections contentAndButtonsState (by decide) (by decide),
    by decide, by decide, by decide⟩

/-! ## Evaluations on example states -/

theorem reachable_run (as : List Action) (q : Question) (h : Reachable q) :
    Reachable (run as q) := by
  induction as generalizing q with
  | nil => exact h
  | cons a rest ih => exact ih _ (Reachable.step q a h)

/-- C2, at two buttons registered hidden and shown before the Question is
attached: the buttons end up attached as `[b, a]` although they were registered
as `[a, b]`.  The same happens on an attached Question whose host container is
not displayed for a while: `[a, b, c]` becomes `[b, a, c]`. -/
theorem buttons_shown_in_hidden_group_lose_order :
    Reachable (run hiddenGroupTrace (Question.new "question")) ∧
    (run hiddenGroupTrace (Question.new "question")).buttonOrder = ["a", "b"] ∧
    (run hiddenGroupTrace (Question.new "question")).buttonChildren = ["b", "a"] ∧
    ¬ (run hiddenGroupTrace (Question.new "question")).buttonChildren.Sublist
        (run hiddenGroupTrace (Question.new "question")).buttonOrder ∧
    Reachable (run hiddenHostTrace (Question.new "question")) ∧
    (run hiddenHostTrace (Question.new "question")).buttonOrder = ["a", "b", "c"] ∧
    (run hiddenHostTrace (Question.new "question")).buttonChildren = ["b", "a", "c"] ∧
    (run hiddenHostTrace (Question.new "question")).timers = [] :=
  ⟨reachable_run _ _ (Reachable.new _), rfl, rfl, by decide,
    reachable_run _ _ (Reachable.new _), rfl, rfl, rfl⟩

/-- C4 fails for a button that is not visible: `hideButton` followed by
`showButton` attaches a button that was detached before the two calls. -/
theorem hide_then_show_attaches_hidden_button :
    Reachable hiddenButtonState ∧ "a" ∈ hiddenButtonState.buttons ∧
    "a" ∉ hiddenButtonState.buttonChildren ∧
    "a" ∈ (run [.call (.hideButton "a"), .call (.showButton "a"), .fire 0]
      hiddenButtonState).buttonChildren ∧
    (run [.call (.hideButton "a"), .call (.showButton "a"), .fire 0]
      hiddenButtonState).timers = [] :=
  ⟨reachable_run _ _ (Reachable.new _), by decide, by decide, by decide, by decide⟩

/-- C5 fails for a button that waits to be hidden and is no longer displayed:
the second `showButton` adds it to the pending-show list, the first does not. -/
theorem second_showButton_schedules_a_show :
    Reachable pendingHideHiddenState ∧
    (showButton pendingHideHiddenState "a").buttonsToShow = [] ∧
    (showButton (showButton pendingHideHiddenState "a") "a").buttonsToShow = ["a"] :=
  ⟨reachable_run _ _ (Reachable.new _), by decide, by decide⟩

/-- C6, at an id that is not registered: `showButton(id)` and `hideButton(id)`
return with the state as it was, `focusButton(id)` raises a TypeError. -/
theorem focusButton_unknown_id_raises :
    "x" ∉ (Question.new "question").buttons ∧
    showButton (Question.new "question") "x" = Question.new "question" ∧
    hideButton (Question.new "question") "x" = Question.new "question" ∧
    (focusButton (Question.new "question") (some "x")).completed = false :=
  ⟨by decide, rfl, rfl, by decide⟩

/-- C8, at a detached first button and a visible second one: `focusButton()`
calls `focus()` on the detached button and stops, so no button has the focus. -/
theorem focusButton_stops_at_detached_button :
    Reachable twoButtonsState ∧
    twoButtonsState.buttonOrder = ["a", "b"] ∧
    twoButtonsState.buttonChildren = ["b"] ∧
    twoButtonsState.buttonVisible "a" = false ∧
    twoButtonsState.buttonVisible "b" = true ∧
    twoButtonsState.buttonsToHide = [] ∧
    (focusButton twoButtonsState none).state.focus = none ∧
    (focusButton twoButtonsState none).state.log = twoButtonsState.log ++ [.focusCalled "a"] :=
  ⟨reachable_run _ _ (Reachable.new _), by decide, by decide, by decide, by decide, by decide,
    by decide, by decide⟩

/-! ## What insert can do to a container -/

section PlannerCases

variable {E : Type} [DecidableEq E]

theorem walkBack_ok_succ (order : List String) (elements : String → Option E)
    (c : Container E) (i j : Nat) (h : walkBack order elements c i = .ok (j + 1)) :
    j < i ∧ ∃ k t, order[j]? = some k ∧ elements k = some t ∧ c.visible t = true := by
  induction i with
  | zero => simp [walkBack] at h
  | succ i ih =>
    rw [walkBack] at h
    cases hk : order[i]? with
    | none => simp [hk] at h
    | some k =>
      cases ht : elements k with
      | none => simp [hk, ht] at h
      | some t =>
        simp only [hk, ht] at h
        by_cases hv : c.visible t = true
        · simp only [hv, if_true, Except.ok.injEq, Nat.add_right_cancel_iff] at h
          subst h
          exact ⟨Nat.lt_succ_self _, k, t, hk, ht, hv⟩
        · simp only [hv] at h
          obtain ⟨hlt, hrest⟩ := ih h
          exact ⟨Nat.lt_succ_of_lt hlt, hrest⟩

theorem insert_ok_cases (order : List String) (id : String) (elements : String → Option E)
    (c c' : Container E) (h : insert order id elements c = .ok c') :
    c' = c ∨ (∃ e, elements id = some e ∧ c' = c.prependTo e) ∨
      (∃ e t j k, elements id = some e ∧ j < order.indexOf id ∧ order[j]? = some k ∧
        elements k = some t ∧ c.visible t = true ∧ c' = c.insertAfter e t) := by
  unfold insert at h
  by_cases hlt : List.indexOf id order < order.length
  · simp only [hlt, if_true] at h
    cases hw : walkBack order elements c (List.indexOf id order) with
    | error err => simp [hw] at h
    | ok j =>
      cases j with
      | zero =>
        cases he : elements id with
        | none => simp [hw, he] at h
        | some e =>
          simp only [hw, he, Except.ok.injEq] at h
          exact Or.inr (Or.inl ⟨e, rfl, h.symm⟩)
      | succ j =>
        obtain ⟨hj, k, t, hk, ht, hv⟩ := walkBack_ok_succ order elements c _ j hw
        cases he : elements id with
        | none => simp [hw, he] at h
        | some e =>
          simp only [hw, he, hk, ht, Except.ok.injEq] at h
          exact Or.inr (Or.inr ⟨e, t, j, k, rfl, hj, hk, ht, hv, h.symm⟩)
  · simp only [hlt, if_false, Except.ok.injEq] at h
    exact Or.inl h.symm

theorem ne_of_before_indexOf (order : List String) (id k : String) (j : Nat)
    (hj : j < order.indexOf id) (hk : order[j]? = some k) : k ≠ id := by
  induction order generalizing j with
  | nil => simp at hk
  | cons x xs ih =>
    by_cases hx : x = id
    · rw [List.indexOf_cons_eq _ hx] at hj
      exact absurd hj (Nat.not_lt_zero _)
    · rw [List.indexOf_cons_ne _ hx] at hj
      cases j with
      | zero =>
        simp only [List.getElem?_cons_zero, Option.some.injEq] at hk
        exact hk ▸ hx
      | succ j =>
        simp only [List.getElem?_cons_succ] at hk
        exact ih j (Nat.lt_of_succ_lt_succ hj) hk

theorem mem_placeAfter_of_mem (e t x : E) (l : List E) (h : x ∈ l) : x ∈ placeAfter e t l := by
  induction l with
  | nil => simp at h
  | cons y ys ih =>
    unfold placeAfter
    by_cases hy : y = t
    · simp only [hy, if_true]
      rcases List.mem_cons.mp h with h1 | h1
      · simp [h1, hy]
      · simp [h1]
    · simp only [hy, if_false]
      rcases List.mem_cons.mp h with h1 | h1
      · simp [h1]
      · simp [ih h1]

theorem mem_placeAfter_self (e t : E) (l : List E) (h : t ∈ l) : e ∈ placeAfter e t l := by
  obtain ⟨a, b, -, -, hp⟩ := placeAfter_split e t l h
  rw [hp]
  simp

/-- With an elements map that names each element by its id, `insert` keeps every
child of the container. -/
theorem insert_keeps_children (order : List String) (id : String)
    (elements : String → Option String) (c c' : Container String)
    (helt : ∀ k t, elements k = some t → t = k)
    (h : insert order id elements c = .ok c') (x : String) (hx : x ∈ c.children) :
    x ∈ c'.children := by
  rcases insert_ok_cases order id elements c c' h with h1 | ⟨e, he, h1⟩ |
    ⟨e, t, j, k, he, hj, hk, ht, hv, h1⟩
  · rw [h1]; exact hx
  · subst h1
    simp only [Container.prependTo, List.mem_cons]
    by_cases hxe : x = e
    · exact Or.inl hxe
    · exact Or.inr (mem_without.mpr ⟨hx, hxe⟩)
  · subst h1
    have hte : t ≠ e := by
      have h1 := helt k t ht
      have h2 := helt id e he
      rw [h1, h2]
      exact ne_of_before_indexOf order id k j hj hk
    have htc : t ∈ c.children := by
      simp only [Container.visible, Bool.and_eq_true, decide_eq_true_eq] at hv
      exact hv.2
    have htw : t ∈ without e c.children := mem_without.mpr ⟨htc, hte⟩
    simp only [Container.insertAfter]
    by_cases hxe : x = e
    · rw [hxe]; exact mem_placeAfter_self e t _ htw
    · exact mem_placeAfter_of_mem e t x _ (mem_without.mpr ⟨hx, hxe⟩)

/-- In a container that is not displayed `insert` keeps the inserted element
among the children if it was there. -/
theorem insert_keeps_self_when_hidden (order : List String) (id : String)
    (elements : String → Option E) (c c' : Container E) (e : E)
    (he : elements id = some e) (hr : c.rendered = false)
    (h : insert order id elements c = .ok c') (hx : e ∈ c.children) :
    e ∈ c'.children := by
  rcases insert_ok_cases order id elements c c' h with h1 | ⟨e', he', h1⟩ |
    ⟨e', t, j, k, he', hj, hk, ht, hv, h1⟩
  · rw [h1]; exact hx
  · subst h1
    rw [he] at he'
    cases he'
    simp [Container.prependTo]
  · simp [Container.visible, hr] at hv

end PlannerCases

/-! ## Pending lists and attached buttons over time -/

theorem calmer_refl (q : Question) : Calmer q q :=
  ⟨List.Sublist.refl _, List.Sublist.refl _, fun _ h => h, fun _ h _ => h⟩

theorem calmer_trans {q q1 q2 : Question} (h1 : Calmer q q1) (h2 : Calmer q1 q2) :
    Calmer q q2 :=
  ⟨h2.1.trans h1.1, h2.2.1.trans h1.2.1, fun x hx => h2.2.2.1 x (h1.2.2.1 x hx),
    fun x hx hn => h2.2.2.2 x (h1.2.2.2 x hx hn) (fun hm => hn (h1.1.subset hm))⟩

theorem calmer_andThen (q : Question) (o : Outcome) (f : Question → Outcome)
    (h1 : Calmer q o.state) (h2 : ∀ q1, Calmer q1 (f q1).state) :
    Calmer q (o.andThen f).state := by
  cases o with
  | ok q1 => exact calmer_trans h1 (h2 q1)
  | threw q1 => exact h1

theorem buttonElement_eq (q : Question) (k t : String) (h : q.buttonElement k = some t) :
    t = k := by
  unfold Question.buttonElement at h
  split at h
  · exact (Option.some.inj h).symm
  · exact absurd h (by simp)

theorem insertButton_calmer (q : Question) (id : String) :
    Calmer q (insertButton q id).state := by
  unfold insertButton
  cases hi : insert q.buttonOrder id q.buttonElement q.buttonsContainer with
  | error err => exact calmer_refl q
  | ok c =>
    cases hs : q.sections "buttons" with
    | none => exact calmer_refl q
    | some n =>
      refine ⟨List.Sublist.refl _, List.Sublist.refl _, fun _ h => h, ?_⟩
      intro x hx _
      exact insert_keeps_children q.buttonOrder id q.buttonElement q.buttonsContainer c
        (buttonElement_eq q) hi x hx

theorem showAll_calmer (l : List String) (q : Question) : Calmer q (showAll l q).state := by
  induction l generalizing q with
  | nil => exact calmer_refl q
  | cons id rest ih =>
    exact calmer_andThen q _ _ (insertButton_calmer q id) (fun q1 => ih q1)

theorem calmer_focusElement (q : Question) (id : String) : Calmer q (q.focusElement id) :=
  ⟨List.Sublist.refl _, List.Sublist.refl _, fun _ h => h, fun _ h _ => h⟩

theorem focusButton_calmer (q : Question) (id : Option String) :
    Calmer q (focusButton q id).state := by
  cases id with
  | none =>
    simp only [focusButton]
    split
    · exact calmer_focusElement q _
    · exact calmer_refl q
  | some id =>
    simp only [focusButton]
    split
    · split
      · exact calmer_focusElement q _
      · exact calmer_refl q
    · exact calmer_refl q

theorem refocus_calmer (l : List String) (q : Question) : Calmer q (refocus l q).state := by
  induction l generalizing q with
  | nil => exact calmer_refl q
  | cons id rest ih =>
    unfold refocus
    split
    · split
      · refine calmer_andThen q _ _ ?_ (fun q1 => ih q1)
        exact calmer_trans
          (⟨List.Sublist.refl _, List.Sublist.refl _, fun _ h => h, fun _ h _ => h⟩ :
            Calmer q (q.record .focusButtonCalled))
          (focusButton_calmer _ none)
      · exact ih q
    · exact calmer_refl q

theorem detachAll_calmer (l : List String) (q : Question) (h : ∀ x ∈ l, x ∈ q.buttonsToHide) :
    Calmer q (detachAll l q).state := by
  induction l generalizing q with
  | nil => exact calmer_refl q
  | cons id rest ih =>
    unfold detachAll
    split
    · have h1 : Calmer q (q.detachButton id) := by
        refine ⟨List.Sublist.refl _, List.Sublist.refl _, fun _ hx => hx, ?_⟩
        intro x hx hn
        have hne : x ≠ id := fun hxe => hn (hxe ▸ h id (by simp))
        exact mem_without.mpr ⟨hx, hne⟩
      exact calmer_trans h1 (ih (q.detachButton id) (fun x hx => h x (by simp [hx])))
    · exact calmer_refl q

theorem hideButtons_calmer (q : Question) : Calmer q (hideButtons q).state := by
  unfold hideButtons
  have h := detachAll_calmer q.buttonsToHide q (fun _ hx => hx)
  cases ho : detachAll q.buttonsToHide q with
  | threw q1 =>
    rw [ho] at h
    exact h
  | ok q1 =>
    rw [ho] at h
    exact calmer_trans h ⟨List.nil_sublist _, List.Sublist.refl _, fun _ hx => hx, fun _ hx _ => hx⟩

theorem calmer_of_eq {q q' : Question} (h1 : q'.buttonsToHide = q.buttonsToHide)
    (h2 : q'.buttonsToShow = q.buttonsToShow) (h3 : q'.buttons = q.buttons)
    (h4 : q'.buttonChildren = q.buttonChildren) : Calmer q q' :=
  ⟨h1 ▸ List.Sublist.refl _, h2 ▸ List.Sublist.refl _, fun _ h => h3 ▸ h, fun _ h _ => h4 ▸ h⟩

theorem setElementHeight_calmer (q : Question) (n : Nat) : Calmer q (setElementHeight q n) := by
  unfold setElementHeight
  split <;> exact calmer_of_eq rfl rfl rfl rfl

theorem toggleButtons_calmer (q : Question) : Calmer q (toggleButtons q).state := by
  unfold toggleButtons
  refine calmer_andThen q _ _ (showAll_calmer _ q) (fun q1 => ?_)
  refine calmer_andThen q1 _ _ (calmer_trans
    (⟨List.Sublist.refl _, List.nil_sublist _, fun _ h => h, fun _ h _ => h⟩ :
      Calmer q1 { q1 with buttonsToShow := [] }) (refocus_calmer _ _)) (fun q3 => ?_)
  refine calmer_andThen q3 _ _ ?_ (fun q5 => calmer_of_eq rfl rfl rfl rfl)
  split
  · split
    · exact calmer_of_eq rfl rfl rfl rfl
    · refine calmer_andThen q3 _ _ (hideButtons_calmer q3) (fun q4 => ?_)
      show Calmer q4 (if q4.buttonChildren.isEmpty then q4 else _)
      split
      · exact calmer_refl q4
      · exact calmer_trans (calmer_of_eq rfl rfl rfl rfl : Calmer q4 (q4.addClass _ _))
          (setElementHeight_calmer _ _)
  · exact calmer_andThen q3 _ _ (hideButtons_calmer q3) (fun q4 => calmer_refl q4)

theorem runCallback_calmer (q : Question) (cb : Callback) : Calmer q (runCallback q cb).state := by
  cases cb with
  | toggleButtons => exact toggleButtons_calmer q
  | hideButtons => exact hideButtons_calmer q
  | showFeedbackSection =>
    simp only [runCallback]
    split
    · exact calmer_trans (calmer_of_eq rfl rfl rfl rfl : Calmer q (q.addClass _ _))
        (setElementHeight_calmer _ _)
    · exact calmer_refl q
  | detachFeedback =>
    simp only [runCallback]
    split
    · exact calmer_refl q
    · split
      · exact calmer_of_eq rfl rfl rfl rfl
      · exact calmer_refl q

theorem fire_calmer (q : Question) (i : Nat) : Calmer q (fire q i).state := by
  unfold fire
  split
  · exact calmer_refl q
  · exact calmer_trans (calmer_of_eq rfl rfl rfl rfl : Calmer q { q with timers := _ })
      (runCallback_calmer _ _)

theorem insertFeedback_calmer (q : Question) : Calmer q (insertFeedback q).state := by
  unfold insertFeedback
  split
  · exact calmer_of_eq rfl rfl rfl rfl
  · exact calmer_refl q

theorem update_calmer (q : Question) (name : String) (content : Content) :
    Calmer q (update q name content).state := by
  unfold update
  split
  · exact calmer_of_eq rfl rfl rfl rfl
  · exact calmer_refl q

theorem refreshScoreBar_calmer (q : Question) (score maxScore : Int) :
    Calmer q (refreshScoreBar q score maxScore) := by
  unfold refreshScoreBar
  split <;> exact calmer_of_eq rfl rfl rfl rfl

theorem setFeedback_calmer (q : Question) (content : Option String) (score maxScore : Int) :
    Calmer q (setFeedback q content score maxScore).state := by
  unfold setFeedback
  split
  · have h1 : Calmer q { refreshScoreBar q score maxScore with showFeedback := true } :=
      calmer_trans (refreshScoreBar_calmer q score maxScore) (calmer_of_eq rfl rfl rfl rfl)
    refine calmer_andThen q _ _ ?_ (fun q3 => ?_)
    · split
      · exact calmer_trans h1 (update_calmer _ _ _)
      · exact calmer_trans h1 (calmer_of_eq rfl rfl rfl rfl)
    · beta_reduce
      split
      · refine calmer_andThen q3 _ _ ?_ (fun q4 => calmer_of_eq rfl rfl rfl rfl)
        split
        · split
          · exact calmer_refl q3
          · exact insertFeedback_calmer q3
        · exact calmer_refl q3
      · exact calmer_refl q3
  · split
    · split
      · exact calmer_of_eq rfl rfl rfl rfl
      · exact calmer_refl q
    · exact calmer_refl q

theorem wellFormed_of_calmer {q q' : Question} (h : WellFormed q) (hc : Calmer q q') :
    WellFormed q' := by
  obtain ⟨h1, h2, h3, h4, h5⟩ := h
  obtain ⟨c1, c2, c3, -⟩ := hc
  exact ⟨h1.sublist c1, h2.sublist c2,
    fun x hx hs => h3 x (c1.subset hx) (c2.subset hs),
    fun x hx => c3 x (h4 x (c1.subset hx)),
    fun x hx => c3 x (h5 x (c2.subset hx))⟩

theorem scheduleToggle_fields (q : Question) :
    (scheduleToggle q).buttonsToHide = q.buttonsToHide ∧
    (scheduleToggle q).buttonsToShow = q.buttonsToShow ∧
    (scheduleToggle q).buttons = q.buttons ∧
    (scheduleToggle q).buttonChildren = q.buttonChildren := by
  unfold scheduleToggle
  split <;> exact ⟨rfl, rfl, rfl, rfl⟩

theorem wellFormed_new (type : String) : WellFormed (Question.new type) := by
  simp [WellFormed, Question.new]

theorem wellFormed_showButton (q : Question) (id : String) (h : WellFormed q) :
    WellFormed (showButton q id) := by
  obtain ⟨h1, h2, h3, h4, h5⟩ := h
  unfold showButton
  split
  · exact ⟨h1, h2, h3, h4, h5⟩
  · rename_i hreg
    have hreg' : id ∈ q.buttons := by simpa using hreg
    split
    · exact ⟨h1, h2, h3, h4, h5⟩
    · rename_i hns
      split
      · exact ⟨h1.erase id, h2, fun x hx => h3 x (List.mem_of_mem_erase hx),
          fun x hx => h4 x (List.mem_of_mem_erase hx), h5⟩
      · rename_i hnh
        split
        · exact ⟨h1, h2, h3, h4, h5⟩
        · obtain ⟨f1, f2, f3, -⟩ := scheduleToggle_fields { q with buttonsToShow := q.buttonsToShow ++ [id] }
          refine ⟨?_, ?_, ?_, ?_, ?_⟩
          · rw [f1]; exact h1
          · rw [f2]
            exact List.Nodup.append h2 (List.nodup_singleton id) (by simpa using hns)
          · rw [f1, f2]
            intro x hx hs
            rcases List.mem_append.mp hs with hs | hs
            · exact h3 x hx hs
            · exact hnh ((List.mem_singleton.mp hs) ▸ hx)
          · rw [f1, f3]; exact h4
          · rw [f2, f3]
            intro x hs
            rcases List.mem_append.mp hs with hs | hs
            · exact h5 x hs
            · exact (List.mem_singleton.mp hs) ▸ hreg'

theorem wellFormed_hideButton (q : Question) (id : String) (h : WellFormed q) :
    WellFormed (hideButton q id) := by
  obtain ⟨h1, h2, h3, h4, h5⟩ := h
  unfold hideButton
  split
  · exact ⟨h1, h2, h3, h4, h5⟩
  · rename_i hreg
    have hreg' : id ∈ q.buttons := by simpa using hreg
    split
    · exact ⟨h1, h2, h3, h4, h5⟩
    · rename_i hnh
      split
      · exact ⟨h1, h2.erase id, fun x hx hs => h3 x hx (List.mem_of_mem_erase hs), h4,
          fun x hx => h5 x (List.mem_of_mem_erase hx)⟩
      · rename_i hns
        split
        · exact ⟨h1, h2, h3, h4, h5⟩
        · obtain ⟨f1, f2, f3, -⟩ := scheduleToggle_fields { q with buttonsToHide := q.buttonsToHide ++ [id] }
          refine ⟨?_, ?_, ?_, ?_, ?_⟩
          · rw [f1]
            exact List.Nodup.append h1 (List.nodup_singleton id) (by simpa using hnh)
          · rw [f2]; exact h2
          · rw [f1, f2]
            intro x hx hs
            rcases List.mem_append.mp hx with hx | hx
            · exact h3 x hx hs
            · exact hns ((List.mem_singleton.mp hx) ▸ hs)
          · rw [f1, f3]
            intro x hx
            rcases List.mem_append.mp hx with hx | hx
            · exact h4 x hx
            · exact (List.mem_singleton.mp hx) ▸ hreg'
          · rw [f2, f3]; exact h5

theorem addButton_calmer (q : Question) (id text : String) (visible : Option Bool) :
    Calmer q (addButton q id text visible) := by
  unfold addButton
  split
  · exact calmer_refl q
  · have hq1 : ∀ s : Option Nat, Calmer q (match s with
        | none => register q "buttons" .empty
        | some _ => q) := by
      intro s
      cases s
      · exact calmer_of_eq rfl rfl rfl rfl
      · exact calmer_refl q
    refine calmer_trans (hq1 (q.sections "buttons")) ?_
    generalize (match q.sections "buttons" with
        | none => register q "buttons" .empty
        | some _ => q) = q1
    have hq2 : Calmer q1 { q1 with
        buttons := q1.buttons ++ [id]
        labels := fun k => if k = id then some text else q1.labels k
        buttonOrder := q1.buttonOrder ++ [id] } :=
      ⟨List.Sublist.refl _, List.Sublist.refl _, fun x hx => List.mem_append_left _ hx,
        fun _ hx _ => hx⟩
    refine calmer_trans hq2 ?_
    beta_reduce
    split
    · dsimp only
      split
      · refine ⟨List.Sublist.refl _, List.Sublist.refl _, fun _ hx => hx, ?_⟩
        intro x hx _
        show x ∈ without id q1.buttonChildren ++ [id]
        by_cases hxe : x = id
        · simp [hxe]
        · exact List.mem_append_left _ (mem_without.mpr ⟨hx, hxe⟩)
      · exact calmer_refl _
    · exact calmer_refl _

theorem setContent_calmer (q : Question) (content cls : Option String) :
    Calmer q (setContent q content cls) := by
  unfold setContent
  split
  · split <;> exact calmer_of_eq rfl rfl rfl rfl
  · exact calmer_of_eq rfl rfl rfl rfl

theorem wellFormed_call (q : Question) (c : Call) (h : WellFormed q) :
    WellFormed (call q c).state := by
  cases c with
  | setImage path alt => exact wellFormed_of_calmer h (calmer_of_eq rfl rfl rfl rfl)
  | setIntroduction content => exact wellFormed_of_calmer h (calmer_of_eq rfl rfl rfl rfl)
  | setContent content cls => exact wellFormed_of_calmer h (setContent_calmer q content cls)
  | setFeedback content score maxScore =>
    exact wellFormed_of_calmer h (setFeedback_calmer q content score maxScore)
  | addButton id text visible => exact wellFormed_of_calmer h (addButton_calmer q id text visible)
  | showButton id => exact wellFormed_showButton q id h
  | hideButton id => exact wellFormed_hideButton q id h
  | focusButton id => exact wellFormed_of_calmer h (focusButton_calmer q id)

theorem wellFormed_runCalls (cs : List Call) (q : Question) (h : WellFormed q) :
    WellFormed (runCalls cs q).state := by
  induction cs generalizing q with
  | nil => exact h
  | cons c rest ih =>
    unfold runCalls
    have hc := wellFormed_call q c h
    cases ho : call q c with
    | ok q1 =>
      rw [ho] at hc
      exact ih q1 hc
    | threw q1 =>
      rw [ho] at hc
      exact hc

theorem wellFormed_attach (q : Question) (hook : Option (List Call)) (h : WellFormed q) :
    WellFormed (attach q hook).state := by
  have key : ∀ o : Outcome, WellFormed o.state →
      WellFormed (o.andThen fun q2 =>
        let q3 : Question :=
          { q2 with wrapper := true, wrapperChildren := [], focus := none,
                    log := q2.log ++ [.emptied] }
        let nodes := collectSections q3.sections q3.order []
        .ok { q3 with
          wrapperChildren := appendAll nodes q3.wrapperChildren
          log := q3.log ++ [.laidOut nodes] }).state := by
    intro o ho
    cases o with
    | ok q2 => exact wellFormed_of_calmer ho (calmer_of_eq rfl rfl rfl rfl)
    | threw q2 => exact ho
  unfold attach
  apply key
  split
  · exact h
  · cases hook with
    | none => exact wellFormed_of_calmer h (calmer_of_eq rfl rfl rfl rfl)
    | some calls =>
      have hr := wellFormed_runCalls calls (q.record .hookCalled)
        (wellFormed_of_calmer h (calmer_of_eq rfl rfl rfl rfl))
      simp only []
      cases ho : runCalls calls (q.record .hookCalled) with
      | ok q1 =>
        rw [ho] at hr
        exact wellFormed_of_calmer hr (calmer_of_eq rfl rfl rfl rfl)
      | threw q1 =>
        rw [ho] at hr
        exact hr

theorem wellFormed_step (q : Question) (a : Action) (h : WellFormed q) :
    WellFormed (step q a).state := by
  cases a with
  | call c => exact wellFormed_call q c h
  | attach hook => exact wellFormed_attach q hook h
  | fire i => exact wellFormed_of_calmer h (fire_calmer q i)
  | render shown => exact h
  | userFocus target =>
    cases target with
    | none => exact h
    | some id =>
      simp only [step, Outcome.state]
      split
      · exact h
      · exact h

theorem wellFormed_of_reachable (q : Question) (h : Reachable q) : WellFormed q := by
  induction h with
  | new type => exact wellFormed_new type
  | step q a _ ih => exact wellFormed_step q a ih

/-! ## Cancellation and idempotence of the requests -/

/-- C10: in every reachable state the pending-show and pending-hide lists are
disjoint, free of duplicates and hold registered ids only; `showButton` on a
pending-hide id and `hideButton` on a pending-show id remove that entry and
leave the other list as it is. -/
theorem pending_lists_disjoint_and_registered (q : Question) (h : Reachable q) :
    (∀ x ∈ q.buttonsToShow, x ∉ q.buttonsToHide) ∧
    q.buttonsToShow.Nodup ∧ q.buttonsToHide.Nodup ∧
    (∀ x ∈ q.buttonsToShow, x ∈ q.buttons) ∧ (∀ x ∈ q.buttonsToHide, x ∈ q.buttons) ∧
    (∀ id ∈ q.buttonsToHide,
      (showButton q id).buttonsToHide = q.buttonsToHide.erase id ∧
      id ∉ (showButton q id).buttonsToHide ∧
      (showButton q id).buttonsToShow = q.buttonsToShow) ∧
    (∀ id ∈ q.buttonsToShow,
      (hideButton q id).buttonsToShow = q.buttonsToShow.erase id ∧
      id ∉ (hideButton q id).buttonsToShow ∧
      (hideButton q id).buttonsToHide = q.buttonsToHide) := by
  obtain ⟨h1, h2, h3, h4, h5⟩ := wellFormed_of_reachable q h
  refine ⟨fun x hs hh => h3 x hh hs, h2, h1, h5, h4, ?_, ?_⟩
  · intro id hid
    have hreg : id ∈ q.buttons := h4 id hid
    have hns : id ∉ q.buttonsToShow := h3 id hid
    have he : (showButton q id).buttonsToHide = q.buttonsToHide.erase id ∧
        (showButton q id).buttonsToShow = q.buttonsToShow := by
      simp [showButton, hreg, hns, hid]
    refine ⟨he.1, ?_, he.2⟩
    rw [he.1, h1.mem_erase_iff]
    simp
  · intro id hid
    have hreg : id ∈ q.buttons := h5 id hid
    have hnh : id ∉ q.buttonsToHide := fun hh => h3 id hh hid
    have he : (hideButton q id).buttonsToShow = q.buttonsToShow.erase id ∧
        (hideButton q id).buttonsToHide = q.buttonsToHide := by
      simp [hideButton, hreg, hnh, hid]
    refine ⟨he.1, ?_, he.2⟩
    rw [he.1, h2.mem_erase_iff]
    simp

/-- C10 at a Question whose only button waits to be hidden. -/
theorem pending_lists_disjoint_and_registered_witness :
    Reachable pendingHideState ∧ pendingHideState.buttonsToHide = ["a"] ∧
    (showButton pendingHideState "a").buttonsToHide = [] ∧
    (showButton pendingHideState "a").buttonsToShow = [] :=
  ⟨reachable_run _ _ (Reachable.new _), by decide,
    ((pending_lists_disjoint_and_registered pendingHideState
      (reachable_run _ _ (Reachable.new _))).2.2.2.2.2.1 "a" (by decide)).1.trans (by decide),
    ((pending_lists_disjoint_and_registered pendingHideState
      (reachable_run _ _ (Reachable.new _))).2.2.2.2.2.1 "a" (by decide)).2.2.trans (by decide)⟩

/-- C5, amended: in a reachable state where `id` does not wait to be hidden
while it is not visible, a second `showButton(id)` changes nothing at all. -/
theorem showButton_twice_is_once (q : Question) (id : String) (h : Reachable q)
    (hv : id ∈ q.buttonsToHide → q.buttonVisible id = true) :
    showButton (showButton q id) id = showButton q id := by
  obtain ⟨h1, h2, h3, h4, h5⟩ := wellFormed_of_reachable q h
  by_cases hreg : id ∈ q.buttons
  · by_cases hs : id ∈ q.buttonsToShow
    · simp [showButton, hreg, hs]
    · by_cases hh : id ∈ q.buttonsToHide
      · have hvis := hv hh
        have hne : id ∉ q.buttonsToHide.erase id := by
          rw [h1.mem_erase_iff]; simp
        have hq : showButton q id = { q with buttonsToHide := q.buttonsToHide.erase id } := by
          simp [showButton, hreg, hs, hh]
        rw [hq]
        have hvis' : Question.buttonVisible
            { q with buttonsToHide := q.buttonsToHide.erase id } id = true := hvis
        simp [showButton, hreg, hs, hne, hvis']
      · by_cases hvis : q.buttonVisible id = true
        · simp [showButton, hreg, hs, hh, hvis]
        · have hq : showButton q id =
              scheduleToggle { q with buttonsToShow := q.buttonsToShow ++ [id] } := by
            simp [showButton, hreg, hs, hh, hvis]
          rw [hq]
          obtain ⟨-, f2, f3, -⟩ :=
            scheduleToggle_fields { q with buttonsToShow := q.buttonsToShow ++ [id] }
          have hin : id ∈ (scheduleToggle
              { q with buttonsToShow := q.buttonsToShow ++ [id] }).buttonsToShow := by
            rw [f2]; simp
          have hreg' : id ∈ (scheduleToggle
              { q with buttonsToShow := q.buttonsToShow ++ [id] }).buttons := by
            rw [f3]; exact hreg
          generalize scheduleToggle { q with buttonsToShow := q.buttonsToShow ++ [id] } = q1
            at hin hreg'
          simp [showButton, hreg', hin]
  · simp [showButton, hreg]

/-- C5, amended, at a visible button that waits to be hidden. -/
theorem showButton_twice_is_once_witness :
    Reachable pendingHideState ∧
    ("a" ∈ pendingHideState.buttonsToHide → pendingHideState.buttonVisible "a" = true) ∧
    showButton (showButton pendingHideState "a") "a" = showButton pendingHideState "a" :=
  ⟨reachable_run _ _ (Reachable.new _), fun _ => by decide,
    showButton_twice_is_once pendingHideState "a" (reachable_run _ _ (Reachable.new _))
      (fun _ => by decide)⟩

theorem showButton_frame (q : Question) (id : String) :
    (showButton q id).buttonChildren = q.buttonChildren ∧
    (showButton q id).buttonsToHide.Sublist q.buttonsToHide := by
  unfold showButton
  split
  · exact ⟨rfl, List.Sublist.refl _⟩
  · split
    · exact ⟨rfl, List.Sublist.refl _⟩
    · split
      · exact ⟨rfl, List.erase_sublist _ _⟩
      · split
        · exact ⟨rfl, List.Sublist.refl _⟩
        · obtain ⟨f1, -, -, f4⟩ :=
            scheduleToggle_fields { q with buttonsToShow := q.buttonsToShow ++ [id] }
          rw [f1, f4]
          exact ⟨rfl, List.Sublist.refl _⟩

theorem quiet_step_keeps (q : Question) (a : Action) (ha : a.isQuiet = true) (id : String)
    (h : id ∈ q.buttonChildren ∧ id ∉ q.buttonsToHide) :
    id ∈ (step q a).state.buttonChildren ∧ id ∉ (step q a).state.buttonsToHide := by
  have hc : Calmer q (step q a).state := by
    cases a with
    | call c => simp [Action.isQuiet] at ha
    | attach hook => simp [Action.isQuiet] at ha
    | fire i => exact fire_calmer q i
    | render shown => exact calmer_of_eq rfl rfl rfl rfl
    | userFocus target =>
      cases target with
      | none => exact calmer_of_eq rfl rfl rfl rfl
      | some t =>
        simp only [step, Outcome.state]
        split
        · exact calmer_of_eq rfl rfl rfl rfl
        · exact calmer_refl q
  exact ⟨hc.2.2.2 id h.1 h.2, fun hm => h.2 (hc.1.subset hm)⟩

theorem quiet_run_keeps (as : List Action) (q : Question) (ha : ∀ a ∈ as, a.isQuiet = true)
    (id : String) (h : id ∈ q.buttonChildren ∧ id ∉ q.buttonsToHide) :
    id ∈ (run as q).buttonChildren ∧ id ∉ (run as q).buttonsToHide := by
  induction as generalizing q with
  | nil => exact h
  | cons a rest ih =>
    exact ih (step q a).state (fun b hb => ha b (by simp [hb]))
      (quiet_step_keeps q a (ha a (by simp)) id h)

/-- C4, amended: for a registered button that is visible in a reachable state,
`hideButton(id)` followed by `showButton(id)` and then any timer firings (or
changes of the surroundings) leave the button attached at every point. -/
theorem hide_then_show_keeps_visible_button (q : Question) (id : String) (h : Reachable q)
    (hreg : id ∈ q.buttons) (hv : q.buttonVisible id = true)
    (as : List Action) (ha : ∀ a ∈ as, a.isQuiet = true) :
    id ∈ q.buttonChildren ∧ id ∈ (hideButton q id).buttonChildren ∧
    id ∈ (showButton (hideButton q id) id).buttonChildren ∧
    id ∈ (run as (showButton (hideButton q id) id)).buttonChildren := by
  obtain ⟨h1, h2, h3, h4, h5⟩ := wellFormed_of_reachable q h
  have hc : id ∈ q.buttonChildren := by
    simp only [Question.buttonVisible, Container.visible, Bool.and_eq_true,
      decide_eq_true_eq] at hv
    exact hv.2
  have key : id ∈ (hideButton q id).buttonChildren ∧
      id ∈ (showButton (hideButton q id) id).buttonChildren ∧
      id ∉ (showButton (hideButton q id) id).buttonsToHide := by
    by_cases hh : id ∈ q.buttonsToHide
    · have hq : hideButton q id = q := by simp [hideButton, hreg, hh]
      rw [hq]
      have hns : id ∉ q.buttonsToShow := h3 id hh
      have hs : showButton q id = { q with buttonsToHide := q.buttonsToHide.erase id } := by
        simp [showButton, hreg, hns, hh]
      rw [hs]
      refine ⟨hc, hc, ?_⟩
      show id ∉ q.buttonsToHide.erase id
      rw [h1.mem_erase_iff]; simp
    · by_cases hs : id ∈ q.buttonsToShow
      · have hq : hideButton q id = { q with buttonsToShow := q.buttonsToShow.erase id } := by
          simp [hideButton, hreg, hh, hs]
        rw [hq]
        obtain ⟨f1, f2⟩ := showButton_frame { q with buttonsToShow := q.buttonsToShow.erase id } id
        refine ⟨hc, ?_, ?_⟩
        · rw [f1]; exact hc
        · exact fun hm => hh (f2.subset hm)
      · have hq : hideButton q id =
            scheduleToggle { q with buttonsToHide := q.buttonsToHide ++ [id] } := by
          simp [hideButton, hreg, hh, hs, hv]
        rw [hq]
        obtain ⟨g1, g2, g3, g4⟩ :=
          scheduleToggle_fields { q with buttonsToHide := q.buttonsToHide ++ [id] }
        generalize scheduleToggle { q with buttonsToHide := q.buttonsToHide ++ [id] } = q1
          at g1 g2 g3 g4
        have hreg1 : id ∈ q1.buttons := by rw [g3]; exact hreg
        have hns1 : id ∉ q1.buttonsToShow := by rw [g2]; exact hs
        have hh1 : id ∈ q1.buttonsToHide := by rw [g1]; simp
        have hc1 : id ∈ q1.buttonChildren := by rw [g4]; exact hc
        have hs1 : showButton q1 id = { q1 with buttonsToHide := q1.buttonsToHide.erase id } := by
          simp [showButton, hreg1, hns1, hh1]
        rw [hs1]
        refine ⟨hc1, hc1, ?_⟩
        show id ∉ q1.buttonsToHide.erase id
        have hnd : q1.buttonsToHide.Nodup := by
          rw [g1]
          exact List.Nodup.append h1 (List.nodup_singleton id) (by simpa using hh)
        rw [hnd.mem_erase_iff]; simp
  exact ⟨hc, key.1, key.2.1, (quiet_run_keeps as _ ha id ⟨key.2.1, key.2.2⟩).1⟩

/-- C4, amended, at one visible button and the coalescing timer firing. -/
theorem hide_then_show_keeps_visible_button_witness :
    Reachable oneButtonState ∧ "a" ∈ oneButtonState.buttons ∧
    oneButtonState.buttonVisible "a" = true ∧
    (∀ a ∈ [Action.fire 0], a.isQuiet = true) ∧
    "a" ∈ oneButtonState.buttonChildren ∧ "a" ∈ (hideButton oneButtonState "a").buttonChildren ∧
    "a" ∈ (showButton (hideButton oneButtonState "a") "a").buttonChildren ∧
    "a" ∈ (run [Action.fire 0] (showButton (hideButton oneButtonState "a") "a")).buttonChildren :=
  ⟨reachable_run _ _ (Reachable.new _), by decide, by decide, by decide,
    hide_then_show_keeps_visible_button oneButtonState "a" (reachable_run _ _ (Reachable.new _))
      (by decide) (by decide) [Action.fire 0] (by decide)⟩

/-! ## The feedback panel -/

theorem samePanel_refl (q : Question) : SamePanel q q := ⟨rfl, rfl, rfl⟩

theorem samePanel_trans {q q1 q2 : Question} (h1 : SamePanel q q1) (h2 : SamePanel q1 q2) :
    SamePanel q q2 :=
  ⟨h2.1.trans h1.1, h2.2.1.trans h1.2.1, h2.2.2.trans h1.2.2⟩

theorem samePanel_andThen (q : Question) (o : Outcome) (f : Question → Outcome)
    (h1 : SamePanel q o.state) (h2 : ∀ q1, SamePanel q1 (f q1).state) :
    SamePanel q (o.andThen f).state := by
  cases o with
  | ok q1 => exact samePanel_trans h1 (h2 q1)
  | threw q1 => exact h1

theorem insertButton_samePanel (q : Question) (id : String) :
    SamePanel q (insertButton q id).state := by
  unfold insertButton
  split
  · split
    · exact ⟨rfl, rfl, rfl⟩
    · exact samePanel_refl q
  · exact samePanel_refl q

theorem showAll_samePanel (l : List String) (q : Question) :
    SamePanel q (showAll l q).state := by
  induction l generalizing q with
  | nil => exact samePanel_refl q
  | cons id rest ih =>
    exact samePanel_andThen q _ _ (insertButton_samePanel q id) (fun q1 => ih q1)

theorem focusButton_samePanel (q : Question) (id : Option String) :
    SamePanel q (focusButton q id).state := by
  cases id with
  | none =>
    simp only [focusButton]
    split
    · exact ⟨rfl, rfl, rfl⟩
    · exact samePanel_refl q
  | some id =>
    simp only [focusButton]
    split
    · split
      · exact ⟨rfl, rfl, rfl⟩
      · exact samePanel_refl q
    · exact samePanel_refl q

theorem refocus_samePanel (l : List String) (q : Question) :
    SamePanel q (refocus l q).state := by
  induction l generalizing q with
  | nil => exact samePanel_refl q
  | cons id rest ih =>
    unfold refocus
    split
    · split
      · refine samePanel_andThen q _ _ ?_ (fun q1 => ih q1)
        exact samePanel_trans (⟨rfl, rfl, rfl⟩ : SamePanel q (q.record .focusButtonCalled))
          (focusButton_samePanel _ none)
      · exact ih q
    · exact samePanel_refl q

theorem detachAll_samePanel (l : List String) (q : Question) :
    SamePanel q (detachAll l q).state := by
  induction l generalizing q with
  | nil => exact samePanel_refl q
  | cons id rest ih =>
    unfold detachAll
    split
    · exact samePanel_trans (⟨rfl, rfl, rfl⟩ : SamePanel q (q.detachButton id)) (ih _)
    · exact samePanel_refl q

theorem hideButtons_samePanel (q : Question) : SamePanel q (hideButtons q).state := by
  unfold hideButtons
  exact samePanel_andThen q _ _ (detachAll_samePanel _ q) (fun q1 => ⟨rfl, rfl, rfl⟩)

theorem setElementHeight_samePanel (q : Question) (n : Nat) :
    SamePanel q (setElementHeight q n) := by
  unfold setElementHeight
  split <;> exact ⟨rfl, rfl, rfl⟩

theorem toggleButtons_samePanel (q : Question) : SamePanel q (toggleButtons q).state := by
  unfold toggleButtons
  refine samePanel_andThen q _ _ (showAll_samePanel _ q) (fun q1 => ?_)
  refine samePanel_andThen q1 _ _ (samePanel_trans
    (⟨rfl, rfl, rfl⟩ : SamePanel q1 { q1 with buttonsToShow := [] })
    (refocus_samePanel _ _)) (fun q3 => ?_)
  refine samePanel_andThen q3 _ _ ?_ (fun q5 => ⟨rfl, rfl, rfl⟩)
  split
  · split
    · exact ⟨rfl, rfl, rfl⟩
    · refine samePanel_andThen q3 _ _ (hideButtons_samePanel q3) (fun q4 => ?_)
      show SamePanel q4 (if q4.buttonChildren.isEmpty then q4 else _)
      split
      · exact samePanel_refl q4
      · exact samePanel_trans (⟨rfl, rfl, rfl⟩ : SamePanel q4 (q4.addClass _ _))
          (setElementHeight_samePanel _ _)
  · exact samePanel_andThen q3 _ _ (hideButtons_samePanel q3) (fun q4 => samePanel_refl q4)

theorem not_rendered_of_hidden_child (q : Question) (n : Nat) (hin : n ∈ q.wrapperChildren)
    (hv : q.sectionVisible n = false) : q.wrapperContainer.rendered = false := by
  simp only [Question.sectionVisible, Container.visible, Question.wrapperContainer,
    Bool.and_eq_false_iff, decide_eq_false_iff_not] at hv
  rcases hv with hv | hv
  · exact hv
  · exact absurd hin hv

theorem panel_of_same {q q' : Question} {n : Nat} (h : PanelAttached n q) (hs : SamePanel q q') :
    PanelAttached n q' :=
  ⟨by rw [hs.2.1]; exact h.1, by rw [hs.1]; exact h.2⟩

theorem panel_andThen (n : Nat) (o : Outcome) (f : Question → Outcome)
    (h1 : PanelAttached n o.state) (h2 : ∀ q1, PanelAttached n q1 → PanelAttached n (f q1).state) :
    PanelAttached n (o.andThen f).state := by
  cases o with
  | ok q1 => exact h2 q1 h1
  | threw q1 => exact h1

theorem insertFeedback_keeps (q : Question) (n : Nat) (h : PanelAttached n q)
    (hv : q.sectionVisible n = false) : PanelAttached n (insertFeedback q).state := by
  unfold insertFeedback
  cases hi : insert q.order "feedback" q.sections q.wrapperContainer with
  | error err => exact h
  | ok c =>
    exact ⟨h.1, insert_keeps_self_when_hidden q.order "feedback" q.sections q.wrapperContainer
      c n h.1 (not_rendered_of_hidden_child q n h.2 hv) hi h.2⟩

theorem refreshScoreBar_samePanel (q : Question) (score maxScore : Int) :
    SamePanel q (refreshScoreBar q score maxScore) := by
  unfold refreshScoreBar
  split <;> exact ⟨rfl, rfl, rfl⟩

theorem update_keeps (q : Question) (n : Nat) (name : String) (content : Content)
    (h : PanelAttached n q) : PanelAttached n (update q name content).state := by
  unfold update
  split
  · exact h
  · exact h

theorem ofValue_cases (content : Option String) :
    Content.ofValue content = .empty ∨ ∃ text, Content.ofValue content = .html text := by
  cases content with
  | none => exact Or.inl rfl
  | some s =>
    by_cases hs : s = ""
    · exact Or.inl (by simp [Content.ofValue, hs])
    · exact Or.inr ⟨s, by simp [Content.ofValue, hs]⟩

theorem setFeedback_of_empty (q : Question) (content : Option String) (score maxScore : Int)
    (hc : Content.ofValue content = .empty) :
    setFeedback q content score maxScore =
      match q.sections "feedback" with
      | some n =>
        if q.showFeedback then
          .ok ((({ q with showFeedback := false }.removeClass n "h5p-question-visible").setMaxHeight
            n .zero).setTimeout .detachFeedback 150)
        else .ok q
      | none => .ok q := by
  unfold setFeedback
  rw [hc]

theorem setFeedback_of_html (q : Question) (content : Option String) (score maxScore : Int)
    (text : String) (hc : Content.ofValue content = .html text) :
    setFeedback q content score maxScore =
      ((match ({ refreshScoreBar q score maxScore with showFeedback := true } : Question).sections
          "feedback" with
        | some _ =>
          update { refreshScoreBar q score maxScore with showFeedback := true } "feedback"
            (.feedback text)
        | none =>
          .ok (register { refreshScoreBar q score maxScore with showFeedback := true } "feedback"
            (.feedback text))).andThen fun q3 =>
      if q3.wrapper then
        (match q3.sections "feedback" with
          | some n => if q3.sectionVisible n then Outcome.ok q3 else insertFeedback q3
          | none => .threw q3).andThen fun q4 =>
        .ok (q4.setTimeout .showFeedbackSection 0)
      else .ok q3) := by
  unfold setFeedback
  rw [hc]

theorem setFeedback_keeps (q : Question) (n : Nat) (content : Option String)
    (score maxScore : Int) (h : PanelAttached n q)
    (hshow : (setFeedback q content score maxScore).state.showFeedback = true) :
    PanelAttached n (setFeedback q content score maxScore).state := by
  rcases ofValue_cases content with hc | ⟨text, hc⟩
  · rw [setFeedback_of_empty q content score maxScore hc] at hshow ⊢
    rw [h.1] at hshow ⊢
    by_cases hsf : q.showFeedback = true
    · simp only [hsf, if_true, Outcome.state] at hshow
      exact absurd hshow (by simp [Question.setTimeout, Question.setMaxHeight,
        Question.removeClass, Question.setElem])
    · simp only [hsf]
      exact h
  · rw [setFeedback_of_html q content score maxScore text hc]
    have hr := refreshScoreBar_samePanel q score maxScore
    have h2 : PanelAttached n { refreshScoreBar q score maxScore with showFeedback := true } :=
      ⟨by show (refreshScoreBar q score maxScore).sections "feedback" = some n
          rw [hr.2.1]; exact h.1,
        by show n ∈ (refreshScoreBar q score maxScore).wrapperChildren
           rw [hr.1]; exact h.2⟩
    refine panel_andThen n _ _ ?_ (fun q3 h3 => ?_)
    · split
      · exact update_keeps _ n _ _ h2
      · rename_i hnone
        exact absurd (h2.1.symm.trans hnone) (by simp)
    · beta_reduce
      split
      · refine panel_andThen n _ _ ?_ (fun q4 h4 => h4)
        split
        · rename_i m hm
          have hmn : m = n := Option.some.inj (hm.symm.trans h3.1)
          subst hmn
          split
          · exact h3
          · rename_i hv
            exact insertFeedback_keeps q3 m h3 (by simpa using hv)
        · exact h3
      · exact h3

theorem runCallback_keeps (q : Question) (n : Nat) (cb : Callback) (h : PanelAttached n q)
    (hshow : (runCallback q cb).state.showFeedback = true) :
    PanelAttached n (runCallback q cb).state := by
  cases cb with
  | toggleButtons => exact panel_of_same h (toggleButtons_samePanel q)
  | hideButtons => exact panel_of_same h (hideButtons_samePanel q)
  | showFeedbackSection =>
    simp only [runCallback, h.1]
    exact panel_of_same h (samePanel_trans (⟨rfl, rfl, rfl⟩ : SamePanel q (q.addClass _ _))
      (setElementHeight_samePanel _ _))
  | detachFeedback =>
    simp only [runCallback, h.1] at hshow ⊢
    by_cases hsf : q.showFeedback = true
    · simp only [hsf, if_true]
      exact h
    · simp [hsf, Outcome.state] at hshow

/-- C9: from any state in which the feedback panel is attached, a `setFeedback`
call or a timer firing that ends with `showFeedback` true leaves the same panel
attached (also when the call raises); so the delayed detach of an earlier hide
does nothing once the panel has been shown again. -/
theorem feedback_stays_attached_while_shown (q : Question) (n : Nat) (a : Action)
    (ha : a.isFeedbackStep = true)
    (hs : q.sections "feedback" = some n) (hin : n ∈ q.wrapperChildren)
    (hshow : (step q a).state.showFeedback = true) :
    (step q a).state.sections "feedback" = some n ∧ n ∈ (step q a).state.wrapperChildren := by
  cases a with
  | call c =>
    cases c with
    | setFeedback content score maxScore =>
      exact setFeedback_keeps q n content score maxScore ⟨hs, hin⟩ hshow
    | setImage path alt => simp [Action.isFeedbackStep] at ha
    | setIntroduction content => simp [Action.isFeedbackStep] at ha
    | setContent content cls => simp [Action.isFeedbackStep] at ha
    | addButton id text visible => simp [Action.isFeedbackStep] at ha
    | showButton id => simp [Action.isFeedbackStep] at ha
    | hideButton id => simp [Action.isFeedbackStep] at ha
    | focusButton id => simp [Action.isFeedbackStep] at ha
  | attach hook => simp [Action.isFeedbackStep] at ha
  | fire i =>
    simp only [step, fire] at hshow ⊢
    split
    · exact ⟨hs, hin⟩
    · rename_i t ht
      simp only [ht] at hshow
      exact runCallback_keeps { q with timers := q.timers.eraseIdx i } n t.callback ⟨hs, hin⟩
        hshow
  | render shown => simp [Action.isFeedbackStep] at ha
  | userFocus target => simp [Action.isFeedbackStep] at ha

/-- C9, at the race of the specification: feedback "x", then none, then "y",
all before a timer fires; the delayed detach leaves the panel in place, and
when every timer has fired the panel is attached and holds "y". -/
theorem feedback_stays_attached_while_shown_witness :
    (Action.fire 1).isFeedbackStep = true ∧
    (run feedbackRace attachedState).sections "feedback" = some 1 ∧
    1 ∈ (run feedbackRace attachedState).wrapperChildren ∧
    ((run feedbackRace attachedState).timers.map (fun t => t.callback)) =
      [.showFeedbackSection, .detachFeedback, .showFeedbackSection] ∧
    ((step (run feedbackRace attachedState) (.fire 1)).state.sections "feedback" = some 1 ∧
      1 ∈ (step (run feedbackRace attachedState) (.fire 1)).state.wrapperChildren) ∧
    (run (feedbackRace ++ [.fire 0, .fire 0, .fire 0]) attachedState).timers = [] ∧
    (run (feedbackRace ++ [.fire 0, .fire 0, .fire 0]) attachedState).wrapperChildren = [0, 1] ∧
    ((run (feedbackRace ++ [.fire 0, .fire 0, .fire 0]) attachedState).elems 1).content =
      .feedback "y" :=
  ⟨by decide, by decide, by decide, by decide,
    feedback_stays_attached_while_shown (run feedbackRace attachedState) 1 (.fire 1)
      (by decide) (by decide) (by decide) (by decide),
    by decide, by decide, by decide⟩

/-! ## Hiding the whole button group -/

theorem buttonsOnly_first (type id : String) :
    ButtonsOnly [id] [] false (addButton (Question.new type) id id none) where
  buttons := by simp [addButton, Question.new, register, Question.addClass, Question.setElem]
  children := by
    simp [addButton, Question.new, register, Question.addClass, Question.setElem, without]
  group := by simp [addButton, Question.new, register, Question.addClass, Question.setElem]
  others := by
    intro k hk
    simp [addButton, Question.new, register, Question.addClass, Question.setElem, hk]
  visibleClass := by
    simp [addButton, Question.new, register, Question.addClass, Question.setElem,
      Question.hasClass]
  toHide := by simp [addButton, Question.new, register, Question.addClass, Question.setElem]
  toShow := by simp [addButton, Question.new, register, Question.addClass, Question.setElem]
  handle := by simp [addButton, Question.new, register, Question.addClass, Question.setElem]
  timers := by simp [addButton, Question.new, register, Question.addClass, Question.setElem]
  nextTimer := by simp [addButton, Question.new, register, Question.addClass, Question.setElem]
  order := by simp [addButton, Question.new, register, Question.addClass, Question.setElem]
  rendered := by simp [addButton, Question.new, register, Question.addClass, Question.setElem]
  focus := by simp [addButton, Question.new, register, Question.addClass, Question.setElem]
  wrapper := by simp [addButton, Question.new, register, Question.addClass, Question.setElem]
  wrapperChildren := by
    simp [addButton, Question.new, register, Question.addClass, Question.setElem]

theorem addButton_shown (q : Question) (id text : String) (n : Nat) (hreg : id ∉ q.buttons)
    (hs : q.sections "buttons" = some n) :
    addButton q id text none =
      ({ q with
          buttons := q.buttons ++ [id]
          labels := fun k => if k = id then some text else q.labels k
          buttonOrder := q.buttonOrder ++ [id]
          buttonChildren := without id q.buttonChildren ++ [id] } : Question).addClass n
        "h5p-question-visible" := by
  simp [addButton, hreg, hs]

theorem buttonsOnly_next (pre : List String) (id : String) (q : Question)
    (h : ButtonsOnly pre [] false q) (hid : id ∉ pre) :
    ButtonsOnly (pre ++ [id]) [] false (addButton q id id none) := by
  have hreg : id ∉ q.buttons := by rw [h.buttons]; exact hid
  have hwo : without id q.buttonChildren = pre := by
    rw [h.children]; exact without_of_not_mem id pre hid
  have hcls := h.visibleClass
  simp only [Question.hasClass, decide_eq_true_eq] at hcls
  rw [addButton_shown q id id 0 hreg h.group]
  exact {
    buttons := by simp [Question.addClass, Question.setElem, h.buttons]
    children := by simp [Question.addClass, Question.setElem, hwo]
    group := by simp [Question.addClass, Question.setElem, h.group]
    others := by
      intro k hk
      simp [Question.addClass, Question.setElem, h.others k hk]
    visibleClass := by simp [Question.addClass, Question.setElem, Question.hasClass, hcls]
    toHide := by simp [Question.addClass, Question.setElem, h.toHide]
    toShow := by simp [Question.addClass, Question.setElem, h.toShow]
    handle := by simpa [Question.addClass, Question.setElem] using h.handle
    timers := by simpa [Question.addClass, Question.setElem] using h.timers
    nextTimer := by simpa [Question.addClass, Question.setElem] using h.nextTimer
    order := by simp [Question.addClass, Question.setElem, h.order]
    rendered := by simp [Question.addClass, Question.setElem, h.rendered]
    focus := by simp [Question.addClass, Question.setElem, h.focus]
    wrapper := by simp [Question.addClass, Question.setElem, h.wrapper]
    wrapperChildren := by simpa [Question.addClass, Question.setElem] using h.wrapperChildren }

theorem buttonsOnly_registerAll (rest pre : List String) (q : Question)
    (h : ButtonsOnly pre [] false q) (hnd : (pre ++ rest).Nodup) :
    ButtonsOnly (pre ++ rest) [] false (registerAll rest q) := by
  induction rest generalizing pre q with
  | nil => simpa [registerAll] using h
  | cons id rest ih =>
    have hid : id ∉ pre := by
      intro hmem
      exact (List.nodup_append.mp hnd).2.2 hmem (by simp)
    have hnd' : ((pre ++ [id]) ++ rest).Nodup := by simpa using hnd
    have := ih (pre ++ [id]) (addButton q id id none) (buttonsOnly_next pre id q h hid) hnd'
    simpa [registerAll] using this

theorem buttonsOnly_registered (type : String) (ids : List String) (hne : ids ≠ [])
    (hnd : ids.Nodup) : ButtonsOnly ids [] false (registerAll ids (Question.new type)) := by
  cases ids with
  | nil => exact absurd rfl hne
  | cons id rest =>
    have := buttonsOnly_registerAll rest [id] (addButton (Question.new type) id id none)
      (buttonsOnly_first type id) (by simpa using hnd)
    simpa [registerAll] using this

theorem buttonsOnly_attach (ids : List String) (q : Question) (h : ButtonsOnly ids [] false q) :
    (attach q none).completed = true ∧ ButtonsOnly ids [] true (attach q none).state := by
  have hw : q.wrapper = false := h.wrapper
  have hi : q.sections "image" = none := h.others _ (by decide)
  have hn : q.sections "introduction" = none := h.others _ (by decide)
  have hc : q.sections "content" = none := h.others _ (by decide)
  have hf : q.sections "feedback" = none := h.others _ (by decide)
  have hcol : collectSections q.sections q.order [] = [0] := by
    simp [h.order, collectSections, hi, hn, hc, hf, h.group, jqAdd]
  have hst : (attach q none).state =
      { q with
        wrapper := true
        focus := none
        wrapperChildren := [0]
        log := q.log ++ [.triggered] ++ [.emptied] ++ [.laidOut [0]] } := by
    simp [attach, hw, Outcome.andThen, Outcome.state, Question.record, hcol, appendAll, without]
  refine ⟨by simp [attach, hw, Outcome.andThen, Outcome.completed], ?_⟩
  rw [hst]
  exact {
    buttons := h.buttons
    children := h.children
    group := h.group
    others := h.others
    visibleClass := h.visibleClass
    toHide := h.toHide
    toShow := h.toShow
    handle := h.handle
    timers := h.timers
    nextTimer := h.nextTimer
    order := h.order
    rendered := h.rendered
    focus := rfl
    wrapper := rfl
    wrapperChildren := rfl }

theorem buttonsOnly_visible (ids done : List String) (q : Question)
    (h : ButtonsOnly ids done true q) (id : String) (hid : id ∈ ids) :
    q.buttonVisible id = true := by
  simp [Question.buttonVisible, Question.buttonsContainer, Container.visible, h.group,
    Question.sectionVisible, Question.wrapperContainer, h.rendered, h.wrapperChildren,
    h.children, hid]

theorem buttonsOnly_hideButton (ids done : List String) (q : Question) (id : String)
    (h : ButtonsOnly ids done true q) (hid : id ∈ ids) (hnew : id ∉ done) :
    ButtonsOnly ids (done ++ [id]) true (hideButton q id) := by
  have hreg : id ∈ q.buttons := by rw [h.buttons]; exact hid
  have hnh : id ∉ q.buttonsToHide := by rw [h.toHide]; exact hnew
  have hns : id ∉ q.buttonsToShow := by rw [h.toShow]; simp
  have hv := buttonsOnly_visible ids done q h id hid
  have hq : hideButton q id =
      scheduleToggle { q with buttonsToHide := q.buttonsToHide ++ [id] } := by
    simp [hideButton, hreg, hnh, hns, hv]
  rw [hq]
  by_cases hd : done = []
  · have hh : q.toggleButtonsTimer = none := by rw [h.handle]; simp [hd]
    have ht : q.timers = [] := by rw [h.timers]; simp [hd]
    have hnt : q.nextTimer = 1 := by rw [h.nextTimer]; simp [hd]
    have hs : scheduleToggle { q with buttonsToHide := q.buttonsToHide ++ [id] } =
        { q with
          buttonsToHide := q.buttonsToHide ++ [id]
          timers := q.timers ++ [⟨q.nextTimer, 0, .toggleButtons⟩]
          nextTimer := q.nextTimer + 1
          toggleButtonsTimer := some q.nextTimer } := by
      simp [scheduleToggle, hh, Question.setTimeout]
    rw [hs]
    exact {
      buttons := h.buttons
      children := h.children
      group := h.group
      others := h.others
      visibleClass := h.visibleClass
      toHide := by simp [h.toHide]
      toShow := h.toShow
      handle := by simp [hnt]
      timers := by simp [ht, hnt]
      nextTimer := by simp [hnt]
      order := h.order
      rendered := h.rendered
      focus := h.focus
      wrapper := h.wrapper
      wrapperChildren := h.wrapperChildren }
  · have hh : q.toggleButtonsTimer = some (0 + 1) := by rw [h.handle]; simp [hd]
    have hs : scheduleToggle { q with buttonsToHide := q.buttonsToHide ++ [id] } =
        { q with buttonsToHide := q.buttonsToHide ++ [id] } := by
      simp [scheduleToggle, hh]
    rw [hs]
    exact {
      buttons := h.buttons
      children := h.children
      group := h.group
      others := h.others
      visibleClass := h.visibleClass
      toHide := by simp [h.toHide]
      toShow := h.toShow
      handle := by simpa [hd] using h.handle
      timers := by simpa [hd] using h.timers
      nextTimer := by simpa [hd] using h.nextTimer
      order := h.order
      rendered := h.rendered
      focus := h.focus
      wrapper := h.wrapper
      wrapperChildren := h.wrapperChildren }

theorem buttonsOnly_hideAll (ids rest done : List String) (q : Question)
    (h : ButtonsOnly ids done true q) (hnd : (done ++ rest).Nodup) (hsub : ∀ x ∈ rest, x ∈ ids) :
    ButtonsOnly ids (done ++ rest) true (hideAll rest q) := by
  induction rest generalizing done q with
  | nil => simpa [hideAll] using h
  | cons id rest ih =>
    have hid : id ∉ done := by
      intro hmem
      exact (List.nodup_append.mp hnd).2.2 hmem (by simp)
    have hnd' : ((done ++ [id]) ++ rest).Nodup := by simpa using hnd
    have := ih (done ++ [id]) (hideButton q id)
      (buttonsOnly_hideButton ids done q id h (hsub id (by simp)) hid) hnd'
      (fun x hx => hsub x (by simp [hx]))
    simpa [hideAll] using this

theorem buttonsOnly_allHidden (type : String) (ids : List String) (hne : ids ≠ [])
    (hnd : ids.Nodup) : ButtonsOnly ids ids true (allHiddenState type ids) := by
  have h1 := buttonsOnly_registered type ids hne hnd
  have h2 := (buttonsOnly_attach ids _ h1).2
  have := buttonsOnly_hideAll ids ids [] _ h2 (by simpa using hnd) (fun _ hx => hx)
  simpa [allHiddenState] using this

theorem refocus_without_focus (l : List String) (q : Question) (hf : q.focus = none)
    (hreg : ∀ x ∈ l, x ∈ q.buttons) : refocus l q = .ok q := by
  induction l with
  | nil => rfl
  | cons id rest ih =>
    have h1 : id ∈ q.buttons := hreg id (by simp)
    simp only [refocus, h1, if_true, hf]
    simpa using ih (fun x hx => hreg x (by simp [hx]))

theorem detachAll_registered (l : List String) (q : Question) (hreg : ∀ x ∈ l, x ∈ q.buttons) :
    ∃ q', detachAll l q = .ok q' ∧
      q'.buttonChildren = q.buttonChildren.filter (fun x => decide (x ∉ l)) := by
  induction l generalizing q with
  | nil => exact ⟨q, rfl, by simp⟩
  | cons id rest ih =>
    have h1 : id ∈ q.buttons := hreg id (by simp)
    obtain ⟨q', hq', hc⟩ := ih (q.detachButton id) (fun x hx => hreg x (by simp [hx]))
    refine ⟨q', by simp only [detachAll, h1, if_true]; exact hq', ?_⟩
    rw [hc]
    simp only [Question.detachButton, without, List.filter_filter]
    apply List.filter_congr
    intro x _
    simp [Bool.and_comm]

theorem fire_toggle_all_hidden (ids : List String) (q : Question) (hne : ids ≠ [])
    (h : ButtonsOnly ids ids true q) :
    ∃ q1, fire q 0 = .ok q1 ∧ q1.hasClass 0 "h5p-question-visible" = false ∧
      (q1.elems 0).maxHeight = .zero ∧ q1.buttonChildren = ids ∧ q1.buttonsToHide = ids ∧
      q1.buttons = ids ∧ q1.timers = [⟨2, 150, .hideButtons⟩] := by
  have htm : q.timers = [⟨1, 0, .toggleButtons⟩] := by rw [h.timers]; simp [hne]
  have hnt : q.nextTimer = 2 := by rw [h.nextTimer]; simp [hne]
  have hrf : refocus q.buttonsToHide { q with timers := [], buttonsToShow := [] } =
      .ok { q with timers := [], buttonsToShow := [] } :=
    refocus_without_focus _ _ h.focus (by
      intro x hx
      show x ∈ q.buttons
      rw [h.buttons]
      rw [h.toHide] at hx
      exact hx)
  have hlen : q.buttonsToHide.length = q.buttonChildren.length := by rw [h.children, h.toHide]
  simp only [fire, htm, List.getElem?_cons_zero, List.eraseIdx_cons_zero, runCallback,
    toggleButtons, h.toShow, showAll, Outcome.andThen, hrf, h.group, hlen, if_true]
  refine ⟨_, rfl, ?_, ?_, h.children, h.toHide, h.buttons, ?_⟩
  · simp [Question.hasClass, Question.setTimeout, Question.setMaxHeight, Question.removeClass,
      Question.setElem, without]
  · simp [Question.setTimeout, Question.setMaxHeight, Question.removeClass, Question.setElem]
  · simp [Question.setTimeout, Question.setMaxHeight, Question.removeClass, Question.setElem,
      hnt]

theorem fire_hideButtons (ids : List String) (q : Question)
    (ht : q.timers = [⟨2, 150, .hideButtons⟩]) (hh : q.buttonsToHide = ids)
    (hb : q.buttons = ids) (hc : q.buttonChildren = ids) :
    ∃ q1, fire q 0 = .ok q1 ∧ q1.buttonChildren = [] := by
  obtain ⟨q', hq', hc'⟩ := detachAll_registered q.buttonsToHide { q with timers := [] } (by
    intro x hx
    show x ∈ q.buttons
    rw [hb]
    rw [hh] at hx
    exact hx)
  simp only [fire, ht, List.getElem?_cons_zero, List.eraseIdx_cons_zero, runCallback,
    hideButtons, hq', Outcome.andThen]
  refine ⟨_, rfl, ?_⟩
  show q'.buttonChildren = []
  rw [hc']
  show List.filter (fun x => decide (x ∉ q.buttonsToHide)) q.buttonChildren = []
  rw [hc, hh, List.filter_eq_nil_iff]
  intro x hx
  simpa using hx

/-- C7: for any non-empty list of distinct ids, registered as visible buttons
on a new Question that is then attached, with `hideButton` called on each before
a timer fires: when the coalescing timer fires the button group loses its
visible class and gets `max-height` 0 while every button is still attached; when
the 150 ms timer fires next, no button is attached any more. -/
theorem hiding_every_button_collapses_then_detaches (type : String) (ids : List String)
    (hne : ids ≠ []) (hnd : ids.Nodup) :
    (allHiddenState type ids).buttons = ids ∧
    (allHiddenState type ids).buttonChildren = ids ∧
    (allHiddenState type ids).sections "buttons" = some 0 ∧
    (allHiddenState type ids).hasClass 0 "h5p-question-visible" = true ∧
    (allHiddenState type ids).timers = [⟨1, 0, .toggleButtons⟩] ∧
    (fire (allHiddenState type ids) 0).completed = true ∧
    (fire (allHiddenState type ids) 0).state.hasClass 0 "h5p-question-visible" = false ∧
    ((fire (allHiddenState type ids) 0).state.elems 0).maxHeight = .zero ∧
    (fire (allHiddenState type ids) 0).state.buttonChildren = ids ∧
    (fire (allHiddenState type ids) 0).state.timers = [⟨2, 150, .hideButtons⟩] ∧
    (fire (fire (allHiddenState type ids) 0).state 0).completed = true ∧
    (fire (fire (allHiddenState type ids) 0).state 0).state.buttonChildren = [] := by
  have h := buttonsOnly_allHidden type ids hne hnd
  generalize allHiddenState type ids = q at h
  have htm : q.timers = [⟨1, 0, .toggleButtons⟩] := by rw [h.timers]; simp [hne]
  obtain ⟨q1, hq1, g1, g2, g3, g4, g5, g6⟩ := fire_toggle_all_hidden ids q hne h
  obtain ⟨q2, hq2, g7⟩ := fire_hideButtons ids q1 g6 g4 g5 g3
  rw [hq1]
  simp only [Outcome.state, Outcome.completed]
  rw [hq2]
  exact ⟨h.buttons, h.children, h.group, h.visibleClass, htm, trivial, g1, g2, g3, g6, rfl, g7⟩

/-- C7 with three buttons. -/
theorem hiding_every_button_collapses_then_detaches_witness :
    ["a", "b", "c"] ≠ [] ∧ ["a", "b", "c"].Nodup ∧
    (allHiddenState "question" ["a", "b", "c"]).buttonChildren = ["a", "b", "c"] ∧
    (fire (allHiddenState "question" ["a", "b", "c"]) 0).state.hasClass 0
      "h5p-question-visible" = false ∧
    ((fire (allHiddenState "question" ["a", "b", "c"]) 0).state.elems 0).maxHeight = .zero ∧
    (fire (allHiddenState "question" ["a", "b", "c"]) 0).state.buttonChildren =
      ["a", "b", "c"] ∧
    (fire (fire (allHiddenState "question" ["a", "b", "c"]) 0).state 0).state.buttonChildren =
      [] :=
  ⟨by decide, by decide,
    (hiding_every_button_collapses_then_detaches "question" ["a", "b", "c"] (by decide)
      (by decide)).2.1,
    (hiding_every_button_collapses_then_detaches "question" ["a", "b", "c"] (by decide)
      (by decide)).2.2.2.2.2.2.1,
    (hiding_every_button_collapses_then_detaches "question" ["a", "b", "c"] (by decide)
      (by decide)).2.2.2.2.2.2.2.1,
    (hiding_every_button_collapses_then_detaches "question" ["a", "b", "c"] (by decide)
      (by decide)).2.2.2.2.2.2.2.2.1,
    (hiding_every_button_collapses_then_detaches "question" ["a", "b", "c"] (by decide)
      (by decide)).2.2.2.2.2.2.2.2.2.2.2⟩

/-! ## Inserting twice -/

section PlannerTwice

variable {E : Type} [DecidableEq E]

theorem without_without (e : E) (l : List E) : without e (without e l) = without e l := by
  simp [without, List.filter_filter]

theorem without_cons_self (e : E) (l : List E) : without e (e :: l) = without e l := by
  simp [without]

theorem not_mem_without_self (e : E) (l : List E) : e ∉ without e l := by
  simp [without]

theorem mem_placeAfter (e t x : E) (l : List E) (h : x ∈ placeAfter e t l) : x = e ∨ x ∈ l := by
  induction l with
  | nil => simp [placeAfter] at h
  | cons y ys ih =>
    unfold placeAfter at h
    by_cases hy : y = t
    · simp only [hy, if_true, List.mem_cons] at h
      rcases h with h | h | h
      · exact Or.inr (by simp [h, hy])
      · exact Or.inl h
      · exact Or.inr (by simp [h])
    · simp only [hy, if_false, List.mem_cons] at h
      rcases h with h | h
      · exact Or.inr (by simp [h])
      · rcases ih h with h1 | h1
        · exact Or.inl h1
        · exact Or.inr (by simp [h1])

theorem without_placeAfter (e t : E) (l : List E) (he : e ∉ l) (ht : t ∈ l) (hte : t ≠ e) :
    without e (placeAfter e t l) = l := by
  obtain ⟨a, b, hab, -, hp⟩ := placeAfter_split e t l ht
  rw [hp]
  have hea : e ∉ a := fun h => he (by rw [hab]; simp [h])
  have heb : e ∉ b := fun h => he (by rw [hab]; simp [h])
  have h1 : without e (a ++ t :: e :: b) = without e a ++ without e (t :: e :: b) := by
    simp [without]
  rw [h1, without_of_not_mem e a hea]
  have h2 : without e (t :: e :: b) = t :: without e b := by
    simp [without, hte]
  rw [h2, without_of_not_mem e b heb]
  exact hab.symm

theorem walkBack_congr (order : List String) (elements : String → Option E)
    (c c1 : Container E) (i : Nat)
    (h : ∀ j k t, j < i → order[j]? = some k → elements k = some t →
      c1.visible t = c.visible t) :
    walkBack order elements c1 i = walkBack order elements c i := by
  induction i with
  | zero => rfl
  | succ i ih =>
    have ih' := ih (fun j k t hj hk ht => h j k t (Nat.lt_succ_of_lt hj) hk ht)
    rw [walkBack, walkBack]
    cases hk : order[i]? with
    | none => rfl
    | some k =>
      cases ht : elements k with
      | none => simp only [ht]
      | some t =>
        simp only [ht, h i k t (Nat.lt_succ_self i) hk ht, ih']

/-- C14: when `insert` returns on a container, and distinct ids of the order
have distinct elements, a second `insert` with the same arguments returns too
and leaves the container as the first call left it. -/
theorem insert_twice_is_once (order : List String) (id : String)
    (elements : String → Option E) (c c1 : Container E)
    (hinj : ∀ k ∈ order, ∀ k' ∈ order, ∀ e, elements k = some e → elements k' = some e → k = k')
    (h : insert order id elements c = .ok c1) :
    insert order id elements c1 = .ok c1 := by
  by_cases hlt : List.indexOf id order < order.length
  · have hid : id ∈ order := List.indexOf_lt_length.mp hlt
    have hne : ∀ j k t e, j < List.indexOf id order → order[j]? = some k →
        elements k = some t → elements id = some e → t ≠ e := by
      intro j k t e hj hk ht he hte
      have hkid : k ≠ id := ne_of_before_indexOf order id k j hj hk
      have hko : k ∈ order := List.getElem?_mem hk
      exact hkid (hinj k hko id hid t ht (hte ▸ he))
    unfold insert at h
    simp only [hlt, if_true] at h
    cases hw : walkBack order elements c (List.indexOf id order) with
    | error err => simp [hw] at h
    | ok j =>
      cases he : elements id with
      | none => cases j <;> simp [hw, he] at h
      | some e =>
        cases j with
        | zero =>
          simp only [hw, he, Except.ok.injEq] at h
          subst h
          have hvis : ∀ j k t, j < List.indexOf id order → order[j]? = some k →
              elements k = some t → (c.prependTo e).visible t = c.visible t := by
            intro j k t hj hk ht
            have hte := hne j k t e hj hk ht he
            simp [Container.visible, Container.prependTo, mem_without, hte]
          have hw1 := (walkBack_congr order elements c (c.prependTo e) _ hvis).trans hw
          simp only [insert, hlt, if_true, hw1, he]
          simp only [Container.prependTo, without_cons_self, without_without]
        | succ j =>
          obtain ⟨hj, k, t, hk, ht, hv⟩ := walkBack_ok_succ order elements c _ j hw
          simp only [hw, he, hk, ht, Except.ok.injEq] at h
          subst h
          have hte := hne j k t e hj hk ht he
          have htc : t ∈ c.children := by
            simp only [Container.visible, Bool.and_eq_true, decide_eq_true_eq] at hv
            exact hv.2
          have htw : t ∈ without e c.children := mem_without.mpr ⟨htc, hte⟩
          have hvis : ∀ j k t', j < List.indexOf id order → order[j]? = some k →
              elements k = some t' → (c.insertAfter e t).visible t' = c.visible t' := by
            intro j' k' t' hj' hk' ht'
            have hte' := hne j' k' t' e hj' hk' ht' he
            have hiff : t' ∈ placeAfter e t (without e c.children) ↔ t' ∈ c.children := by
              constructor
              · intro hm
                rcases mem_placeAfter e t t' _ hm with h1 | h1
                · exact absurd h1 hte'
                · exact (mem_without.mp h1).1
              · intro hm
                exact mem_placeAfter_of_mem e t t' _ (mem_without.mpr ⟨hm, hte'⟩)
            simp [Container.visible, Container.insertAfter, hiff]
          have hw1 := (walkBack_congr order elements c (c.insertAfter e t) _ hvis).trans hw
          simp only [insert, hlt, if_true, hw1, he, hk, ht]
          simp only [Container.insertAfter,
            without_placeAfter e t _ (not_mem_without_self e c.children) htw hte]
  · unfold insert at h
    simp only [hlt, if_false, Except.ok.injEq] at h
    subst h
    simp [insert, hlt]

/-- C14 at the order `[A, B, C]` with `A` and `C` in the container. -/
theorem insert_twice_is_once_witness :
    insert ["A", "B", "C"] "B" (fun k => some k) ⟨["A", "C"], true⟩ =
      .ok ⟨["A", "B", "C"], true⟩ ∧
    insert ["A", "B", "C"] "B" (fun k => some k) ⟨["A", "B", "C"], true⟩ =
      .ok ⟨["A", "B", "C"], true⟩ :=
  ⟨rfl, insert_twice_is_once ["A", "B", "C"] "B" (fun k => some k) ⟨["A", "C"], true⟩
    ⟨["A", "B", "C"], true⟩
    (fun _ _ _ _ _ h1 h2 => (Option.some.inj h1).trans (Option.some.inj h2).symm) rfl⟩

end PlannerTwice

/-! ## Registry, score bar and section elements in reachable states -/

theorem steady_refl (q : Question) : Steady q q :=
  ⟨rfl, rfl, rfl, rfl, rfl, rfl, rfl, rfl, rfl, fun _ h => h, List.prefix_refl _⟩

theorem steady_trans {q q1 q2 : Question} (h1 : Steady q q1) (h2 : Steady q1 q2) :
    Steady q q2 :=
  ⟨h2.buttons.trans h1.buttons, h2.buttonOrder.trans h1.buttonOrder,
    h2.sections.trans h1.sections, h2.nextNode.trans h1.nextNode, h2.wrapper.trans h1.wrapper,
    h2.scoreBar.trans h1.scoreBar, h2.order.trans h1.order, h2.hooks.trans h1.hooks,
    h2.bars.trans h1.bars, fun n hn => h1.children n (h2.children n hn), h1.log.trans h2.log⟩

theorem steady_andThen (q : Question) (o : Outcome) (f : Question → Outcome)
    (h1 : Steady q o.state) (h2 : ∀ q1, Steady q1 (f q1).state) :
    Steady q (o.andThen f).state := by
  cases o with
  | ok q1 => exact steady_trans h1 (h2 q1)
  | threw q1 => exact h1

/-- A state that differs only in fields `Steady` does not mention. -/
theorem steady_of_eq {q q' : Question} (h1 : q'.buttons = q.buttons)
    (h2 : q'.buttonOrder = q.buttonOrder) (h3 : q'.sections = q.sections)
    (h4 : q'.nextNode = q.nextNode) (h5 : q'.wrapper = q.wrapper)
    (h6 : q'.scoreBar = q.scoreBar) (h7 : q'.order = q.order) (h8 : q'.log = q.log)
    (h9 : q'.wrapperChildren = q.wrapperChildren) : Steady q q' :=
  ⟨h1, h2, h3, h4, h5, h6, h7, by rw [h8], by rw [h8], fun n hn => h9 ▸ hn, by rw [h8]⟩

/-- A state that differs in such fields and has one more event recorded. -/
theorem steady_of_event {q q' : Question} (e : Event) (h1 : q'.buttons = q.buttons)
    (h2 : q'.buttonOrder = q.buttonOrder) (h3 : q'.sections = q.sections)
    (h4 : q'.nextNode = q.nextNode) (h5 : q'.wrapper = q.wrapper)
    (h6 : q'.scoreBar = q.scoreBar) (h7 : q'.order = q.order) (h8 : q'.log = q.log ++ [e])
    (h9 : ∀ n ∈ q'.wrapperChildren, n ∈ q.wrapperChildren)
    (he : e ≠ .hookCalled) (hb : e.isScoreBarCreated = false) : Steady q q' :=
  ⟨h1, h2, h3, h4, h5, h6, h7,
    by rw [h8, List.count_append]; simp [List.count_cons, he],
    by rw [h8, List.countP_append]; simp [List.countP_cons, hb],
    h9, by rw [h8]; exact List.prefix_append _ _⟩

theorem insertButton_steady (q : Question) (id : String) :
    Steady q (insertButton q id).state := by
  unfold insertButton
  split
  · split
    · exact steady_of_event (.inserted id) rfl rfl rfl rfl rfl rfl rfl rfl (fun _ h => h)
        (by simp) rfl
    · exact steady_refl q
  · exact steady_refl q

theorem showAll_steady (l : List String) (q : Question) : Steady q (showAll l q).state := by
  induction l generalizing q with
  | nil => exact steady_refl q
  | cons id rest ih =>
    exact steady_andThen q _ _ (insertButton_steady q id) (fun q1 => ih q1)

theorem focusElement_steady (q : Question) (id : String) : Steady q (q.focusElement id) :=
  steady_of_event (.focusCalled id) rfl rfl rfl rfl rfl rfl rfl rfl (fun _ h => h) (by simp) rfl

theorem focusButton_steady (q : Question) (id : Option String) :
    Steady q (focusButton q id).state := by
  cases id with
  | none =>
    simp only [focusButton]
    split
    · exact focusElement_steady q _
    · exact steady_refl q
  | some id =>
    simp only [focusButton]
    split
    · split
      · exact focusElement_steady q _
      · exact steady_refl q
    · exact steady_refl q

theorem refocus_steady (l : List String) (q : Question) : Steady q (refocus l q).state := by
  induction l generalizing q with
  | nil => exact steady_refl q
  | cons id rest ih =>
    unfold refocus
    split
    · split
      · refine steady_andThen q _ _ ?_ (fun q1 => ih q1)
        exact steady_trans
          (steady_of_event .focusButtonCalled rfl rfl rfl rfl rfl rfl rfl rfl (fun _ h => h)
            (by simp) rfl : Steady q (q.record .focusButtonCalled))
          (focusButton_steady _ none)
      · exact ih q
    · exact steady_refl q

theorem detachButton_steady (q : Question) (id : String) : Steady q (q.detachButton id) :=
  steady_of_event (.detachCalled id) rfl rfl rfl rfl rfl rfl rfl rfl (fun _ h => h) (by simp) rfl

theorem detachAll_steady (l : List String) (q : Question) :
    Steady q (detachAll l q).state := by
  induction l generalizing q with
  | nil => exact steady_refl q
  | cons id rest ih =>
    unfold detachAll
    split
    · exact steady_trans (detachButton_steady q id) (ih _)
    · exact steady_refl q

theorem hideButtons_steady (q : Question) : Steady q (hideButtons q).state := by
  unfold hideButtons
  exact steady_andThen q _ _ (detachAll_steady _ q)
    (fun q1 => steady_of_eq rfl rfl rfl rfl rfl rfl rfl rfl rfl)

theorem setElementHeight_steady (q : Question) (n : Nat) :
    Steady q (setElementHeight q n) := by
  unfold setElementHeight
  split <;> exact steady_of_eq rfl rfl rfl rfl rfl rfl rfl rfl rfl

theorem toggleButtons_steady (q : Question) : Steady q (toggleButtons q).state := by
  unfold toggleButtons
  refine steady_andThen q _ _ (showAll_steady _ q) (fun q1 => ?_)
  refine steady_andThen q1 _ _ (steady_trans
    (steady_of_eq rfl rfl rfl rfl rfl rfl rfl rfl rfl :
      Steady q1 { q1 with buttonsToShow := [] })
    (refocus_steady _ _)) (fun q3 => ?_)
  refine steady_andThen q3 _ _ ?_ (fun q5 => steady_of_eq rfl rfl rfl rfl rfl rfl rfl rfl rfl)
  split
  · split
    · exact steady_of_eq rfl rfl rfl rfl rfl rfl rfl rfl rfl
    · refine steady_andThen q3 _ _ (hideButtons_steady q3) (fun q4 => ?_)
      show Steady q4 (if q4.buttonChildren.isEmpty then q4 else _)
      split
      · exact steady_refl q4
      · exact steady_trans
          (steady_of_eq rfl rfl rfl rfl rfl rfl rfl rfl rfl : Steady q4 (q4.addClass _ _))
          (setElementHeight_steady _ _)
  · exact steady_andThen q3 _ _ (hideButtons_steady q3) (fun q4 => steady_refl q4)

theorem scheduleToggle_steady (q : Question) : Steady q (scheduleToggle q) := by
  unfold scheduleToggle
  split
  · exact steady_refl q
  · exact steady_of_eq rfl rfl rfl rfl rfl rfl rfl rfl rfl

theorem showButton_steady (q : Question) (id : String) : Steady q (showButton q id) := by
  unfold showButton
  split
  · exact steady_refl q
  · split
    · exact steady_refl q
    · split
      · exact steady_of_eq rfl rfl rfl rfl rfl rfl rfl rfl rfl
      · split
        · exact steady_refl q
        · exact steady_trans
            (steady_of_eq rfl rfl rfl rfl rfl rfl rfl rfl rfl :
              Steady q { q with buttonsToShow := q.buttonsToShow ++ [id] })
            (scheduleToggle_steady _)

theorem hideButton_steady (q : Question) (id : String) : Steady q (hideButton q id) := by
  unfold hideButton
  split
  · exact steady_refl q
  · split
    · exact steady_refl q
    · split
      · exact steady_of_eq rfl rfl rfl rfl rfl rfl rfl rfl rfl
      · split
        · exact detachButton_steady q id
        · exact steady_trans
            (steady_of_eq rfl rfl rfl rfl rfl rfl rfl rfl rfl :
              Steady q { q with buttonsToHide := q.buttonsToHide ++ [id] })
            (scheduleToggle_steady _)

theorem runCallback_steady (q : Question) (cb : Callback) :
    Steady q (runCallback q cb).state := by
  cases cb with
  | toggleButtons => exact toggleButtons_steady q
  | hideButtons => exact hideButtons_steady q
  | showFeedbackSection =>
    simp only [runCallback]
    split
    · exact steady_trans
        (steady_of_eq rfl rfl rfl rfl rfl rfl rfl rfl rfl : Steady q (q.addClass _ _))
        (setElementHeight_steady _ _)
    · exact steady_refl q
  | detachFeedback =>
    simp only [runCallback]
    split
    · exact steady_refl q
    · split
      · rename_i n hn
        exact steady_of_event .feedbackDetached rfl rfl rfl rfl rfl rfl rfl rfl
          (fun m hm => (mem_without.mp hm).1) (by simp) rfl
      · exact steady_refl q

theorem fire_steady (q : Question) (i : Nat) : Steady q (fire q i).state := by
  unfold fire
  split
  · exact steady_refl q
  · exact steady_trans
      (steady_of_eq rfl rfl rfl rfl rfl rfl rfl rfl rfl : Steady q { q with timers := q.timers.eraseIdx i })
      (runCallback_steady _ _)

theorem sound_of_fields {q q' : Question} (h : Sound q) (h1 : q'.buttons = q.buttons)
    (h2 : q'.buttonOrder = q.buttonOrder) (h3 : q'.sections = q.sections)
    (h4 : q'.nextNode = q.nextNode) (h5 : q'.scoreBar = q.scoreBar)
    (h6 : q'.log.countP Event.isScoreBarCreated = q.log.countP Event.isScoreBarCreated)
    (h7 : ∀ n ∈ q'.wrapperChildren, n < q.nextNode) : Sound q' where
  registry := by rw [h1, h2]; exact h.registry
  nodup := by rw [h2]; exact h.nodup
  group := by rw [h1, h3]; exact h.group
  scoreBars := by rw [h6, h5]; exact h.scoreBars
  freshSections := by rw [h3, h4]; exact h.freshSections
  freshChildren := by rw [h4]; exact h7

theorem sound_of_steady {q q' : Question} (h : Sound q) (hs : Steady q q') : Sound q' :=
  sound_of_fields h hs.buttons hs.buttonOrder hs.sections hs.nextNode hs.scoreBar hs.bars
    (fun n hn => h.freshChildren n (hs.children n hn))

theorem sound_new (type : String) : Sound (Question.new type) where
  registry := rfl
  nodup := by simp [Question.new]
  group := by simp [Question.new]
  scoreBars := by simp [Question.new]
  freshSections := by simp [Question.new]
  freshChildren := by simp [Question.new]

theorem sound_register (q : Question) (name : String) (content : Content) (h : Sound q) :
    Sound (register q name content) where
  registry := h.registry
  nodup := h.nodup
  group := by
    intro hb
    show (if "buttons" = name then some q.nextNode else q.sections "buttons").isSome = true
    split
    · rfl
    · exact h.group hb
  scoreBars := h.scoreBars
  freshSections := by
    intro k n hk
    have hk' : (if k = name then some q.nextNode else q.sections k) = some n := hk
    show n < q.nextNode + 1
    split at hk'
    · cases hk'
      exact Nat.lt_succ_self _
    · exact Nat.lt_succ_of_lt (h.freshSections k n hk')
  freshChildren := fun n hn => Nat.lt_succ_of_lt (h.freshChildren n hn)

theorem sound_setImage (q : Question) (path : String) (alt : Option String) (h : Sound q) :
    Sound (setImage q path alt) where
  registry := h.registry
  nodup := h.nodup
  group := by
    intro hb
    show (if "buttons" = "image" then some q.nextNode else q.sections "buttons").isSome = true
    simp only [show ("buttons" = "image") = False by decide, if_false]
    exact h.group hb
  scoreBars := h.scoreBars
  freshSections := by
    intro k n hk
    have hk' : (if k = "image" then some q.nextNode else q.sections k) = some n := hk
    show n < q.nextNode + 1
    split at hk'
    · cases hk'
      exact Nat.lt_succ_self _
    · exact Nat.lt_succ_of_lt (h.freshSections k n hk')
  freshChildren := fun n hn => Nat.lt_succ_of_lt (h.freshChildren n hn)

theorem sound_setContent (q : Question) (content cls : Option String) (h : Sound q) :
    Sound (setContent q content cls) := by
  have hr := sound_register q "content" (Content.ofValue content) h
  unfold setContent
  split
  · split
    · exact hr
    · exact sound_of_steady hr (steady_of_eq rfl rfl rfl rfl rfl rfl rfl rfl rfl)
  · exact hr

theorem insert_children_subset {E : Type} [DecidableEq E] (order : List String) (id : String)
    (elements : String → Option E) (c c' : Container E)
    (h : insert order id elements c = .ok c') (x : E) (hx : x ∈ c'.children) :
    x ∈ c.children ∨ elements id = some x := by
  rcases insert_ok_cases order id elements c c' h with h1 | ⟨e, he, h1⟩ |
    ⟨e, t, j, k, he, -, -, -, -, h1⟩
  · rw [h1] at hx; exact Or.inl hx
  · subst h1
    simp only [Container.prependTo, List.mem_cons] at hx
    rcases hx with hx | hx
    · exact Or.inr (hx ▸ he)
    · exact Or.inl (mem_without.mp hx).1
  · subst h1
    simp only [Container.insertAfter] at hx
    rcases mem_placeAfter e t x _ hx with hx | hx
    · exact Or.inr (hx ▸ he)
    · exact Or.inl (mem_without.mp hx).1

theorem sound_insertFeedback (q : Question) (h : Sound q) : Sound (insertFeedback q).state := by
  unfold insertFeedback
  cases hi : insert q.order "feedback" q.sections q.wrapperContainer with
  | error err => exact h
  | ok c =>
    refine sound_of_fields h rfl rfl rfl rfl rfl ?_ ?_
    · show (q.log ++ [Event.feedbackInserted]).countP Event.isScoreBarCreated = _
      rw [List.countP_append]
      simp [List.countP_cons, Event.isScoreBarCreated]
    · intro n hn
      rcases insert_children_subset q.order "feedback" q.sections q.wrapperContainer c hi n hn
        with h1 | h1
      · exact h.freshChildren n h1
      · exact h.freshSections "feedback" n h1

theorem sound_refreshScoreBar (q : Question) (score maxScore : Int) (h : Sound q) :
    Sound (refreshScoreBar q score maxScore) := by
  unfold refreshScoreBar
  cases hb : q.scoreBar with
  | none =>
    have hc := h.scoreBars
    rw [hb] at hc
    exact {
      registry := h.registry
      nodup := h.nodup
      group := h.group
      scoreBars := by
        show (q.log ++ [Event.scoreBarCreated maxScore]).countP Event.isScoreBarCreated = _
        rw [List.countP_append, hc]
        simp [List.countP_cons, Event.isScoreBarCreated]
      freshSections := h.freshSections
      freshChildren := h.freshChildren }
  | some bar =>
    have hc := h.scoreBars
    rw [hb] at hc
    exact {
      registry := h.registry
      nodup := h.nodup
      group := h.group
      scoreBars := by simpa using hc
      freshSections := h.freshSections
      freshChildren := h.freshChildren }

theorem sound_andThen (o : Outcome) (f : Question → Outcome) (h1 : Sound o.state)
    (h2 : ∀ q1, Sound q1 → Sound (f q1).state) : Sound (o.andThen f).state := by
  cases o with
  | ok q1 => exact h2 q1 h1
  | threw q1 => exact h1

theorem sound_update (q : Question) (name : String) (content : Content) (h : Sound q) :
    Sound (update q name content).state := by
  unfold update
  split
  · exact sound_of_steady h (steady_of_eq rfl rfl rfl rfl rfl rfl rfl rfl rfl)
  · exact h

theorem sound_setFeedback (q : Question) (content : Option String) (score maxScore : Int)
    (h : Sound q) : Sound (setFeedback q content score maxScore).state := by
  rcases ofValue_cases content with hc | ⟨text, hc⟩
  · rw [setFeedback_of_empty q content score maxScore hc]
    split
    · split
      · exact sound_of_steady h (steady_of_eq rfl rfl rfl rfl rfl rfl rfl rfl rfl)
      · exact h
    · exact h
  · rw [setFeedback_of_html q content score maxScore text hc]
    have h2 : Sound { refreshScoreBar q score maxScore with showFeedback := true } :=
      sound_of_steady (sound_refreshScoreBar q score maxScore h)
        (steady_of_eq rfl rfl rfl rfl rfl rfl rfl rfl rfl)
    refine sound_andThen _ _ ?_ (fun q3 h3 => ?_)
    · split
      · exact sound_update _ _ _ h2
      · exact sound_register _ _ _ h2
    · beta_reduce
      split
      · refine sound_andThen _ _ ?_
          (fun q4 h4 => sound_of_steady h4 (steady_of_eq rfl rfl rfl rfl rfl rfl rfl rfl rfl))
        split
        · split
          · exact h3
          · exact sound_insertFeedback q3 h3
        · exact h3
      · exact h3

theorem sound_addButton (q : Question) (id text : String) (visible : Option Bool)
    (h : Sound q) : Sound (addButton q id text visible) := by
  unfold addButton
  split
  · exact h
  · rename_i hid
    have hq1 : ∀ s : Option Nat, q.sections "buttons" = s →
        Sound (match s with
          | none => register q "buttons" .empty
          | some _ => q) ∧
        ((match s with
          | none => register q "buttons" .empty
          | some _ => q : Question).sections "buttons").isSome = true ∧
        (match s with
          | none => register q "buttons" .empty
          | some _ => q : Question).buttons = q.buttons := by
      intro s hs
      cases s with
      | none => exact ⟨sound_register q "buttons" .empty h, by simp [register], rfl⟩
      | some n => exact ⟨h, by simp [hs], rfl⟩
    obtain ⟨s1, s2, s3⟩ := hq1 (q.sections "buttons") rfl
    generalize (match q.sections "buttons" with
        | none => register q "buttons" .empty
        | some _ => q) = q1 at s1 s2 s3
    have hid1 : id ∉ q1.buttonOrder := by rw [← s1.registry, s3]; exact hid
    have hq2 : Sound { q1 with
        buttons := q1.buttons ++ [id]
        labels := fun k => if k = id then some text else q1.labels k
        buttonOrder := q1.buttonOrder ++ [id] } :=
      { registry := by show q1.buttons ++ [id] = q1.buttonOrder ++ [id]; rw [s1.registry]
        nodup := List.Nodup.append s1.nodup (List.nodup_singleton id) (by simpa using hid1)
        group := fun _ => s2
        scoreBars := s1.scoreBars
        freshSections := s1.freshSections
        freshChildren := s1.freshChildren }
    split
    · dsimp only
      split
      · exact sound_of_fields hq2 rfl rfl rfl rfl rfl rfl (fun n hn => hq2.freshChildren n hn)
      · exact hq2
    · exact hq2

theorem sound_call (q : Question) (c : Call) (h : Sound q) : Sound (call q c).state := by
  cases c with
  | setImage path alt => exact sound_setImage q path alt h
  | setIntroduction content => exact sound_register q _ _ h
  | setContent content cls => exact sound_setContent q content cls h
  | setFeedback content score maxScore => exact sound_setFeedback q content score maxScore h
  | addButton id text visible => exact sound_addButton q id text visible h
  | showButton id => exact sound_of_steady h (showButton_steady q id)
  | hideButton id => exact sound_of_steady h (hideButton_steady q id)
  | focusButton id => exact sound_of_steady h (focusButton_steady q id)

theorem sound_runCalls (cs : List Call) (q : Question) (h : Sound q) :
    Sound (runCalls cs q).state := by
  induction cs generalizing q with
  | nil => exact h
  | cons c rest ih =>
    unfold runCalls
    exact sound_andThen _ _ (sound_call q c h) (fun q1 h1 => ih q1 h1)

theorem mem_collectSections (sections : String → Option Nat) (order : List String)
    (set : List Nat) (x : Nat) (h : x ∈ collectSections sections order set) :
    x ∈ set ∨ ∃ name, sections name = some x := by
  induction order generalizing set with
  | nil => exact Or.inl h
  | cons name rest ih =>
    unfold collectSections at h
    cases hs : sections name with
    | none =>
      simp only [hs] at h
      exact ih set h
    | some n =>
      simp only [hs] at h
      rcases ih _ h with h1 | h1
      · unfold jqAdd at h1
        split at h1
        · exact Or.inl h1
        · rcases List.mem_append.mp h1 with h2 | h2
          · exact Or.inl h2
          · exact Or.inr ⟨name, by rw [hs, List.mem_singleton.mp h2]⟩
      · exact Or.inr h1

theorem mem_appendAll (nodes children : List Nat) (x : Nat) (h : x ∈ appendAll nodes children) :
    x ∈ children ∨ x ∈ nodes := by
  induction nodes generalizing children with
  | nil => exact Or.inl h
  | cons n rest ih =>
    unfold appendAll at h
    rcases ih _ h with h1 | h1
    · rcases List.mem_append.mp h1 with h2 | h2
      · exact Or.inl (mem_without.mp h2).1
      · exact Or.inr (by simp [List.mem_singleton.mp h2])
    · exact Or.inr (by simp [h1])

theorem sound_layout (q2 : Question) (h : Sound q2) :
    Sound { q2 with
      wrapper := true
      focus := none
      wrapperChildren := appendAll (collectSections q2.sections q2.order []) []
      log := q2.log ++ [.emptied] ++ [.laidOut (collectSections q2.sections q2.order [])] } := by
  refine sound_of_fields h rfl rfl rfl rfl rfl ?_ ?_
  · show (q2.log ++ [Event.emptied] ++
      [Event.laidOut (collectSections q2.sections q2.order [])]).countP _ = _
    rw [List.countP_append, List.countP_append]
    simp [List.countP_cons, Event.isScoreBarCreated]
  · intro n hn
    rcases mem_appendAll _ _ n hn with h1 | h1
    · simp at h1
    · rcases mem_collectSections _ _ _ n h1 with h2 | ⟨name, h2⟩
      · simp at h2
      · exact h.freshSections name n h2

theorem sound_record (q : Question) (e : Event) (he : e.isScoreBarCreated = false)
    (h : Sound q) : Sound (q.record e) := by
  refine sound_of_fields h rfl rfl rfl rfl rfl ?_ h.freshChildren
  show (q.log ++ [e]).countP Event.isScoreBarCreated = _
  rw [List.countP_append]
  simp [List.countP_cons, he]

theorem sound_attach (q : Question) (hook : Option (List Call)) (h : Sound q) :
    Sound (attach q hook).state := by
  unfold attach
  refine sound_andThen _ _ ?_ (fun q2 h2 => sound_layout q2 h2)
  split
  · exact h
  · refine sound_andThen _ _ ?_ (fun q1 h1 => sound_record q1 .triggered rfl h1)
    cases hook with
    | none => exact h
    | some calls => exact sound_runCalls calls _ (sound_record q .hookCalled rfl h)

theorem sound_step (q : Question) (a : Action) (h : Sound q) : Sound (step q a).state := by
  cases a with
  | call c => exact sound_call q c h
  | attach hook => exact sound_attach q hook h
  | fire i => exact sound_of_steady h (fire_steady q i)
  | render shown => exact sound_of_steady h (steady_of_eq rfl rfl rfl rfl rfl rfl rfl rfl rfl)
  | userFocus target =>
    cases target with
    | none => exact sound_of_steady h (steady_of_eq rfl rfl rfl rfl rfl rfl rfl rfl rfl)
    | some id =>
      simp only [step, Outcome.state]
      split
      · exact sound_of_steady h (steady_of_eq rfl rfl rfl rfl rfl rfl rfl rfl rfl)
      · exact h

theorem sound_of_reachable (q : Question) (h : Reachable q) : Sound q := by
  induction h with
  | new type => exact sound_new type
  | step q a _ ih => exact sound_step q a ih

/-! ## The order of the buttons only grows -/

theorem keeps_refl (q : Question) : Keeps q q :=
  ⟨rfl, rfl, List.prefix_refl _, List.prefix_refl _⟩

theorem keeps_trans {q q1 q2 : Question} (h1 : Keeps q q1) (h2 : Keeps q1 q2) : Keeps q q2 :=
  ⟨h2.wrapper.trans h1.wrapper, h2.hooks.trans h1.hooks, h1.buttonOrder.trans h2.buttonOrder,
    h1.log.trans h2.log⟩

theorem keeps_andThen (q : Question) (o : Outcome) (f : Question → Outcome)
    (h1 : Keeps q o.state) (h2 : ∀ q1, Keeps q1 (f q1).state) :
    Keeps q (o.andThen f).state := by
  cases o with
  | ok q1 => exact keeps_trans h1 (h2 q1)
  | threw q1 => exact h1

theorem keeps_of_steady {q q' : Question} (h : Steady q q') : Keeps q q' :=
  ⟨h.wrapper, h.hooks, by rw [h.buttonOrder], h.log⟩

theorem keeps_of_eq {q q' : Question} (h1 : q'.wrapper = q.wrapper) (h2 : q'.log = q.log)
    (h3 : q'.buttonOrder = q.buttonOrder) : Keeps q q' :=
  ⟨h1, by rw [h2], by rw [h3], by rw [h2]⟩

theorem keeps_of_event {q q' : Question} (e : Event) (h1 : q'.wrapper = q.wrapper)
    (h2 : q'.log = q.log ++ [e]) (h3 : q'.buttonOrder = q.buttonOrder) (he : e ≠ .hookCalled) :
    Keeps q q' :=
  ⟨h1, by rw [h2, List.count_append]; simp [List.count_cons, he], by rw [h3],
    by rw [h2]; exact List.prefix_append _ _⟩

theorem setContent_keeps (q : Question) (content cls : Option String) :
    Keeps q (setContent q content cls) := by
  unfold setContent
  split
  · split <;> exact keeps_of_eq rfl rfl rfl
  · exact keeps_of_eq rfl rfl rfl

theorem refreshScoreBar_keeps (q : Question) (score maxScore : Int) :
    Keeps q (refreshScoreBar q score maxScore) := by
  unfold refreshScoreBar
  split
  · exact keeps_of_event (.scoreBarCreated maxScore) rfl rfl rfl (by simp)
  · exact keeps_of_eq rfl rfl rfl

theorem insertFeedback_keepsSetup (q : Question) : Keeps q (insertFeedback q).state := by
  unfold insertFeedback
  split
  · exact keeps_of_event .feedbackInserted rfl rfl rfl (by simp)
  · exact keeps_refl q

theorem update_keepsSetup (q : Question) (name : String) (content : Content) :
    Keeps q (update q name content).state := by
  unfold update
  split
  · exact keeps_of_eq rfl rfl rfl
  · exact keeps_refl q

theorem setFeedback_keepsSetup (q : Question) (content : Option String)
    (score maxScore : Int) : Keeps q (setFeedback q content score maxScore).state := by
  rcases ofValue_cases content with hc | ⟨text, hc⟩
  · rw [setFeedback_of_empty q content score maxScore hc]
    split
    · split
      · exact keeps_of_eq rfl rfl rfl
      · exact keeps_refl q
    · exact keeps_refl q
  · rw [setFeedback_of_html q content score maxScore text hc]
    have h2 : Keeps q { refreshScoreBar q score maxScore with showFeedback := true } :=
      keeps_trans (refreshScoreBar_keeps q score maxScore) (keeps_of_eq rfl rfl rfl)
    refine keeps_andThen q _ _ ?_ (fun q3 => ?_)
    · split
      · exact keeps_trans h2 (update_keepsSetup _ _ _)
      · exact keeps_trans h2 (keeps_of_eq rfl rfl rfl)
    · beta_reduce
      split
      · refine keeps_andThen q3 _ _ ?_ (fun q4 => keeps_of_eq rfl rfl rfl)
        split
        · split
          · exact keeps_refl q3
          · exact insertFeedback_keepsSetup q3
        · exact keeps_refl q3
      · exact keeps_refl q3

theorem addButton_keeps (q : Question) (id text : String) (visible : Option Bool) :
    Keeps q (addButton q id text visible) := by
  unfold addButton
  split
  · exact keeps_refl q
  · have hq1 : ∀ s : Option Nat, Keeps q (match s with
        | none => register q "buttons" .empty
        | some _ => q) := by
      intro s
      cases s
      · exact keeps_of_eq rfl rfl rfl
      · exact keeps_refl q
    refine keeps_trans (hq1 (q.sections "buttons")) ?_
    generalize (match q.sections "buttons" with
        | none => register q "buttons" .empty
        | some _ => q) = q1
    have hq2 : Keeps q1 { q1 with
        buttons := q1.buttons ++ [id]
        labels := fun k => if k = id then some text else q1.labels k
        buttonOrder := q1.buttonOrder ++ [id] } :=
      ⟨rfl, rfl, List.prefix_append _ _, List.prefix_refl _⟩
    refine keeps_trans hq2 ?_
    split
    · dsimp only
      split
      · exact keeps_of_eq rfl rfl rfl
      · exact keeps_refl _
    · exact keeps_refl _

theorem call_keeps (q : Question) (c : Call) : Keeps q (call q c).state := by
  cases c with
  | setImage path alt => exact keeps_of_eq rfl rfl rfl
  | setIntroduction content => exact keeps_of_eq rfl rfl rfl
  | setContent content cls => exact setContent_keeps q content cls
  | setFeedback content score maxScore => exact setFeedback_keepsSetup q content score maxScore
  | addButton id text visible => exact addButton_keeps q id text visible
  | showButton id => exact keeps_of_steady (showButton_steady q id)
  | hideButton id => exact keeps_of_steady (hideButton_steady q id)
  | focusButton id => exact keeps_of_steady (focusButton_steady q id)

theorem runCalls_keeps (cs : List Call) (q : Question) : Keeps q (runCalls cs q).state := by
  induction cs generalizing q with
  | nil => exact keeps_refl q
  | cons c rest ih =>
    unfold runCalls
    exact keeps_andThen q _ _ (call_keeps q c) (fun q1 => ih q1)

theorem attach_buttonOrder (q : Question) (hook : Option (List Call)) :
    q.buttonOrder <+: (attach q hook).state.buttonOrder := by
  have key : ∀ o : Outcome, q.buttonOrder <+: o.state.buttonOrder →
      q.buttonOrder <+: (o.andThen fun q2 =>
        let q3 : Question :=
          { q2 with wrapper := true, wrapperChildren := [], focus := none,
                    log := q2.log ++ [.emptied] }
        let nodes := collectSections q3.sections q3.order []
        .ok { q3 with
          wrapperChildren := appendAll nodes q3.wrapperChildren
          log := q3.log ++ [.laidOut nodes] }).state.buttonOrder := by
    intro o ho
    cases o with
    | ok q2 => exact ho
    | threw q2 => exact ho
  unfold attach
  apply key
  split
  · exact List.prefix_refl _
  · cases hook with
    | none => exact List.prefix_refl _
    | some calls =>
      have hr := (runCalls_keeps calls (q.record .hookCalled)).buttonOrder
      simp only []
      cases ho : runCalls calls (q.record .hookCalled) with
      | ok q1 =>
        rw [ho] at hr
        exact hr
      | threw q1 =>
        rw [ho] at hr
        exact hr

theorem step_buttonOrder (q : Question) (a : Action) :
    q.buttonOrder <+: (step q a).state.buttonOrder := by
  cases a with
  | call c => exact (call_keeps q c).buttonOrder
  | attach hook => exact attach_buttonOrder q hook
  | fire i => exact (keeps_of_steady (fire_steady q i)).buttonOrder
  | render shown => exact List.prefix_refl _
  | userFocus target =>
    cases target with
    | none => exact List.prefix_refl _
    | some id =>
      simp only [step, Outcome.state]
      split
      · exact List.prefix_refl _
      · exact List.prefix_refl _

/-- C13: `addButton` with a registered id returns the state it was given; in
every reachable state `buttonOrder` has no repeated id and holds exactly the
registered ids, and every step leaves it as a prefix of the new `buttonOrder`. -/
theorem buttonOrder_only_grows (q : Question) (h : Reachable q) :
    (∀ id text visible, id ∈ q.buttons → addButton q id text visible = q) ∧
    q.buttonOrder.Nodup ∧ (∀ id, id ∈ q.buttonOrder ↔ id ∈ q.buttons) ∧
    (∀ a, q.buttonOrder <+: (step q a).state.buttonOrder) := by
  have hs := sound_of_reachable q h
  refine ⟨?_, hs.nodup, ?_, step_buttonOrder q⟩
  · intro id text visible hid
    simp [addButton, hid]
  · intro id
    rw [hs.registry]

/-- C13 at an attached Question with the button `a`: registering `a` again
changes nothing, registering `b` puts it behind `a`. -/
theorem buttonOrder_only_grows_witness :
    Reachable oneButtonState ∧
    addButton oneButtonState "a" "again" none = oneButtonState ∧
    oneButtonState.buttonOrder = ["a"] ∧
    oneButtonState.buttonOrder <+:
      (step oneButtonState (.call (.addButton "b" "B" none))).state.buttonOrder ∧
    (step oneButtonState (.call (.addButton "b" "B" none))).state.buttonOrder = ["a", "b"] :=
  ⟨reachable_run _ _ (Reachable.new _),
    (buttonOrder_only_grows oneButtonState (reachable_run _ _ (Reachable.new _))).1
      "a" "again" none (by decide),
    by decide,
    (buttonOrder_only_grows oneButtonState (reachable_run _ _ (Reachable.new _))).2.2.2 _,
    by decide⟩

/-! ## The hook of attach -/

theorem attach_again (q : Question) (hook : Option (List Call)) (hw : q.wrapper = true) :
    (attach q hook).state.wrapper = true ∧
    (attach q hook).state.log.count .hookCalled = q.log.count .hookCalled := by
  simp [attach, hw, Outcome.andThen, Outcome.state, List.count_append, List.count_cons]

theorem step_after_attach (q : Question) (a : Action) (hw : q.wrapper = true) :
    (step q a).state.wrapper = true ∧
    (step q a).state.log.count .hookCalled = q.log.count .hookCalled := by
  have of_keeps : ∀ q' : Question, Keeps q q' →
      q'.wrapper = true ∧ q'.log.count .hookCalled = q.log.count .hookCalled :=
    fun q' h => ⟨h.wrapper.trans hw, h.hooks⟩
  cases a with
  | call c => exact of_keeps _ (call_keeps q c)
  | attach hook => exact attach_again q hook hw
  | fire i => exact of_keeps _ (keeps_of_steady (fire_steady q i))
  | render shown => exact ⟨hw, rfl⟩
  | userFocus target =>
    cases target with
    | none => exact ⟨hw, rfl⟩
    | some id =>
      simp only [step, Outcome.state]
      split
      · exact ⟨hw, rfl⟩
      · exact ⟨hw, rfl⟩

theorem run_after_attach (as : List Action) (q : Question) (hw : q.wrapper = true) :
    (run as q).log.count .hookCalled = q.log.count .hookCalled := by
  induction as generalizing q with
  | nil => rfl
  | cons a rest ih =>
    have h := step_after_attach q a hw
    exact (ih (step q a).state h.1).trans h.2

theorem first_attach (q : Question) (calls : List Call) (hw : q.wrapper = false)
    (hc : (runCalls calls (q.record .hookCalled)).completed = true) :
    (attach q (some calls)).completed = true ∧
    (attach q (some calls)).state.wrapper = true ∧
    ∃ L nodes, (attach q (some calls)).state.log =
      q.log ++ .hookCalled :: L ++ [.triggered, .emptied, .laidOut nodes] ∧
      L.count .hookCalled = 0 := by
  have hk := runCalls_keeps calls (q.record .hookCalled)
  cases ho : runCalls calls (q.record .hookCalled) with
  | threw q1 => simp [ho, Outcome.completed] at hc
  | ok q1 =>
    rw [ho] at hk
    obtain ⟨L, hL⟩ := hk.log
    have hcount := hk.hooks
    simp only [Outcome.state] at hL hcount
    rw [← hL, List.count_append] at hcount
    have hL0 : L.count .hookCalled = 0 := by omega
    refine ⟨by simp [attach, hw, ho, Outcome.andThen, Outcome.completed],
      by simp [attach, hw, ho, Outcome.andThen, Outcome.state], L,
      collectSections q1.sections q1.order [], ?_, hL0⟩
    simp only [attach, hw, ho, Outcome.andThen, Outcome.state, Bool.false_eq_true, if_false]
    show q1.log ++ [Event.triggered] ++ [Event.emptied] ++ [Event.laidOut _] = _
    rw [← hL]
    simp [Question.record]

/-- C12: on a Question that has not been attached, with a `registerDomElements`
that returns: the first `attach` returns and records the call of the hook before
the emptying of the container and the layout, and after that call the hook has
run exactly once, whatever follows: `n` further `attach` calls or any other
steps. -/
theorem hook_runs_once (q : Question) (calls : List Call) (hw : q.wrapper = false)
    (hc : (runCalls calls (q.record .hookCalled)).completed = true) :
    (attach q (some calls)).completed = true ∧
    (∃ L nodes, (attach q (some calls)).state.log =
      q.log ++ .hookCalled :: L ++ [.triggered, .emptied, .laidOut nodes] ∧
      L.count .hookCalled = 0) ∧
    (∀ n, (run (List.replicate n (.attach (some calls))) (attach q (some calls)).state).log.count
      .hookCalled = q.log.count .hookCalled + 1) ∧
    (∀ as, (run as (attach q (some calls)).state).log.count .hookCalled =
      q.log.count .hookCalled + 1) := by
  obtain ⟨h1, h2, L, nodes, h3, h4⟩ := first_attach q calls hw hc
  have hcount : (attach q (some calls)).state.log.count .hookCalled =
      q.log.count .hookCalled + 1 := by
    rw [h3]
    simp [List.count_append, List.count_cons, h4]
  have hall : ∀ as, (run as (attach q (some calls)).state).log.count .hookCalled =
      q.log.count .hookCalled + 1 :=
    fun as => (run_after_attach as _ h2).trans hcount
  exact ⟨h1, ⟨L, nodes, h3, h4⟩, fun n => hall _, hall⟩

/-- C12 at a new Question attached three times. -/
theorem hook_runs_once_witness :
    (Question.new "question").wrapper = false ∧
    (runCalls setupHook ((Question.new "question").record .hookCalled)).completed = true ∧
    (run (List.replicate 2 (.attach (some setupHook)))
      (attach (Question.new "question") (some setupHook)).state).log.count .hookCalled = 1 ∧
    (run (List.replicate 2 (.attach (some setupHook)))
      (attach (Question.new "question") (some setupHook)).state).log =
      [.hookCalled, .triggered, .emptied, .laidOut [0, 1], .emptied, .laidOut [0, 1],
        .emptied, .laidOut [0, 1]] :=
  ⟨rfl, by decide,
    (hook_runs_once (Question.new "question") setupHook rfl (by decide)).2.2.1 2,
    by decide⟩

/-! ## One firing of the coalescing callback -/

theorem walkBack_defined {E : Type} [DecidableEq E] (order : List String)
    (elements : String → Option E) (c : Container E)
    (hel : ∀ k ∈ order, (elements k).isSome = true) (i : Nat) (hi : i ≤ order.length) :
    ∃ j, walkBack order elements c i = .ok j := by
  induction i with
  | zero => exact ⟨0, rfl⟩
  | succ i ih =>
    have hlt : i < order.length := hi
    have hk : order[i]? = some order[i] := List.getElem?_eq_getElem hlt
    obtain ⟨t, ht⟩ := Option.isSome_iff_exists.mp (hel order[i] (List.getElem_mem hlt))
    rw [walkBack, hk]
    simp only [ht]
    by_cases hv : c.visible t = true
    · exact ⟨i + 1, by simp [hv]⟩
    · obtain ⟨j, hj⟩ := ih (Nat.le_of_lt hlt)
      exact ⟨j, by simp [hv, hj]⟩

theorem insert_defined {E : Type} [DecidableEq E] (order : List String) (id : String)
    (elements : String → Option E) (c : Container E)
    (hel : ∀ k ∈ order, (elements k).isSome = true) :
    ∃ c', insert order id elements c = .ok c' := by
  by_cases hlt : List.indexOf id order < order.length
  · have hid : id ∈ order := List.indexOf_lt_length.mp hlt
    obtain ⟨e, he⟩ := Option.isSome_iff_exists.mp (hel id hid)
    obtain ⟨j, hj⟩ := walkBack_defined order elements c hel _ (Nat.le_of_lt hlt)
    cases j with
    | zero => exact ⟨c.prependTo e, by simp [insert, hlt, hj, he]⟩
    | succ j =>
      obtain ⟨-, k, t, hk, ht, -⟩ := walkBack_ok_succ order elements c _ j hj
      exact ⟨c.insertAfter e t, by simp [insert, hlt, hj, he, hk, ht]⟩
  · exact ⟨c, by simp [insert, hlt]⟩

theorem insertButton_ok (q : Question) (id : String) (n : Nat)
    (hsec : q.sections "buttons" = some n) (hreg : ∀ k ∈ q.buttonOrder, k ∈ q.buttons) :
    ∃ cs, insertButton q id =
      .ok { q with buttonChildren := cs, log := q.log ++ [.inserted id] } := by
  obtain ⟨c, hc⟩ := insert_defined q.buttonOrder id q.buttonElement q.buttonsContainer
    (fun k hk => by simp [Question.buttonElement, hreg k hk])
  exact ⟨c.children, by simp [insertButton, hc, hsec]⟩

theorem showAll_ok (l : List String) (q : Question) (n : Nat)
    (hsec : q.sections "buttons" = some n) (hreg : ∀ k ∈ q.buttonOrder, k ∈ q.buttons) :
    ∃ cs, showAll l q =
      .ok { q with buttonChildren := cs, log := q.log ++ l.map .inserted } := by
  induction l generalizing q with
  | nil => exact ⟨q.buttonChildren, by simp [showAll]⟩
  | cons id rest ih =>
    obtain ⟨cs, hcs⟩ := insertButton_ok q id n hsec hreg
    obtain ⟨cs', hcs'⟩ := ih { q with buttonChildren := cs, log := q.log ++ [.inserted id] }
      hsec hreg
    refine ⟨cs', ?_⟩
    simp only [showAll, hcs, Outcome.andThen, hcs']
    simp

theorem focusButton_none_ok (q : Question) :
    ∃ q2, focusButton q none = .ok q2 ∧ q2.buttons = q.buttons ∧
      q2.buttonsToHide = q.buttonsToHide ∧
      (q2.focus = q.focus ∨ ∃ i, q2.focus = some i ∧ i ∉ q.buttonsToHide) := by
  simp only [focusButton]
  cases hf : q.buttons.find? (fun i => decide (i ∉ q.buttonsToHide)) with
  | none => exact ⟨q, rfl, rfl, rfl, Or.inl rfl⟩
  | some i =>
    have hi : i ∉ q.buttonsToHide := by
      have := List.find?_some hf
      simpa using this
    refine ⟨q.focusElement i, rfl, rfl, rfl, ?_⟩
    simp only [Question.focusElement]
    by_cases hv : q.buttonVisible i = true
    · exact Or.inr ⟨i, by simp [hv], hi⟩
    · exact Or.inl (by simp [hv])

theorem refocused_of_not_mem (l : List String) (q : Question)
    (h : ∀ id, q.focus = some id → id ∉ l) : refocused l q = q := by
  unfold refocused
  cases hf : q.focus with
  | none => rfl
  | some id => simp [h id hf]

theorem refocus_eq (l : List String) (q : Question) (hreg : ∀ x ∈ l, x ∈ q.buttons)
    (hhide : ∀ x ∈ l, x ∈ q.buttonsToHide) (hnd : l.Nodup) :
    refocus l q = .ok (refocused l q) := by
  induction l generalizing q with
  | nil =>
    rw [refocused_of_not_mem [] q (fun _ _ => by simp)]
    rfl
  | cons id rest ih =>
    have h1 : id ∈ q.buttons := hreg id (by simp)
    have hid : id ∉ rest := (List.nodup_cons.mp hnd).1
    have hnd' : rest.Nodup := (List.nodup_cons.mp hnd).2
    by_cases hf : q.focus = some id
    · obtain ⟨q2, hq2, hb, hh, hfo⟩ := focusButton_none_ok (q.record .focusButtonCalled)
      have hr : refocused (id :: rest) q = q2 := by
        simp [refocused, hf, hq2, Outcome.state]
      have hrest : refocus rest q2 = .ok q2 := by
        have := ih q2 (fun x hx => by rw [hb]; exact hreg x (by simp [hx]))
          (fun x hx => by rw [hh]; exact hhide x (by simp [hx])) hnd'
        rw [this, refocused_of_not_mem rest q2]
        intro x hx hxr
        rcases hfo with hfo | ⟨i, hi, hni⟩
        · rw [hfo] at hx
          have hx' : q.focus = some x := hx
          rw [hf] at hx'
          cases hx'
          exact hid hxr
        · rw [hi] at hx
          cases hx
          exact hni (hhide _ (by simp [hxr]))
      rw [hr]
      simp only [refocus, h1, if_true, hf, hq2, Outcome.andThen, hrest]
    · have hr : refocused (id :: rest) q = refocused rest q := by
        unfold refocused
        cases hq : q.focus with
        | none => rfl
        | some x =>
          have hx : x ≠ id := fun hx => hf (by rw [hq, hx])
          simp [hx]
      rw [hr]
      simp only [refocus, h1, if_true, hf, if_false]
      exact ih q (fun x hx => hreg x (by simp [hx])) (fun x hx => hhide x (by simp [hx])) hnd'

theorem refocused_steady (l : List String) (q : Question) : Steady q (refocused l q) := by
  unfold refocused
  split
  · split
    · exact steady_trans
        (steady_of_event .focusButtonCalled rfl rfl rfl rfl rfl rfl rfl rfl (fun _ h => h)
          (by simp) rfl : Steady q (q.record .focusButtonCalled))
        (focusButton_steady _ none)
    · exact steady_refl q
  · exact steady_refl q

theorem refocused_fields (l : List String) (q : Question) :
    (refocused l q).buttonsToHide = q.buttonsToHide ∧
    (refocused l q).buttonsToShow = q.buttonsToShow ∧
    (refocused l q).buttonChildren = q.buttonChildren ∧
    (refocused l q).timers = q.timers ∧
    (refocused l q).nextTimer = q.nextTimer ∧
    (refocused l q).toggleButtonsTimer = q.toggleButtonsTimer := by
  unfold refocused
  cases hf : q.focus with
  | none => exact ⟨rfl, rfl, rfl, rfl, rfl, rfl⟩
  | some id =>
    by_cases hid : id ∈ l
    · simp only [hid, if_true, focusButton]
      split <;> exact ⟨rfl, rfl, rfl, rfl, rfl, rfl⟩
    · simp [hid]

theorem refocused_log (q : Question) :
    (refocused q.buttonsToHide q).log = q.log ++ focusTrace q := by
  unfold refocused focusTrace
  cases hf : q.focus with
  | none => simp
  | some id =>
    by_cases hid : id ∈ q.buttonsToHide
    · simp only [hid, if_true, focusButton, Question.record]
      cases hfi : q.buttons.find? (fun i => decide (i ∉ q.buttonsToHide)) with
      | none => simp [Outcome.state]
      | some i => simp [Outcome.state, Question.focusElement]
    · simp [hid]

theorem detachAll_ok (l : List String) (q : Question) (hreg : ∀ x ∈ l, x ∈ q.buttons) :
    ∃ q', detachAll l q = .ok q' ∧ q'.log = q.log ++ l.map .detachCalled ∧
      q'.buttonChildren = q.buttonChildren.filter (fun x => decide (x ∉ l)) ∧
      q'.buttonsToShow = q.buttonsToShow ∧ q'.timers = q.timers ∧
      q'.toggleButtonsTimer = q.toggleButtonsTimer ∧ q'.nextTimer = q.nextTimer := by
  induction l generalizing q with
  | nil => exact ⟨q, rfl, by simp, by simp, rfl, rfl, rfl, rfl⟩
  | cons id rest ih =>
    have h1 : id ∈ q.buttons := hreg id (by simp)
    obtain ⟨q', hq', hl, hc, hs, ht, hh, hn⟩ :=
      ih (q.detachButton id) (fun x hx => hreg x (by simp [hx]))
    refine ⟨q', by simp only [detachAll, h1, if_true]; exact hq', ?_, ?_, hs, ht, hh, hn⟩
    · rw [hl]
      simp [Question.detachButton]
    · rw [hc]
      simp only [Question.detachButton, without, List.filter_filter]
      apply List.filter_congr
      intro x _
      simp [Bool.and_comm]

theorem setElementHeight_fields (q : Question) (n : Nat) :
    (setElementHeight q n).buttonsToHide = q.buttonsToHide ∧
    (setElementHeight q n).buttonsToShow = q.buttonsToShow ∧
    (setElementHeight q n).buttonChildren = q.buttonChildren ∧
    (setElementHeight q n).timers = q.timers ∧
    (setElementHeight q n).log = q.log := by
  unfold setElementHeight
  split <;> exact ⟨rfl, rfl, rfl, rfl, rfl⟩

theorem toggleButtons_of (q q1 q3 : Question) (n : Nat)
    (h1 : showAll q.buttonsToShow q = .ok q1)
    (h3 : refocus q1.buttonsToHide { q1 with buttonsToShow := [] } = .ok q3)
    (hs : q3.sections "buttons" = some n) :
    toggleButtons q =
      if q3.buttonsToHide.length = q3.buttonChildren.length then
        .ok { ((q3.removeClass n "h5p-question-visible").setMaxHeight n .zero).setTimeout
          .hideButtons 150 with toggleButtonsTimer := none }
      else
        (hideButtons q3).andThen fun q4 =>
          .ok { (if q4.buttonChildren.isEmpty then q4
            else setElementHeight (q4.addClass n "h5p-question-visible") n) with
            toggleButtonsTimer := none } := by
  by_cases hlen : q3.buttonsToHide.length = q3.buttonChildren.length
  · simp only [toggleButtons, h1, Outcome.andThen, h3, hs, hlen, if_true]
  · simp only [toggleButtons, h1, Outcome.andThen, h3, hs, hlen, if_false]
    cases hideButtons q3 <;> rfl

theorem toggleButtons_run (q : Question) (n : Nat) (hsec : q.sections "buttons" = some n)
    (hreg : ∀ k ∈ q.buttonOrder, k ∈ q.buttons) (hwf : WellFormed q) :
    ∃ cs r,
      showAll q.buttonsToShow q =
        .ok { q with buttonChildren := cs, log := q.log ++ q.buttonsToShow.map .inserted } ∧
      toggleButtons q = .ok r ∧ r.buttonsToShow = [] ∧ r.toggleButtonsTimer = none ∧
      (q.buttonsToHide.length = cs.length →
        r.buttonsToHide = q.buttonsToHide ∧ r.buttonChildren = cs ∧
        r.timers = q.timers ++ [⟨q.nextTimer, 150, .hideButtons⟩] ∧
        r.log = q.log ++ q.buttonsToShow.map .inserted ++ focusTrace q) ∧
      (q.buttonsToHide.length ≠ cs.length →
        r.buttonsToHide = [] ∧
        r.buttonChildren = cs.filter (fun x => decide (x ∉ q.buttonsToHide)) ∧
        r.timers = q.timers ∧
        r.log = q.log ++ q.buttonsToShow.map .inserted ++ focusTrace q ++
          q.buttonsToHide.map .detachCalled) := by
  obtain ⟨cs, hcs⟩ := showAll_ok q.buttonsToShow q n hsec hreg
  obtain ⟨w1, w2, w3, w4, w5⟩ := hwf
  refine ⟨cs, ?_⟩
  obtain ⟨q1, hq1, hcs1⟩ : ∃ q1 : Question,
      q1 = { q with buttonChildren := cs, log := q.log ++ q.buttonsToShow.map .inserted } ∧
      showAll q.buttonsToShow q = .ok q1 :=
    ⟨_, rfl, hcs⟩
  obtain ⟨q2, hq2⟩ : ∃ q2 : Question, q2 = { q1 with buttonsToShow := [] } := ⟨_, rfl⟩
  have e1 : q1.buttonsToHide = q.buttonsToHide := by rw [hq1]
  have a1 : q2.buttonsToHide = q.buttonsToHide := by rw [hq2, hq1]
  have a2 : q2.buttons = q.buttons := by rw [hq2, hq1]
  have a3 : q2.buttonChildren = cs := by rw [hq2, hq1]
  have a4 : q2.timers = q.timers := by rw [hq2, hq1]
  have a5 : q2.nextTimer = q.nextTimer := by rw [hq2, hq1]
  have a6 : q2.log = q.log ++ q.buttonsToShow.map .inserted := by rw [hq2, hq1]
  have a7 : q2.sections = q.sections := by rw [hq2, hq1]
  have a8 : q2.buttonsToShow = [] := by rw [hq2]
  have a9 : focusTrace q2 = focusTrace q := by rw [hq2, hq1]; rfl
  have hrf : refocus q1.buttonsToHide { q1 with buttonsToShow := [] } =
      .ok (refocused q2.buttonsToHide q2) := by
    rw [← hq2, e1, a1]
    exact refocus_eq q.buttonsToHide q2 (by rw [a2]; exact w4) (by rw [a1]; exact fun _ h => h) w1
  have hst := refocused_steady q2.buttonsToHide q2
  obtain ⟨f1, f2, f3, f4, f5, f6⟩ := refocused_fields q2.buttonsToHide q2
  have hlog := refocused_log q2
  generalize refocused q2.buttonsToHide q2 = q3 at hrf hst f1 f2 f3 f4 f5 f6 hlog
  have hs3 : q3.sections "buttons" = some n := by rw [hst.sections, a7, hsec]
  rw [toggleButtons_of q q1 q3 n hcs1 hrf hs3, f1, f3, a1, a3]
  by_cases hlen : q.buttonsToHide.length = cs.length
  · rw [if_pos hlen]
    refine ⟨_, hcs, rfl, f2.trans a8, rfl, fun _ => ⟨?_, ?_, ?_, ?_⟩, fun h => absurd hlen h⟩
    · exact f1.trans a1
    · exact f3.trans a3
    · show q3.timers ++ [⟨q3.nextTimer, 150, .hideButtons⟩] = _
      rw [f4, f5, a4, a5]
    · show q3.log = _
      rw [hlog, a6, a9]
  · rw [if_neg hlen]
    obtain ⟨q4, hq4, d1, d2, d3, d4, d5, d6⟩ :=
      detachAll_ok q3.buttonsToHide q3 (by rw [f1, a1, hst.buttons, a2]; exact w4)
    simp only [hideButtons, hq4, Outcome.andThen]
    refine ⟨_, hcs, rfl, ?_, rfl, fun h => absurd h hlen, fun _ => ?_⟩
    · show (if _ then _ else _ : Question).buttonsToShow = []
      split
      · exact d3.trans (f2.trans a8)
      · exact ((setElementHeight_fields _ n).2.1).trans (d3.trans (f2.trans a8))
    · have hl : q4.log = q.log ++ q.buttonsToShow.map .inserted ++ focusTrace q ++
          q.buttonsToHide.map .detachCalled := by
        rw [d1, hlog, a6, a9, f1, a1]
      have hc : q4.buttonChildren = cs.filter (fun x => decide (x ∉ q.buttonsToHide)) := by
        rw [d2, f3, a3, f1, a1]
      have ht : q4.timers = q.timers := by rw [d4, f4, a4]
      refine ⟨?_, ?_, ?_, ?_⟩
      · show (if _ then _ else _ : Question).buttonsToHide = []
        split
        · rfl
        · exact (setElementHeight_fields _ n).1
      · show (if _ then _ else _ : Question).buttonChildren = _
        split
        · exact hc
        · exact ((setElementHeight_fields _ n).2.2.1).trans hc
      · show (if _ then _ else _ : Question).timers = _
        split
        · exact ht
        · exact ((setElementHeight_fields _ n).2.2.2.1).trans ht
      · show (if _ then _ else _ : Question).log = _
        split
        · exact hl
        · exact ((setElementHeight_fields _ n).2.2.2.2).trans hl

theorem hideButtons_run (q : Question) (hreg : ∀ x ∈ q.buttonsToHide, x ∈ q.buttons) :
    ∃ r, hideButtons q = .ok r ∧ r.buttonsToHide = [] ∧
      r.log = q.log ++ q.buttonsToHide.map .detachCalled ∧
      r.buttonsToShow = q.buttonsToShow ∧ r.toggleButtonsTimer = q.toggleButtonsTimer := by
  obtain ⟨q4, hq4, d1, d2, d3, d4, d5, d6⟩ := detachAll_ok q.buttonsToHide q hreg
  exact ⟨{ q4 with buttonsToHide := [] }, by simp only [hideButtons, hq4, Outcome.andThen],
    rfl, d1, d3, d5⟩

theorem fire_toggle (q : Question) (i : Nat) (t : Timer) (ht : q.timers[i]? = some t)
    (hcb : t.callback = .toggleButtons) :
    fire q i = toggleButtons { q with timers := q.timers.eraseIdx i } := by
  simp only [fire, ht, hcb, runCallback]

theorem toggleButtons_without_buttons (q : Question) (hsec : q.sections "buttons" = none)
    (hh : q.buttonsToHide = []) (hs : q.buttonsToShow = []) :
    toggleButtons q = .threw q := by
  cases q
  simp only at hsec hh hs
  subst hh hs
  simp [toggleButtons, showAll, refocus, hsec, hideButtons, detachAll, Outcome.andThen]

/-- C11: when the coalescing callback fires in a reachable state, the events of
that firing are, in this order: the insertion of every pending-show button, then
the events of the loop that examines the pending-hide buttons (the call of
`focusButton()` and the focus it gives, present whenever a pending-hide button
holds the focus), then the detaching of the pending-hide buttons if the group is
not hidden as a whole and nothing otherwise; the detaching that a later
`hideButtons` does comes after all of these. -/
theorem toggle_shows_then_refocuses_then_detaches (q : Question) (i : Nat) (t : Timer)
    (hq : Reachable q) (ht : q.timers[i]? = some t) (hcb : t.callback = .toggleButtons) :
    ∃ cs,
      showAll q.buttonsToShow { q with timers := q.timers.eraseIdx i } =
        .ok { q with timers := q.timers.eraseIdx i, buttonChildren := cs,
                     log := q.log ++ q.buttonsToShow.map .inserted } ∧
      (fire q i).state.log = q.log ++ q.buttonsToShow.map .inserted ++ focusTrace q ++
        (if q.buttonsToHide.length = cs.length then []
          else q.buttonsToHide.map .detachCalled) ∧
      (∀ id, q.focus = some id → id ∈ q.buttonsToHide →
        ∃ rest, focusTrace q = .focusButtonCalled :: rest) ∧
      (hideButtons (fire q i).state).state.log =
        (fire q i).state.log ++ (fire q i).state.buttonsToHide.map .detachCalled := by
  have hwf := wellFormed_of_reachable q hq
  have hs := sound_of_reachable q hq
  have hlast : (hideButtons (fire q i).state).state.log =
      (fire q i).state.log ++ (fire q i).state.buttonsToHide.map .detachCalled := by
    have hr : Reachable (fire q i).state := Reachable.step q (.fire i) hq
    obtain ⟨r, hr1, -, hr2, -⟩ :=
      hideButtons_run (fire q i).state (wellFormed_of_reachable _ hr).2.2.2.1
    rw [hr1]
    exact hr2
  have hfoc : ∀ id, q.focus = some id → id ∈ q.buttonsToHide →
      ∃ rest, focusTrace q = .focusButtonCalled :: rest := by
    intro id hf hid
    simp only [focusTrace, hf, hid, if_true]
    exact ⟨_, rfl⟩
  cases hsec : q.sections "buttons" with
  | some n =>
    have hreg : ∀ k ∈ q.buttonOrder, k ∈ q.buttons := by
      rw [hs.registry]; exact fun _ h => h
    obtain ⟨cs, r, h1, h2, -, -, h5, h6⟩ :=
      toggleButtons_run { q with timers := q.timers.eraseIdx i } n hsec hreg hwf
    refine ⟨cs, h1, ?_, hfoc, hlast⟩
    rw [fire_toggle q i t ht hcb, h2]
    by_cases hlen : q.buttonsToHide.length = cs.length
    · rw [if_pos hlen, List.append_nil]
      exact (h5 hlen).2.2.2
    · rw [if_neg hlen]
      exact (h6 hlen).2.2.2
  | none =>
    have hb : q.buttons = [] := by
      by_contra hne
      have := hs.group hne
      rw [hsec] at this
      exact absurd this (by decide)
    have hh : q.buttonsToHide = [] :=
      List.eq_nil_iff_forall_not_mem.mpr (fun x hx => by
        have := hwf.2.2.2.1 x hx
        rw [hb] at this
        exact absurd this (List.not_mem_nil x))
    have hsw : q.buttonsToShow = [] :=
      List.eq_nil_iff_forall_not_mem.mpr (fun x hx => by
        have := hwf.2.2.2.2 x hx
        rw [hb] at this
        exact absurd this (List.not_mem_nil x))
    refine ⟨q.buttonChildren, ?_, ?_, hfoc, hlast⟩
    · rw [hsw]
      simp [showAll]
    · rw [fire_toggle q i t ht hcb,
        toggleButtons_without_buttons { q with timers := q.timers.eraseIdx i } hsec hh hsw]
      have hft : focusTrace q = [] := by
        unfold focusTrace
        rw [hh]
        cases q.focus <;> simp
      rw [hft, hh, hsw]
      simp [Outcome.state]

/-- C11 at two visible buttons, the first of which holds the focus and waits to
be hidden. -/
theorem toggle_shows_then_refocuses_then_detaches_witness :
    Reachable focusedHideState ∧
    focusedHideState.timers[0]? = some ⟨1, 0, .toggleButtons⟩ ∧
    (∃ rest, focusTrace focusedHideState = .focusButtonCalled :: rest) ∧
    (fire focusedHideState 0).state.log = focusedHideState.log ++
      [.focusButtonCalled, .focusCalled "b", .detachCalled "a"] :=
  ⟨reachable_run _ _ (Reachable.new _), by decide,
    (toggle_shows_then_refocuses_then_detaches focusedHideState 0 ⟨1, 0, .toggleButtons⟩
      (reachable_run _ _ (Reachable.new _)) (by decide) rfl).choose_spec.2.2.1 "a"
      (by decide) (by decide),
    by decide⟩

/-- C16, as stated, fails in the branch that hides the whole group: after the
callback returns, the only button is still in the pending-hide list. -/
theorem toggle_leaves_pending_hides_of_whole_group :
    Reachable pendingHideState ∧
    (pendingHideState.timers[0]?).map (fun t => t.callback) = some .toggleButtons ∧
    (fire pendingHideState 0).completed = true ∧
    (fire pendingHideState 0).state.buttonsToHide = ["a"] ∧
    (fire pendingHideState 0).state.buttonsToShow = [] ∧
    (fire pendingHideState 0).state.toggleButtonsTimer = none ∧
    (fire pendingHideState 0).state.timers = [⟨2, 150, .hideButtons⟩] :=
  ⟨reachable_run _ _ (Reachable.new _), by decide, by decide, by decide, by decide, by decide,
    by decide⟩

/-! ## A timer of the coalescing callback finds a registered button -/

theorem backing_refl (q : Question) : Backing q q :=
  ⟨fun _ h => h, fun _ h _ => Or.inl h⟩

theorem backing_trans {q q1 q2 : Question} (h1 : Backing q q1) (h2 : Backing q1 q2) :
    Backing q q2 := by
  refine ⟨fun x hx => h2.buttons x (h1.buttons x hx), fun t ht hcb => ?_⟩
  rcases h2.toggles t ht hcb with h | h
  · rcases h1.toggles t h hcb with h' | h'
    · exact Or.inl h'
    · obtain ⟨x, hx⟩ := List.exists_mem_of_ne_nil _ h'
      exact Or.inr (List.ne_nil_of_mem (h2.buttons x hx))
  · exact Or.inr h

theorem backing_andThen (q : Question) (o : Outcome) (f : Question → Outcome)
    (h1 : Backing q o.state) (h2 : ∀ q1, Backing q1 (f q1).state) :
    Backing q (o.andThen f).state := by
  cases o with
  | ok q1 => exact backing_trans h1 (h2 q1)
  | threw q1 => exact h1

theorem backing_of_eq {q q' : Question} (h1 : q'.buttons = q.buttons)
    (h2 : q'.timers = q.timers) : Backing q q' :=
  ⟨fun _ h => h1 ▸ h, fun _ h _ => Or.inl (h2 ▸ h)⟩

theorem backing_of_steady {q q' : Question} (h : Steady q q') (h2 : q'.timers = q.timers) :
    Backing q q' :=
  backing_of_eq h.buttons h2

theorem backing_setTimeout (q : Question) (cb : Callback) (delay : Nat)
    (hcb : cb ≠ .toggleButtons) : Backing q (q.setTimeout cb delay) := by
  refine ⟨fun _ h => h, fun t ht htc => ?_⟩
  simp only [Question.setTimeout, List.mem_append, List.mem_singleton] at ht
  rcases ht with ht | ht
  · exact Or.inl ht
  · rw [ht] at htc
    exact absurd htc hcb

theorem insertButton_backing (q : Question) (id : String) :
    Backing q (insertButton q id).state := by
  unfold insertButton
  split
  · split
    · exact backing_of_eq rfl rfl
    · exact backing_refl q
  · exact backing_refl q

theorem showAll_backing (l : List String) (q : Question) : Backing q (showAll l q).state := by
  induction l generalizing q with
  | nil => exact backing_refl q
  | cons id rest ih =>
    exact backing_andThen q _ _ (insertButton_backing q id) (fun q1 => ih q1)

theorem focusButton_backing (q : Question) (id : Option String) :
    Backing q (focusButton q id).state := by
  cases id with
  | none =>
    simp only [focusButton]
    split
    · exact backing_of_eq rfl rfl
    · exact backing_refl q
  | some id =>
    simp only [focusButton]
    split
    · split
      · exact backing_of_eq rfl rfl
      · exact backing_refl q
    · exact backing_refl q

theorem refocus_backing (l : List String) (q : Question) : Backing q (refocus l q).state := by
  induction l generalizing q with
  | nil => exact backing_refl q
  | cons id rest ih =>
    unfold refocus
    split
    · split
      · refine backing_andThen q _ _ ?_ (fun q1 => ih q1)
        exact backing_trans (backing_of_eq rfl rfl : Backing q (q.record .focusButtonCalled))
          (focusButton_backing _ none)
      · exact ih q
    · exact backing_refl q

theorem detachAll_backing (l : List String) (q : Question) :
    Backing q (detachAll l q).state := by
  induction l generalizing q with
  | nil => exact backing_refl q
  | cons id rest ih =>
    unfold detachAll
    split
    · exact backing_trans (backing_of_eq rfl rfl : Backing q (q.detachButton id)) (ih _)
    · exact backing_refl q

theorem hideButtons_backing (q : Question) : Backing q (hideButtons q).state := by
  unfold hideButtons
  exact backing_andThen q _ _ (detachAll_backing _ q) (fun q1 => backing_of_eq rfl rfl)

theorem setElementHeight_backing (q : Question) (n : Nat) :
    Backing q (setElementHeight q n) := by
  unfold setElementHeight
  split <;> exact backing_of_eq rfl rfl

theorem toggleButtons_backing (q : Question) : Backing q (toggleButtons q).state := by
  unfold toggleButtons
  refine backing_andThen q _ _ (showAll_backing _ q) (fun q1 => ?_)
  refine backing_andThen q1 _ _ (backing_trans
    (backing_of_eq rfl rfl : Backing q1 { q1 with buttonsToShow := [] })
    (refocus_backing _ _)) (fun q3 => ?_)
  refine backing_andThen q3 _ _ ?_ (fun q5 => backing_of_eq rfl rfl)
  split
  · split
    · exact backing_trans
        (backing_of_eq rfl rfl :
          Backing q3 ((q3.removeClass _ "h5p-question-visible").setMaxHeight _ .zero))
        (backing_setTimeout _ .hideButtons 150 (by decide))
    · refine backing_andThen q3 _ _ (hideButtons_backing q3) (fun q4 => ?_)
      show Backing q4 (if q4.buttonChildren.isEmpty then q4 else _)
      split
      · exact backing_refl q4
      · exact backing_trans (backing_of_eq rfl rfl : Backing q4 (q4.addClass _ _))
          (setElementHeight_backing _ _)
  · exact backing_andThen q3 _ _ (hideButtons_backing q3) (fun q4 => backing_refl q4)

theorem scheduleToggle_backing (q : Question) (hb : q.buttons ≠ []) :
    Backing q (scheduleToggle q) := by
  have hbs : (scheduleToggle q).buttons = q.buttons := by
    unfold scheduleToggle
    split <;> rfl
  exact ⟨fun _ h => hbs ▸ h, fun _ _ _ => Or.inr (by rw [hbs]; exact hb)⟩

theorem showButton_backing (q : Question) (id : String) : Backing q (showButton q id) := by
  unfold showButton
  split
  · exact backing_refl q
  · rename_i hreg
    split
    · exact backing_refl q
    · split
      · exact backing_of_eq rfl rfl
      · split
        · exact backing_refl q
        · exact backing_trans
            (backing_of_eq rfl rfl : Backing q { q with buttonsToShow := q.buttonsToShow ++ [id] })
            (scheduleToggle_backing _ (List.ne_nil_of_mem (not_not.mp hreg)))

theorem hideButton_backing (q : Question) (id : String) : Backing q (hideButton q id) := by
  unfold hideButton
  split
  · exact backing_refl q
  · rename_i hreg
    split
    · exact backing_refl q
    · split
      · exact backing_of_eq rfl rfl
      · split
        · exact backing_of_eq rfl rfl
        · exact backing_trans
            (backing_of_eq rfl rfl : Backing q { q with buttonsToHide := q.buttonsToHide ++ [id] })
            (scheduleToggle_backing _ (List.ne_nil_of_mem (not_not.mp hreg)))

theorem runCallback_backing (q : Question) (cb : Callback) :
    Backing q (runCallback q cb).state := by
  cases cb with
  | toggleButtons => exact toggleButtons_backing q
  | hideButtons => exact hideButtons_backing q
  | showFeedbackSection =>
    simp only [runCallback]
    split
    · exact backing_trans (backing_of_eq rfl rfl : Backing q (q.addClass _ _))
        (setElementHeight_backing _ _)
    · exact backing_refl q
  | detachFeedback =>
    simp only [runCallback]
    split
    · exact backing_refl q
    · split
      · exact backing_of_eq rfl rfl
      · exact backing_refl q

theorem fire_backing (q : Question) (i : Nat) : Backing q (fire q i).state := by
  unfold fire
  split
  · exact backing_refl q
  · exact backing_trans
      (⟨fun _ h => h, fun _ h _ => Or.inl (List.mem_of_mem_eraseIdx h)⟩ :
        Backing q { q with timers := q.timers.eraseIdx i })
      (runCallback_backing _ _)

theorem setContent_backing (q : Question) (content cls : Option String) :
    Backing q (setContent q content cls) := by
  unfold setContent
  split
  · split <;> exact backing_of_eq rfl rfl
  · exact backing_of_eq rfl rfl

theorem refreshScoreBar_backing (q : Question) (score maxScore : Int) :
    Backing q (refreshScoreBar q score maxScore) := by
  unfold refreshScoreBar
  split <;> exact backing_of_eq rfl rfl

theorem insertFeedback_backing (q : Question) : Backing q (insertFeedback q).state := by
  unfold insertFeedback
  split
  · exact backing_of_eq rfl rfl
  · exact backing_refl q

theorem update_backing (q : Question) (name : String) (content : Content) :
    Backing q (update q name content).state := by
  unfold update
  split
  · exact backing_of_eq rfl rfl
  · exact backing_refl q

theorem setFeedback_backing (q : Question) (content : Option String)
    (score maxScore : Int) : Backing q (setFeedback q content score maxScore).state := by
  rcases ofValue_cases content with hc | ⟨text, hc⟩
  · rw [setFeedback_of_empty q content score maxScore hc]
    split
    · split
      · rename_i n _ _
        have h1 : Backing q
            (({ q with showFeedback := false }.removeClass n "h5p-question-visible").setMaxHeight
              n .zero) := backing_of_eq rfl rfl
        exact backing_trans h1 (backing_setTimeout _ .detachFeedback 150 (by decide))
      · exact backing_refl q
    · exact backing_refl q
  · rw [setFeedback_of_html q content score maxScore text hc]
    have h2 : Backing q { refreshScoreBar q score maxScore with showFeedback := true } :=
      backing_trans (refreshScoreBar_backing q score maxScore) (backing_of_eq rfl rfl)
    refine backing_andThen q _ _ ?_ (fun q3 => ?_)
    · split
      · exact backing_trans h2 (update_backing _ _ _)
      · exact backing_trans h2 (backing_of_eq rfl rfl)
    · beta_reduce
      split
      · refine backing_andThen q3 _ _ ?_
          (fun q4 => backing_setTimeout q4 .showFeedbackSection 0 (by decide))
        split
        · split
          · exact backing_refl q3
          · exact insertFeedback_backing q3
        · exact backing_refl q3
      · exact backing_refl q3

theorem addButton_backing (q : Question) (id text : String) (visible : Option Bool) :
    Backing q (addButton q id text visible) := by
  unfold addButton
  split
  · exact backing_refl q
  · have hq1 : ∀ s : Option Nat, Backing q (match s with
        | none => register q "buttons" .empty
        | some _ => q) := by
      intro s
      cases s
      · exact backing_of_eq rfl rfl
      · exact backing_refl q
    refine backing_trans (hq1 (q.sections "buttons")) ?_
    generalize (match q.sections "buttons" with
        | none => register q "buttons" .empty
        | some _ => q) = q1
    have hq2 : Backing q1 { q1 with
        buttons := q1.buttons ++ [id]
        labels := fun k => if k = id then some text else q1.labels k
        buttonOrder := q1.buttonOrder ++ [id] } :=
      ⟨fun x hx => List.mem_append_left _ hx, fun _ h _ => Or.inl h⟩
    refine backing_trans hq2 ?_
    split
    · dsimp only
      split
      · exact backing_of_eq rfl rfl
      · exact backing_refl _
    · exact backing_refl _

theorem call_backing (q : Question) (c : Call) : Backing q (call q c).state := by
  cases c with
  | setImage path alt => exact backing_of_eq rfl rfl
  | setIntroduction content => exact backing_of_eq rfl rfl
  | setContent content cls => exact setContent_backing q content cls
  | setFeedback content score maxScore => exact setFeedback_backing q content score maxScore
  | addButton id text visible => exact addButton_backing q id text visible
  | showButton id => exact showButton_backing q id
  | hideButton id => exact hideButton_backing q id
  | focusButton id => exact focusButton_backing q id

theorem runCalls_backing (cs : List Call) (q : Question) :
    Backing q (runCalls cs q).state := by
  induction cs generalizing q with
  | nil => exact backing_refl q
  | cons c rest ih =>
    unfold runCalls
    exact backing_andThen q _ _ (call_backing q c) (fun q1 => ih q1)

theorem attach_backing (q : Question) (hook : Option (List Call)) :
    Backing q (attach q hook).state := by
  unfold attach
  refine backing_andThen q _ _ ?_ (fun q2 => backing_of_eq rfl rfl)
  split
  · exact backing_refl q
  · refine backing_andThen q _ _ ?_ (fun q1 => backing_of_eq rfl rfl)
    cases hook with
    | none => exact backing_refl q
    | some calls =>
      exact backing_trans (backing_of_eq rfl rfl : Backing q (q.record .hookCalled))
        (runCalls_backing calls _)

theorem step_backing (q : Question) (a : Action) : Backing q (step q a).state := by
  cases a with
  | call c => exact call_backing q c
  | attach hook => exact attach_backing q hook
  | fire i => exact fire_backing q i
  | render shown => exact backing_of_eq rfl rfl
  | userFocus target =>
    cases target with
    | none => exact backing_of_eq rfl rfl
    | some id =>
      simp only [step, Outcome.state]
      split
      · exact backing_of_eq rfl rfl
      · exact backing_refl q

theorem backed_of_backing {q q' : Question} (h : Backed q) (hb : Backing q q') : Backed q' := by
  intro t ht hcb
  rcases hb.toggles t ht hcb with h' | h'
  · obtain ⟨x, hx⟩ := List.exists_mem_of_ne_nil _ (h t h' hcb)
    exact List.ne_nil_of_mem (hb.buttons x hx)
  · exact h'

theorem backed_of_reachable (q : Question) (h : Reachable q) : Backed q := by
  induction h with
  | new type => exact fun t ht => absurd ht (by simp [Question.new])
  | step q a _ ih => exact backed_of_backing ih (step_backing q a)

/-- C16, amended: whenever the coalescing callback fires in a reachable state
it returns with the pending-show list empty and the timer handle undefined; the
pending-hide list is empty when some attached button stays, and when the whole
group is hidden it is kept as it was, with a `hideButtons` scheduled 150 ms
later, and that `hideButtons` empties it. -/
theorem toggle_settles_and_defers_whole_group (q : Question) (i : Nat) (t : Timer)
    (hq : Reachable q) (ht : q.timers[i]? = some t) (hcb : t.callback = .toggleButtons) :
    ∃ cs r,
      showAll q.buttonsToShow { q with timers := q.timers.eraseIdx i } =
        .ok { q with timers := q.timers.eraseIdx i, buttonChildren := cs,
                     log := q.log ++ q.buttonsToShow.map .inserted } ∧
      fire q i = .ok r ∧ r.buttonsToShow = [] ∧ r.toggleButtonsTimer = none ∧
      (q.buttonsToHide.length ≠ cs.length → r.buttonsToHide = []) ∧
      (q.buttonsToHide.length = cs.length →
        r.buttonsToHide = q.buttonsToHide ∧ r.buttonChildren = cs ∧
        r.timers = q.timers.eraseIdx i ++ [⟨q.nextTimer, 150, .hideButtons⟩]) ∧
      ∃ r', hideButtons r = .ok r' ∧ r'.buttonsToHide = [] ∧ r'.buttonsToShow = [] ∧
        r'.toggleButtonsTimer = none := by
  have hwf := wellFormed_of_reachable q hq
  have hs := sound_of_reachable q hq
  have hb : q.buttons ≠ [] := backed_of_reachable q hq t (List.getElem?_mem ht) hcb
  have hreg : ∀ k ∈ q.buttonOrder, k ∈ q.buttons := by
    rw [hs.registry]; exact fun _ h => h
  have hsome := hs.group hb
  cases hsec : q.sections "buttons" with
  | none =>
    rw [hsec] at hsome
    exact absurd hsome (by decide)
  | some n =>
    obtain ⟨cs, r, h1, h2, h3, h4, h5, h6⟩ :=
      toggleButtons_run { q with timers := q.timers.eraseIdx i } n hsec hreg hwf
    have hfire : fire q i = .ok r := (fire_toggle q i t ht hcb).trans h2
    have hr : Reachable r := by
      have := Reachable.step q (.fire i) hq
      simp only [step, hfire, Outcome.state] at this
      exact this
    obtain ⟨r', e1, e2, -, e4, e5⟩ := hideButtons_run r (wellFormed_of_reachable r hr).2.2.2.1
    exact ⟨cs, r, h1, hfire, h3, h4, fun hl => (h6 hl).1,
      fun hl => ⟨(h5 hl).1, (h5 hl).2.1, (h5 hl).2.2.1⟩,
      r', e1, e2, e4.trans h3, e5.trans h4⟩

/-- C16, amended, at an attached Question whose only button waits to be hidden. -/
theorem toggle_settles_and_defers_whole_group_witness :
    Reachable pendingHideState ∧
    pendingHideState.timers[0]? = some ⟨1, 0, .toggleButtons⟩ ∧
    ∃ r, fire pendingHideState 0 = .ok r ∧ r.buttonsToShow = [] ∧
      r.toggleButtonsTimer = none ∧
      ∃ r', hideButtons r = .ok r' ∧ r'.buttonsToHide = [] ∧ r'.buttonsToShow = [] ∧
        r'.toggleButtonsTimer = none := by
  refine ⟨reachable_run _ _ (Reachable.new _), by decide, ?_⟩
  obtain ⟨cs, r, -, h2, h3, h4, -, -, h7⟩ :=
    toggle_settles_and_defers_whole_group pendingHideState 0 ⟨1, 0, .toggleButtons⟩
      (reachable_run _ _ (Reachable.new _)) (by decide) rfl
  exact ⟨r, h2, h3, h4, h7⟩

/-! ## Feedback on a Question that lacks a section -/

/-- C17: on an attached Question whose only section is the button group,
`setFeedback('x', 1, 2)` raises: `insert` reads `elements['content']`, which is
`undefined`. The feedback section is registered but not put into the container,
and no timer is set to show it. The same happens with a content section in a
host container that is not displayed, where the walk reaches `introduction`. -/
theorem setFeedback_raises_at_unregistered_section :
    Reachable oneButtonState ∧ oneButtonState.wrapper = true ∧
    oneButtonState.wrapperChildren = [0] ∧
    (setFeedback oneButtonState (some "x") 1 2).completed = false ∧
    (setFeedback oneButtonState (some "x") 1 2).state.sections "feedback" = some 1 ∧
    (setFeedback oneButtonState (some "x") 1 2).state.wrapperChildren = [0] ∧
    (setFeedback oneButtonState (some "x") 1 2).state.timers = [] ∧
    insert oneButtonState.order "feedback"
      (setFeedback oneButtonState (some "x") 1 2).state.sections
      oneButtonState.wrapperContainer = .error .typeError ∧
    Reachable hiddenContentState ∧ hiddenContentState.wrapper = true ∧
    (hiddenContentState.sections "content").isSome = true ∧
    (setFeedback hiddenContentState (some "x") 1 2).completed = false :=
  ⟨reachable_run _ _ (Reachable.new _), by decide, by decide, by decide, by decide, by decide,
    by decide, by rfl, reachable_run _ _ (reachable_run _ _ (Reachable.new _)), by decide,
    by decide, by decide⟩

/-! ## The score bar -/

theorem keepsBar_refl (q : Question) : KeepsBar q q :=
  fun bar h => ⟨bar.score, h⟩

theorem keepsBar_trans {q q1 q2 : Question} (h1 : KeepsBar q q1) (h2 : KeepsBar q1 q2) :
    KeepsBar q q2 := by
  intro bar h
  obtain ⟨s, hs⟩ := h1 bar h
  exact h2 ⟨bar.maxScore, s⟩ hs

theorem keepsBar_andThen (q : Question) (o : Outcome) (f : Question → Outcome)
    (h1 : KeepsBar q o.state) (h2 : ∀ q1, KeepsBar q1 (f q1).state) :
    KeepsBar q (o.andThen f).state := by
  cases o with
  | ok q1 => exact keepsBar_trans h1 (h2 q1)
  | threw q1 => exact h1

theorem keepsBar_of_eq {q q' : Question} (h : q'.scoreBar = q.scoreBar) : KeepsBar q q' :=
  fun bar hb => ⟨bar.score, by rw [h, hb]⟩

theorem refreshScoreBar_scoreBar (q : Question) (score maxScore : Int) :
    (refreshScoreBar q score maxScore).scoreBar =
      some ⟨(q.scoreBar.map ScoreBar.maxScore).getD maxScore, score⟩ := by
  unfold refreshScoreBar
  cases q.scoreBar <;> rfl

theorem refreshScoreBar_keepsBar (q : Question) (score maxScore : Int) :
    KeepsBar q (refreshScoreBar q score maxScore) := by
  intro bar h
  exact ⟨score, by rw [refreshScoreBar_scoreBar, h]; rfl⟩

theorem scoreBar_andThen (q : Question) (o : Outcome) (f : Question → Outcome)
    (h1 : o.state.scoreBar = q.scoreBar) (h2 : ∀ q1, (f q1).state.scoreBar = q1.scoreBar) :
    (o.andThen f).state.scoreBar = q.scoreBar := by
  cases o with
  | ok q1 => exact (h2 q1).trans h1
  | threw q1 => exact h1

theorem update_scoreBar (q : Question) (name : String) (content : Content) :
    (update q name content).state.scoreBar = q.scoreBar := by
  unfold update
  split <;> rfl

theorem insertFeedback_scoreBar (q : Question) :
    (insertFeedback q).state.scoreBar = q.scoreBar := by
  unfold insertFeedback
  split <;> rfl

theorem setFeedback_scoreBar (q : Question) (content : Option String) (score maxScore : Int)
    (text : String) (hc : Content.ofValue content = .html text) :
    (setFeedback q content score maxScore).state.scoreBar =
      some ⟨(q.scoreBar.map ScoreBar.maxScore).getD maxScore, score⟩ := by
  rw [setFeedback_of_html q content score maxScore text hc, ← refreshScoreBar_scoreBar]
  refine scoreBar_andThen (refreshScoreBar q score maxScore) _ _ ?_ (fun q3 => ?_)
  · split
    · exact update_scoreBar _ _ _
    · rfl
  · beta_reduce
    split
    · refine scoreBar_andThen q3 _ _ ?_ (fun q4 => rfl)
      split
      · split
        · rfl
        · exact insertFeedback_scoreBar q3
      · rfl
    · rfl

theorem setFeedback_keepsBar (q : Question) (content : Option String) (score maxScore : Int) :
    KeepsBar q (setFeedback q content score maxScore).state := by
  rcases ofValue_cases content with hc | ⟨text, hc⟩
  · rw [setFeedback_of_empty q content score maxScore hc]
    split
    · split
      · exact keepsBar_of_eq rfl
      · exact keepsBar_refl q
    · exact keepsBar_refl q
  · intro bar h
    exact ⟨score, by rw [setFeedback_scoreBar q content score maxScore text hc, h]; rfl⟩

theorem addButton_scoreBar (q : Question) (id text : String) (visible : Option Bool) :
    (addButton q id text visible).scoreBar = q.scoreBar := by
  unfold addButton
  split
  · rfl
  · dsimp only
    cases q.sections "buttons" <;> cases visible.getD true <;> simp [register] <;>
      (try split) <;> rfl

theorem setContent_scoreBar (q : Question) (content cls : Option String) :
    (setContent q content cls).scoreBar = q.scoreBar := by
  unfold setContent
  split
  · split <;> rfl
  · rfl

theorem call_keepsBar (q : Question) (c : Call) : KeepsBar q (call q c).state := by
  cases c with
  | setImage path alt => exact keepsBar_of_eq rfl
  | setIntroduction content => exact keepsBar_of_eq rfl
  | setContent content cls => exact keepsBar_of_eq (setContent_scoreBar q content cls)
  | setFeedback content score maxScore => exact setFeedback_keepsBar q content score maxScore
  | addButton id text visible => exact keepsBar_of_eq (addButton_scoreBar q id text visible)
  | showButton id => exact keepsBar_of_eq (showButton_steady q id).scoreBar
  | hideButton id => exact keepsBar_of_eq (hideButton_steady q id).scoreBar
  | focusButton id => exact keepsBar_of_eq (focusButton_steady q id).scoreBar

theorem runCalls_keepsBar (cs : List Call) (q : Question) :
    KeepsBar q (runCalls cs q).state := by
  induction cs generalizing q with
  | nil => exact keepsBar_refl q
  | cons c rest ih =>
    unfold runCalls
    exact keepsBar_andThen q _ _ (call_keepsBar q c) (fun q1 => ih q1)

theorem attach_keepsBar (q : Question) (hook : Option (List Call)) :
    KeepsBar q (attach q hook).state := by
  unfold attach
  refine keepsBar_andThen q _ _ ?_ (fun q2 => keepsBar_of_eq rfl)
  split
  · exact keepsBar_refl q
  · refine keepsBar_andThen q _ _ ?_ (fun q1 => keepsBar_of_eq rfl)
    cases hook with
    | none => exact keepsBar_refl q
    | some calls =>
      exact keepsBar_trans (keepsBar_of_eq rfl : KeepsBar q (q.record .hookCalled))
        (runCalls_keepsBar calls _)

theorem step_keepsBar (q : Question) (a : Action) : KeepsBar q (step q a).state := by
  cases a with
  | call c => exact call_keepsBar q c
  | attach hook => exact attach_keepsBar q hook
  | fire i => exact keepsBar_of_eq (fire_steady q i).scoreBar
  | render shown => exact keepsBar_of_eq rfl
  | userFocus target =>
    cases target with
    | none => exact keepsBar_of_eq rfl
    | some id =>
      simp only [step, Outcome.state]
      split
      · exact keepsBar_of_eq rfl
      · exact keepsBar_refl q

/-- C19, as stated, fails at the second call: the indicator created for
`setFeedback('a', 1, 2)` shows the score 3 of `setFeedback('b', 3, 5)` out of
2, not out of 5. -/
theorem second_setFeedback_keeps_first_maxScore :
    Reachable firstFeedbackState ∧ firstFeedbackState.scoreBar = some ⟨2, 1⟩ ∧
    (setFeedback firstFeedbackState (some "b") 3 5).completed = true ∧
    (setFeedback firstFeedbackState (some "b") 3 5).state.scoreBar = some ⟨2, 3⟩ ∧
    (setFeedback firstFeedbackState (some "b") 3 5).state.log = [.scoreBarCreated 2] :=
  ⟨reachable_run _ _ (Reachable.new _), by decide, by decide, by decide, by decide⟩

/-- C19, amended: in a reachable state, after `setFeedback` with non-empty
content the indicator shows that call's score out of the `maxScore` the
indicator was created with, which is this call's `maxScore` only if there was no
indicator before; no step changes the `maxScore` of an indicator that exists;
and `createScoreBar` has been called at most once before the call and exactly
once after it. -/
theorem scoreBar_shows_score_of_first_maxScore (q : Question) (content : Option String)
    (score maxScore : Int) (text : String) (hq : Reachable q)
    (hc : Content.ofValue content = .html text) :
    (setFeedback q content score maxScore).state.scoreBar =
      some ⟨(q.scoreBar.map ScoreBar.maxScore).getD maxScore, score⟩ ∧
    (∀ a bar, q.scoreBar = some bar →
      ∃ s, (step q a).state.scoreBar = some ⟨bar.maxScore, s⟩) ∧
    q.log.countP Event.isScoreBarCreated ≤ 1 ∧
    (setFeedback q content score maxScore).state.log.countP Event.isScoreBarCreated = 1 := by
  have hs := sound_of_reachable q hq
  have hs2 := sound_of_reachable _
    (Reachable.step q (.call (.setFeedback content score maxScore)) hq)
  have hbar := setFeedback_scoreBar q content score maxScore text hc
  refine ⟨hbar, fun a bar h => step_keepsBar q a bar h, ?_, ?_⟩
  · rw [hs.scoreBars]
    split <;> decide
  · have h2 := hs2.scoreBars
    simp only [step, call] at h2
    rw [h2]
    simp [hbar]

/-- C19, amended, at a second call of `setFeedback`. -/
theorem scoreBar_shows_score_of_first_maxScore_witness :
    Reachable firstFeedbackState ∧ Content.ofValue (some "b") = .html "b" ∧
    (setFeedback firstFeedbackState (some "b") 3 5).state.scoreBar = some ⟨2, 3⟩ ∧
    (setFeedback firstFeedbackState (some "b") 3 5).state.log.countP
      Event.isScoreBarCreated = 1 :=
  ⟨reachable_run _ _ (Reachable.new _), by decide,
    (scoreBar_shows_score_of_first_maxScore firstFeedbackState (some "b") 3 5 "b"
      (reachable_run _ _ (Reachable.new _)) (by decide)).1.trans (by decide),
    (scoreBar_shows_score_of_first_maxScore firstFeedbackState (some "b") 3 5 "b"
      (reachable_run _ _ (Reachable.new _)) (by decide)).2.2.2⟩

/-! ## Registering a section again -/

/-- C15, as stated, fails: on an attached Question with the introduction `a`, a
second `setIntroduction('b')` makes the slot refer to a new element, which is not
in the container; the element in the container is the old one and still holds
`a`. -/
theorem second_setIntroduction_makes_new_element :
    Reachable introducedState ∧
    introducedState.sections "introduction" = some 0 ∧
    introducedState.wrapperChildren = [0] ∧
    (setIntroduction introducedState (some "b")).sections "introduction" = some 1 ∧
    (setIntroduction introducedState (some "b")).wrapperChildren = [0] ∧
    ((setIntroduction introducedState (some "b")).elems 0).content = .html "a" ∧
    ((setIntroduction introducedState (some "b")).elems 1).content = .html "b" :=
  ⟨reachable_run _ _ (Reachable.new _), by decide, by decide, by decide, by decide, by decide,
    by decide⟩

/-- C15, amended: in a reachable state every call of `setIntroduction` and of
`setContent` makes a new element for its slot, holding the given content: the
element is not in the container and was no slot's element, the slot refers to
it afterwards, and the children of the container, the other slots and every
element that existed (the slot's former element among them) are as before. -/
theorem setIntroduction_setContent_make_new_element (q : Question)
    (content cls : Option String) (hq : Reachable q) :
    q.nextNode ∉ q.wrapperChildren ∧ (∀ name, q.sections name ≠ some q.nextNode) ∧
    ((setIntroduction q content).sections "introduction" = some q.nextNode ∧
      ((setIntroduction q content).elems q.nextNode).content = Content.ofValue content ∧
      (setIntroduction q content).wrapperChildren = q.wrapperChildren ∧
      (∀ name, name ≠ "introduction" →
        (setIntroduction q content).sections name = q.sections name) ∧
      (∀ m, m ≠ q.nextNode → (setIntroduction q content).elems m = q.elems m)) ∧
    ((setContent q content cls).sections "content" = some q.nextNode ∧
      ((setContent q content cls).elems q.nextNode).content = Content.ofValue content ∧
      (setContent q content cls).wrapperChildren = q.wrapperChildren ∧
      (∀ name, name ≠ "content" → (setContent q content cls).sections name = q.sections name) ∧
      (∀ m, m ≠ q.nextNode → (setContent q content cls).elems m = q.elems m)) := by
  have hs := sound_of_reachable q hq
  refine ⟨fun h => Nat.lt_irrefl _ (hs.freshChildren _ h),
    fun name h => Nat.lt_irrefl _ (hs.freshSections name _ h), ?_, ?_⟩
  · refine ⟨by simp [setIntroduction, register], by simp [setIntroduction, register], rfl, ?_, ?_⟩
    · intro name hn
      simp [setIntroduction, register, hn]
    · intro m hm
      simp [setIntroduction, register, hm]
  · cases cls with
    | none =>
      refine ⟨by simp [setContent, register], by simp [setContent, register], rfl, ?_, ?_⟩
      · intro name hn
        simp [setContent, register, hn]
      · intro m hm
        simp [setContent, register, hm]
    | some c =>
      by_cases hc : c = ""
      · refine ⟨by simp [setContent, register, hc], by simp [setContent, register, hc], ?_, ?_, ?_⟩
        · simp [setContent, register, hc]
        · intro name hn
          simp [setContent, register, hn, hc]
        · intro m hm
          simp [setContent, register, hm, hc]
      · refine ⟨?_, ?_, ?_, ?_, ?_⟩
        · simp [setContent, register, hc, Question.addClass, Question.setElem]
        · simp only [setContent, register, hc, Question.addClass, Question.setElem, if_false,
            if_true]
        · simp [setContent, register, hc, Question.addClass, Question.setElem]
        · intro name hn
          simp [setContent, register, hn, hc, Question.addClass, Question.setElem]
        · intro m hm
          simp [setContent, register, hm, hc, Question.addClass, Question.setElem]

/-- C15, amended, at an attached Question with an introduction. -/
theorem setIntroduction_setContent_make_new_element_witness :
    Reachable introducedState ∧ introducedState.nextNode = 1 ∧
    (setIntroduction introducedState (some "b")).sections "introduction" = some 1 ∧
    (1 : Nat) ∉ introducedState.wrapperChildren ∧
    (setIntroduction introducedState (some "b")).elems 0 = introducedState.elems 0 :=
  ⟨reachable_run _ _ (Reachable.new _), by decide,
    (setIntroduction_setContent_make_new_element introducedState (some "b") none
      (reachable_run _ _ (Reachable.new _))).2.2.1.1,
    (setIntroduction_setContent_make_new_element introducedState (some "b") none
      (reachable_run _ _ (Reachable.new _))).1,
    (setIntroduction_setContent_make_new_element introducedState (some "b") none
      (reachable_run _ _ (Reachable.new _))).2.2.1.2.2.2.2 0 (by decide)⟩

/-! ## Where addButton puts the button -/

section PlannerAtTheEnd

variable {E : Type} [DecidableEq E]

theorem placeAfter_concat (e t : E) (l : List E) (h : t ∉ l) :
    placeAfter e t (l ++ [t]) = l ++ [t, e] := by
  induction l with
  | nil => simp [placeAfter]
  | cons x xs ih =>
    have hx : x ≠ t := fun hx => h (by simp [hx])
    have hxs : t ∉ xs := fun hm => h (by simp [hm])
    simp [placeAfter, hx, ih hxs]

theorem insert_last_of_none_visible (pre : List String) (id : String)
    (elements : String → Option E) (c : Container E) (e : E) (hid : id ∉ pre)
    (he : elements id = some e) (hel : ∀ k ∈ pre, (elements k).isSome)
    (hh : ∀ k ∈ pre, visibleId elements c k = false) :
    insert (pre ++ [id]) id elements c = .ok ⟨e :: without e c.children, c.rendered⟩ := by
  have hidx : List.indexOf id (pre ++ [id]) = pre.length := indexOf_split pre [] id hid
  have hlt : pre.length < (pre ++ [id]).length := by simp
  have hw := walkBack_all_hidden elements c pre [id] hel hh
  simp only [insert, hidx, hlt, if_true, hw, he, Container.prependTo]

theorem insert_last_after (l : List String) (k : String) (r : List String) (id : String)
    (elements : String → Option E) (c : Container E) (e t : E) (hid : id ∉ l ++ k :: r)
    (he : elements id = some e) (hk : elements k = some t) (hv : c.visible t = true)
    (hel : ∀ x ∈ r, (elements x).isSome) (hr : ∀ x ∈ r, visibleId elements c x = false) :
    insert (l ++ k :: r ++ [id]) id elements c =
      .ok ⟨placeAfter e t (without e c.children), c.rendered⟩ := by
  have hidx : List.indexOf id (l ++ k :: r ++ [id]) = (l ++ k :: r).length :=
    indexOf_split (l ++ k :: r) [] id hid
  have hlt : (l ++ k :: r).length < (l ++ k :: r ++ [id]).length := by simp
  have hw := walkBack_stops elements c l k r [id] t hk hv hel hr
  have hg : (l ++ k :: r ++ [id])[l.length]? = some k := by
    rw [List.append_assoc]
    exact getElem?_at_length l k (r ++ [id])
  simp only [insert, hidx, hlt, if_true, hw, he, hg, hk, Container.insertAfter]

end PlannerAtTheEnd

theorem addButton_registered (q : Question) (id text : String) (hid : id ∉ q.buttons) :
    (addButton q id text (some false)).buttons = q.buttons ++ [id] ∧
    (addButton q id text (some false)).buttonOrder = q.buttonOrder ++ [id] ∧
    (addButton q id text (some false)).buttonChildren = q.buttonChildren ∧
    ((addButton q id text (some false)).sections "buttons").isSome = true ∧
    (q.buttonsContainer.rendered = true →
      (addButton q id text (some false)).buttonsContainer.rendered = true) := by
  cases hsec : q.sections "buttons" with
  | none =>
    refine ⟨?_, ?_, ?_, ?_, ?_⟩
    · simp [addButton, hid, hsec, register]
    · simp [addButton, hid, hsec, register]
    · simp [addButton, hid, hsec, register]
    · simp [addButton, hid, hsec, register]
    · intro h
      simp [Question.buttonsContainer, hsec] at h
  | some n =>
    refine ⟨?_, ?_, ?_, ?_, ?_⟩
    · simp [addButton, hid, hsec]
    · simp [addButton, hid, hsec]
    · simp [addButton, hid, hsec]
    · simp [addButton, hid, hsec]
    · intro h
      simpa [addButton, hid, hsec, Question.buttonsContainer, Question.sectionVisible,
        Question.wrapperContainer] using h

theorem addButton_attached (q : Question) (id text : String) (visible : Option Bool)
    (hid : id ∉ q.buttons) (hv : visible.getD true = true) :
    (addButton q id text visible).buttonChildren = without id q.buttonChildren ++ [id] ∧
    ∃ n, (addButton q id text visible).sections "buttons" = some n ∧
      (addButton q id text visible).hasClass n "h5p-question-visible" = true := by
  cases hsec : q.sections "buttons" with
  | none =>
    refine ⟨by simp [addButton, hid, hsec, register, hv, Question.addClass, Question.setElem],
      q.nextNode, by simp [addButton, hid, hsec, register, hv, Question.addClass, Question.setElem],
      ?_⟩
    simp [addButton, hid, hsec, register, hv, Question.addClass, Question.setElem,
      Question.hasClass]
  | some n =>
    refine ⟨by simp [addButton, hid, hsec, hv, Question.addClass, Question.setElem],
      n, by simp [addButton, hid, hsec, hv, Question.addClass, Question.setElem], ?_⟩
    simp only [addButton, hid, hsec, hv, Question.addClass, Question.setElem,
      Question.hasClass, if_true, if_false, decide_eq_true_eq]
    split <;> simp_all

/-- C18, as stated, fails while the button group is not displayed: with the
button `a` attached to a Question that has not been attached, `addButton('b')`
gives the children `[a, b]`, and `insert` after the push gives `[b, a]`. -/
theorem addButton_appends_where_insert_prepends :
    Reachable unattachedButtonState ∧ "b" ∉ unattachedButtonState.buttons ∧
    (addButton unattachedButtonState "b" "B" none).buttonChildren = ["a", "b"] ∧
    (addButton unattachedButtonState "b" "B" (some false)).buttonOrder = ["a", "b"] ∧
    (addButton unattachedButtonState "b" "B" (some false)).buttonChildren = ["a"] ∧
    insert (addButton unattachedButtonState "b" "B" (some false)).buttonOrder "b"
      (addButton unattachedButtonState "b" "B" (some false)).buttonElement
      (addButton unattachedButtonState "b" "B" (some false)).buttonsContainer =
      .ok ⟨["b", "a"], false⟩ :=
  ⟨reachable_run _ _ (Reachable.new _), by decide, by decide, by decide, by decide, by rfl⟩

/-- C18, amended: in a reachable state `addButton` with a new id and `visible`
true or undefined puts the button last in the button group and gives the group
the class `h5p-question-visible`. That child list is the one `insert` computes
after the push when no button is attached, and when the group is displayed and
its last child is the attached button that comes last in `buttonOrder`. -/
theorem addButton_appends_as_insert_would (q : Question) (id text : String)
    (visible : Option Bool) (hq : Reachable q) (hid : id ∉ q.buttons)
    (hv : visible.getD true = true) :
    (addButton q id text visible).buttonChildren = without id q.buttonChildren ++ [id] ∧
    (∃ n, (addButton q id text visible).sections "buttons" = some n ∧
      (addButton q id text visible).hasClass n "h5p-question-visible" = true) ∧
    (addButton q id text (some false)).buttonOrder = q.buttonOrder ++ [id] ∧
    (q.buttonChildren = [] →
      insert (addButton q id text (some false)).buttonOrder id
        (addButton q id text (some false)).buttonElement
        (addButton q id text (some false)).buttonsContainer =
        .ok ⟨(addButton q id text visible).buttonChildren,
          (addButton q id text (some false)).buttonsContainer.rendered⟩) ∧
    (∀ pre k l r, q.buttonsContainer.rendered = true → q.buttonChildren = pre ++ [k] →
      k ∉ pre → q.buttonOrder = l ++ k :: r → (∀ x ∈ r, x ∉ q.buttonChildren) →
      insert (addButton q id text (some false)).buttonOrder id
        (addButton q id text (some false)).buttonElement
        (addButton q id text (some false)).buttonsContainer =
        .ok ⟨(addButton q id text visible).buttonChildren,
          (addButton q id text (some false)).buttonsContainer.rendered⟩) := by
  have hs := sound_of_reachable q hq
  obtain ⟨b1, b2, b3, b4, b5⟩ := addButton_registered q id text hid
  obtain ⟨c1, c2⟩ := addButton_attached q id text visible hid hv
  have hido : id ∉ q.buttonOrder := by rw [← hs.registry]; exact hid
  have hel : ∀ x, x ∈ q.buttonOrder ++ [id] →
      (addButton q id text (some false)).buttonElement x = some x := by
    intro x hx
    simp only [Question.buttonElement, b1, ← hs.registry]
    rw [hs.registry, if_pos hx]
  refine ⟨c1, c2, b2, ?_, ?_⟩
  · intro hc
    rw [b2, insert_last_of_none_visible q.buttonOrder id _ _ id hido (hel id (by simp))
      (fun k hk => by rw [hel k (by simp [hk])]; rfl)
      (fun k hk => by
        simp [visibleId, hel k (List.mem_append_left _ hk), Container.visible,
          Question.buttonsContainer, b3, hc])]
    simp [Question.buttonsContainer, b3, hc, c1, without]
  · intro pre k l r hren hch hk hord hr
    have hkid : k ≠ id := by
      intro h
      apply hido
      rw [hord, ← h]
      simp
    have hkm : k ∈ q.buttonOrder ++ [id] := by rw [hord]; simp
    have hvis : (addButton q id text (some false)).buttonsContainer.visible k = true := by
      simp only [Container.visible, b5 hren, Bool.true_and, decide_eq_true_eq]
      show k ∈ (addButton q id text (some false)).buttonChildren
      rw [b3, hch]
      simp
    rw [b2, hord, insert_last_after l k r id _ _ id k (by rw [← hord]; exact hido)
      (hel id (by simp)) (hel k hkm) hvis
      (fun x hx => by rw [hel x (by rw [hord]; simp [hx])]; rfl)
      (fun x hx => by
        have hx1 := hr x hx
        simp [visibleId, hel x (by rw [hord]; simp [hx]), Container.visible,
          Question.buttonsContainer, b3, hx1])]
    have hw : without id (pre ++ [k]) = without id pre ++ [k] := by
      simp [without, List.filter_append, hkid]
    have hkw : k ∉ without id pre := fun h => hk (mem_without.mp h).1
    simp only [Question.buttonsContainer, b3, hch, c1, hw, placeAfter_concat id k _ hkw]
    simp

/-- C18, amended, at an attached Question with the visible button `a`. -/
theorem addButton_appends_as_insert_would_witness :
    Reachable oneButtonState ∧ "b" ∉ oneButtonState.buttons ∧
    (addButton oneButtonState "b" "B" none).buttonChildren = ["a", "b"] ∧
    insert (addButton oneButtonState "b" "B" (some false)).buttonOrder "b"
      (addButton oneButtonState "b" "B" (some false)).buttonElement
      (addButton oneButtonState "b" "B" (some false)).buttonsContainer =
      .ok ⟨(addButton oneButtonState "b" "B" none).buttonChildren,
        (addButton oneButtonState "b" "B" (some false)).buttonsContainer.rendered⟩ :=
  ⟨reachable_run _ _ (Reachable.new _), by decide,
    (addButton_appends_as_insert_would oneButtonState "b" "B" none
      (reachable_run _ _ (Reachable.new _)) (by decide) rfl).1.trans (by decide),
    (addButton_appends_as_insert_would oneButtonState "b" "B" none
      (reachable_run _ _ (Reachable.new _)) (by decide) rfl).2.2.2.2 [] "a" [] []
      (by decide) (by decide) (by decide) (by decide) (by decide)⟩

end H5PQuestion
